import Mathlib

/-!
Verification development for the Smart-AI-Agent-IDE task-tree orchestration
engine.  The Python sources under `agent/` and `components/` are shallowly
embedded: strings are lists of characters, Python dicts are insertion-ordered
association lists, JSON values are an inductive type, and the LLM gateway is
an oracle `Nat → Except Str Str` indexed by the global call counter.
-/

set_option maxRecDepth 10000

namespace SmartAgent

/-- Python strings, embedded as lists of characters. -/
abbrev Str := List Char

/-- Coerce a Lean string literal to the embedded string type. -/
def txt (s : String) : Str := s.data

/-- The left-brace character (written numerically). -/
def lbrace : Char := Char.ofNat 123

/-- The right-brace character (written numerically). -/
def rbrace : Char := Char.ofNat 125

/-- Python `str.strip` / regex `\s` whitespace set (ASCII fragment). -/
def pyWsChars : List Char := [' ', '\t', '\n', '\r', Char.ofNat 11, Char.ofNat 12]

def isWs (c : Char) : Bool := pyWsChars.contains c

/-- Python `str.strip()` (both ends). -/
def pyStrip (s : Str) : Str :=
  ((s.dropWhile isWs).reverse.dropWhile isWs).reverse

/-- Python `str.lstrip()`-like helper used by regex `\s*` consumption. -/
def dropWs (s : Str) : Str := s.dropWhile isWs

/-- Decimal rendering of a natural number (used for f-string interpolation). -/
def natRepr (n : Nat) : Str := Nat.toDigits 10 n

/-- Decimal rendering of an integer. -/
def intRepr (n : Int) : Str :=
  if n < 0 then '-' :: natRepr n.natAbs else natRepr n.natAbs

/-- Does `pat` occur at the head of `s`? -/
def startsWith : Str → Str → Bool
  | [], _ => true
  | _ :: _, [] => false
  | p :: ps, c :: cs => p = c ∧ startsWith ps cs

/-- Python `needle in haystack` on strings (substring search). -/
def containsSub (hay needle : Str) : Bool :=
  match hay with
  | [] => startsWith needle []
  | _ :: rest => startsWith needle hay || containsSub rest needle

/-- Membership of a single character (Python `':' in s`). -/
def hasChar (s : Str) (c : Char) : Bool := s.contains c

/-! ### Insertion-ordered dictionaries (Python `dict` on an association list) -/

variable {κ α : Type}

/-- `d.get(k)` / `d[k]` lookup. -/
def dictGet [DecidableEq κ] : List (κ × α) → κ → Option α
  | [], _ => none
  | (k, v) :: rest, key => if k = key then some v else dictGet rest key

/-- `d[k] = v`: update in place, else append (insertion order preserved). -/
def dictSet [DecidableEq κ] : List (κ × α) → κ → α → List (κ × α)
  | [], key, v => [(key, v)]
  | (k, w) :: rest, key, v =>
    if k = key then (key, v) :: rest else (k, w) :: dictSet rest key v

/-- `d.pop(k, None)`: drop the entry with the given key, if present. -/
def dictPop [DecidableEq κ] : List (κ × α) → κ → List (κ × α)
  | [], _ => []
  | (k, v) :: rest, key => if k = key then rest else (k, v) :: dictPop rest key

/-- `k in d` on dictionaries. -/
def dictHasKey [DecidableEq κ] (d : List (κ × α)) (key : κ) : Bool :=
  (dictGet d key).isSome

/-- Python `list.remove(x)`: drop the first occurrence (call sites guard presence). -/
def pyListRemove [DecidableEq α] : List α → α → List α
  | [], _ => []
  | x :: rest, y => if x = y then rest else x :: pyListRemove rest y

/-! ### JSON values (results of `json.loads`) -/

/-- A parsed JSON value.  Integral numbers are `num`; numbers carrying a
fraction or exponent keep their literal text in `flt`. -/
inductive JVal where
  | null
  | bool (b : Bool)
  | num (n : Int)
  | flt (lit : Str)
  | str (s : Str)
  | arr (xs : List JVal)
  | obj (fields : List (Str × JVal))

/-- Is every mantissa digit of a JSON float literal zero? -/
def fltMantissaZero (lit : Str) : Bool :=
  (lit.takeWhile (fun c => c ≠ 'e' ∧ c ≠ 'E')).all
    (fun c => ¬ c.isDigit ∨ c = '0')

/-- Python truthiness of a parsed JSON value (`if parsed_output:`). -/
def JVal.truthy : JVal → Bool
  | .null => false
  | .bool b => b
  | .num n => n ≠ 0
  | .flt lit => ¬ fltMantissaZero lit
  | .str s => ¬ s.isEmpty
  | .arr xs => ¬ xs.isEmpty
  | .obj fs => ¬ fs.isEmpty

/-- Python `needle == v` where `needle` is a string (strings only compare
equal to equal strings; every other case is `False`). -/
def pyEqStr (needle : Str) : JVal → Bool
  | .str s => s = needle
  | _ => false

/-- Python `key in v`.  Dicts check keys, lists check element equality,
strings check substrings; other values raise `TypeError`. -/
def JVal.hasMem (needle : Str) : JVal → Except Str Bool
  | .obj fs => .ok (dictHasKey fs needle)
  | .arr xs => .ok (xs.any (pyEqStr needle))
  | .str s => .ok (containsSub s needle)
  | _ => .error (txt "TypeError: argument is not iterable")

/-- `d[key]` on a parsed JSON object (call sites establish presence). -/
def JVal.objGet : JVal → Str → Option JVal
  | .obj fs, key => dictGet fs key
  | _, _ => none

/-- `d.get(key, default)` on a parsed JSON object. -/
def JVal.getD (v : JVal) (key : Str) (dflt : JVal) : JVal :=
  match v.objGet key with
  | some w => w
  | none => dflt

/-! ### `json.loads` (recursive-descent JSON parser, fuel-indexed) -/

def jsonWs : List Char := [' ', '\t', '\n', '\r']

def isJsonWs (c : Char) : Bool := jsonWs.contains c

def dropJsonWs (s : Str) : Str := s.dropWhile isJsonWs

def hexVal (c : Char) : Option Nat :=
  if c.isDigit then some (c.toNat - 48)
  else if 'a' ≤ c ∧ c ≤ 'f' then some (c.toNat - 87)
  else if 'A' ≤ c ∧ c ≤ 'F' then some (c.toNat - 55)
  else none

/-- Parse the body of a JSON string after the opening quote. -/
def jParseStr : Nat → Str → Option (Str × Str)
  | 0, _ => none
  | _ + 1, [] => none
  | fuel + 1, c :: rest =>
    if c = '"' then some ([], rest)
    else if c = '\\' then
      match rest with
      | [] => none
      | e :: rest2 =>
        let esc : Option (Char × Str) :=
          if e = '"' then some ('"', rest2)
          else if e = '\\' then some ('\\', rest2)
          else if e = '/' then some ('/', rest2)
          else if e = 'b' then some (Char.ofNat 8, rest2)
          else if e = 'f' then some (Char.ofNat 12, rest2)
          else if e = 'n' then some ('\n', rest2)
          else if e = 'r' then some ('\r', rest2)
          else if e = 't' then some ('\t', rest2)
          else if e = 'u' then
            match rest2 with
            | h1 :: h2 :: h3 :: h4 :: rest3 =>
              match hexVal h1, hexVal h2, hexVal h3, hexVal h4 with
              | some a, some b, some c2, some d =>
                some (Char.ofNat (((a * 16 + b) * 16 + c2) * 16 + d), rest3)
              | _, _, _, _ => none
            | _ => none
          else none
        match esc with
        | some (ch, rest3) =>
          match jParseStr fuel rest3 with
          | some (cs, rem) => some (ch :: cs, rem)
          | none => none
        | none => none
    else if c.toNat < 32 then none
    else
      match jParseStr fuel rest with
      | some (cs, rem) => some (c :: cs, rem)
      | none => none

/-- Digits prefix of a string. -/
def takeDigits (s : Str) : Str × Str := (s.takeWhile Char.isDigit, s.dropWhile Char.isDigit)

/-- Parse a JSON number (grammar `-?(0|[1-9][0-9]*)(\.[0-9]+)?([eE][+-]?[0-9]+)?`). -/
def jParseNum (s : Str) : Option (JVal × Str) :=
  let (neg, s1) := match s with
    | '-' :: rest => (true, rest)
    | _ => (false, s)
  let (intPart, s2) := takeDigits s1
  if intPart = [] then none
  else if intPart.length > 1 ∧ intPart.headD '0' = '0' then none
  else
    let (frac, s3) := match s2 with
      | '.' :: rest =>
        let (ds, r) := takeDigits rest
        if ds = [] then (none, s2) else (some ds, r)
      | _ => (none, s2)
    match frac with
    | none =>
      -- still may carry an exponent, which makes the value a float in Python
      match s3 with
      | e :: rest =>
        if e = 'e' ∨ e = 'E' then
          let (sign, r1) := match rest with
            | '+' :: r => (['+'], r)
            | '-' :: r => (['-'], r)
            | _ => (([] : Str), rest)
          let (eds, r2) := takeDigits r1
          if eds = [] then
            some (.num (if neg then -(Int.ofNat (natOfDigits intPart)) else Int.ofNat (natOfDigits intPart)), s3)
          else
            some (.flt ((if neg then ['-'] else []) ++ intPart ++ [e] ++ sign ++ eds), r2)
        else
          some (.num (if neg then -(Int.ofNat (natOfDigits intPart)) else Int.ofNat (natOfDigits intPart)), s3)
      | [] =>
        some (.num (if neg then -(Int.ofNat (natOfDigits intPart)) else Int.ofNat (natOfDigits intPart)), s3)
    | some ds =>
      match s3 with
      | e :: rest =>
        if e = 'e' ∨ e = 'E' then
          let (sign, r1) := match rest with
            | '+' :: r => (['+'], r)
            | '-' :: r => (['-'], r)
            | _ => (([] : Str), rest)
          let (eds, r2) := takeDigits r1
          if eds = [] then
            some (.flt ((if neg then ['-'] else []) ++ intPart ++ ['.'] ++ ds), s3)
          else
            some (.flt ((if neg then ['-'] else []) ++ intPart ++ ['.'] ++ ds ++ [e] ++ sign ++ eds), r2)
        else some (.flt ((if neg then ['-'] else []) ++ intPart ++ ['.'] ++ ds), s3)
      | [] => some (.flt ((if neg then ['-'] else []) ++ intPart ++ ['.'] ++ ds), s3)
where
  natOfDigits (ds : Str) : Nat := ds.foldl (fun acc c => acc * 10 + (c.toNat - 48)) 0

mutual

/-- Parse one JSON value (leading whitespace already consumed). -/
def jParseVal : Nat → Str → Option (JVal × Str)
  | 0, _ => none
  | fuel + 1, s =>
    match s with
    | [] => none
    | c :: rest =>
      if c = lbrace then
        let s1 := dropJsonWs rest
        match s1 with
        | c2 :: rest2 =>
          if c2 = rbrace then some (.obj [], rest2)
          else jParseMembers fuel s1 []
        | [] => none
      else if c = '[' then
        let s1 := dropJsonWs rest
        match s1 with
        | ']' :: rest2 => some (.arr [], rest2)
        | _ => jParseItems fuel s1 []
      else if c = '"' then
        match jParseStr (rest.length + 1) rest with
        | some (cs, rem) => some (.str cs, rem)
        | none => none
      else if startsWith (txt "true") s then some (.bool true, s.drop 4)
      else if startsWith (txt "false") s then some (.bool false, s.drop 5)
      else if startsWith (txt "null") s then some (.null, s.drop 4)
      else if startsWith (txt "NaN") s then some (.flt (txt "NaN"), s.drop 3)
      else if startsWith (txt "Infinity") s then some (.flt (txt "Infinity"), s.drop 8)
      else if startsWith (txt "-Infinity") s then some (.flt (txt "-Infinity"), s.drop 9)
      else jParseNum s

/-- Parse `"key": value (, "key": value)*` then the closing brace.
Duplicate keys follow Python: the last occurrence wins. -/
def jParseMembers : Nat → Str → List (Str × JVal) → Option (JVal × Str)
  | 0, _, _ => none
  | fuel + 1, s, acc =>
    match s with
    | '"' :: rest =>
      match jParseStr (rest.length + 1) rest with
      | some (key, rem) =>
        match dropJsonWs rem with
        | ':' :: rem2 =>
          match jParseVal fuel (dropJsonWs rem2) with
          | some (v, rem3) =>
            let acc2 := dictSet acc key v
            match dropJsonWs rem3 with
            | ',' :: rem4 => jParseMembers fuel (dropJsonWs rem4) acc2
            | c :: rem4 => if c = rbrace then some (.obj acc2, rem4) else none
            | [] => none
          | none => none
        | _ => none
      | none => none
    | _ => none

/-- Parse `value (, value)*` then the closing bracket. -/
def jParseItems : Nat → Str → List JVal → Option (JVal × Str)
  | 0, _, _ => none
  | fuel + 1, s, acc =>
    match jParseVal fuel s with
    | some (v, rem) =>
      match dropJsonWs rem with
      | ',' :: rem2 => jParseItems fuel (dropJsonWs rem2) (acc ++ [v])
      | ']' :: rem2 => some (.arr (acc ++ [v]), rem2)
      | _ => none
    | none => none

end

/-- `json.loads`: parse a complete document, allowing surrounding whitespace;
`none` models a raised `JSONDecodeError`. -/
def json_loads (s : Str) : Option JVal :=
  match jParseVal (s.length + 1) (dropJsonWs s) with
  | some (v, rem) => if dropJsonWs rem = [] then some v else none
  | none => none

/-! ### Regex scanners

Each Python regex used by the sources is embedded as a concrete scanner with
the same leftmost / lazy / greedy semantics on the inputs the code feeds it.
-/

/-- Strip trailing whitespace only. -/
def stripRight (s : Str) : Str := (s.reverse.dropWhile isWs).reverse

/-- Split around the first occurrence of a triple backtick fence:
returns the text before it and the text after it. -/
def fenceSplit : Nat → Str → Option (Str × Str)
  | 0, _ => none
  | fuel + 1, s =>
    match s with
    | [] => none
    | c :: rest =>
      if startsWith (txt "```") s then some ([], s.drop 3)
      else
        match fenceSplit fuel rest with
        | some (pre, post) => some (c :: pre, post)
        | none => none

/-- `re.findall` for the agent pattern, fenced blocks with the inner group
lazily matched and surrounding whitespace absorbed by the greedy wings:
the captured groups in order. -/
def fencedFindAgent : Nat → Str → List Str
  | 0, _ => []
  | fuel + 1, s =>
    match fenceSplit (s.length + 1) s with
    | none => []
    | some (_, afterOpen) =>
      let s1 := if startsWith (txt "json") afterOpen then afterOpen.drop 4 else afterOpen
      let s2 := dropWs s1
      match fenceSplit (s2.length + 1) s2 with
      | none => []
      | some (chunk, afterClose) => stripRight chunk :: fencedFindAgent fuel afterClose

/-- `re.findall` for the components pattern: same fenced scan but the lazy
group runs right up to the closing fence (no trailing whitespace wing). -/
def fencedFindComp : Nat → Str → List Str
  | 0, _ => []
  | fuel + 1, s =>
    match fenceSplit (s.length + 1) s with
    | none => []
    | some (_, afterOpen) =>
      let s1 := if startsWith (txt "json") afterOpen then afterOpen.drop 4 else afterOpen
      let s2 := dropWs s1
      match fenceSplit (s2.length + 1) s2 with
      | none => []
      | some (chunk, afterClose) => chunk :: fencedFindComp fuel afterClose

/-- First block of a list that `json.loads` accepts. -/
def firstLoads : List Str → Option JVal
  | [] => none
  | b :: rest =>
    match json_loads b with
    | some j => some j
    | none => firstLoads rest

/-- Body of the bounded-nesting brace regex after an opening brace has been
consumed.  `lvl` is the number of nesting levels still allowed (the source
pattern allows two inner levels).  Returns the suffix after the closer. -/
def braceBody : Nat → Nat → Str → Option Str
  | 0, _, _ => none
  | fuel + 1, lvl, s =>
    match s with
    | [] => none
    | c :: rest =>
      if c = rbrace then some rest
      else if c = lbrace then
        match lvl with
        | 0 => none
        | l + 1 =>
          match braceBody fuel l rest with
          | some r => braceBody fuel lvl r
          | none => none
      else braceBody fuel lvl rest

/-- `re.search` for the bounded-nesting brace pattern: the leftmost matched
substring, if any. -/
def braceSearch : Nat → Str → Option Str
  | 0, _ => none
  | fuel + 1, s =>
    match s with
    | [] => none
    | c :: rest =>
      if c = lbrace then
        match braceBody (rest.length + 1) 2 rest with
        | some rem => some (s.take (s.length - rem.length))
        | none => braceSearch fuel rest
      else braceSearch fuel rest

/-- Split around the first occurrence of a character. -/
def splitAtChar : Str → Char → Option (Str × Str)
  | [], _ => none
  | c :: rest, target =>
    if c = target then some ([], rest)
    else
      match splitAtChar rest target with
      | some (pre, post) => some (c :: pre, post)
      | none => none

/-- `re.search` for the lazily closed key patterns (`"result"`/`"subtasks"`
preceded by a brace and optional whitespace): the leftmost matched
substring, ending at the first following closing brace. -/
def keyPatSearch (key : Str) : Nat → Str → Option Str
  | 0, _ => none
  | fuel + 1, s =>
    match s with
    | [] => none
    | c :: rest =>
      let fallback := keyPatSearch key fuel rest
      if c = lbrace then
        let s1 := dropWs rest
        if startsWith ('"' :: key ++ ['"']) s1 then
          let s2 := s1.drop (key.length + 2)
          match splitAtChar s2 rbrace with
          | some (_, post) => some (s.take (s.length - post.length))
          | none => fallback
        else fallback
      else fallback

/-- `agent/utils.py` `extract_json_from_text`: fenced blocks, then the
bounded brace pattern, then the `"result"` / `"subtasks"` key patterns. -/
def extract_json_from_text (t : Str) : Option JVal :=
  match firstLoads (fencedFindAgent (t.length + 1) t) with
  | some j => some j
  | none =>
    let braceHit : Option JVal :=
      match braceSearch (t.length + 1) t with
      | some m => json_loads m
      | none => none
    match braceHit with
    | some j => some j
    | none =>
      let resultHit : Option JVal :=
        match keyPatSearch (txt "result") (t.length + 1) t with
        | some m => json_loads m
        | none => none
      match resultHit with
      | some j => some j
      | none =>
        match keyPatSearch (txt "subtasks") (t.length + 1) t with
        | some m => json_loads m
        | none => none

/-! Line-anchored fence deletion used by the components module before the
whole-text `json.loads` attempt. -/

/-- One attempt of the multiline pattern (whitespace run, fence, rest of
line) at a `^` anchor; returns the suffix after the matched span. -/
def cleanMatch1 (s : Str) : Option Str :=
  let q := dropWs s
  if startsWith (txt "```") q then
    some ((q.drop 3).dropWhile (fun c => c ≠ '\n'))
  else none

/-- `re.sub` of the first components cleanup pattern (fence line with an
arbitrary tail) by the empty string, multiline. -/
def cleanSub1 : Nat → Bool → Str → Str
  | 0, _, s => s
  | fuel + 1, atStart, s =>
    match s with
    | [] => []
    | c :: rest =>
      if atStart then
        match cleanMatch1 s with
        | some after => cleanSub1 fuel false after
        | none => c :: cleanSub1 fuel (c = '\n') rest
      else c :: cleanSub1 fuel (c = '\n') rest

/-- Split a whitespace run around its last newline, if one occurs. -/
def lastNlSplit : Str → Option (Str × Str)
  | [] => none
  | c :: rest =>
    match lastNlSplit rest with
    | some (pre, post) => some (c :: pre, post)
    | none => if c = '\n' then some ([], rest) else none

/-- One attempt of the second cleanup pattern (fence line with only
whitespace after it) at a `^` anchor. -/
def cleanMatch2 (s : Str) : Option Str :=
  let q := dropWs s
  if startsWith (txt "```") q then
    let r := q.drop 3
    let w := r.takeWhile isWs
    let rest := r.dropWhile isWs
    if rest.isEmpty then some []
    else
      match lastNlSplit w with
      | some (_, post) => some ('\n' :: post ++ rest)
      | none => none
  else none

/-- `re.sub` of the second components cleanup pattern by the empty string. -/
def cleanSub2 : Nat → Bool → Str → Str
  | 0, _, s => s
  | fuel + 1, atStart, s =>
    match s with
    | [] => []
    | c :: rest =>
      if atStart then
        match cleanMatch2 s with
        | some after => cleanSub2 fuel false after
        | none => c :: cleanSub2 fuel (c = '\n') rest
      else c :: cleanSub2 fuel (c = '\n') rest

/-- Index of the first occurrence of a character (`str.find`). -/
def idxOfChar (s : Str) (target : Char) : Option Nat :=
  match s with
  | [] => none
  | c :: rest =>
    if c = target then some 0
    else
      match idxOfChar rest target with
      | some i => some (i + 1)
      | none => none

/-- Index of the last occurrence of a character (`str.rfind`). -/
def lastIdxOfChar (s : Str) (target : Char) : Option Nat :=
  match s with
  | [] => none
  | c :: rest =>
    match lastIdxOfChar rest target with
    | some i => some (i + 1)
    | none => if c = target then some 0 else none

/-- `components/utils.py` `extract_json_from_text`: fenced blocks, then the
fence-stripped whole text, then the outermost-brace slice of the original
text; returns the empty dict when everything fails. -/
def extract_json_from_text_comp (t : Str) : JVal :=
  match firstLoads (fencedFindComp (t.length + 1) t) with
  | some j => j
  | none =>
    let clean := cleanSub2 (t.length + 1) true (cleanSub1 (t.length + 1) true t)
    match json_loads clean with
    | some j => j
    | none =>
      match idxOfChar t lbrace, lastIdxOfChar t rbrace with
      | some start, some closeIdx =>
        if start < closeIdx + 1 then
          match json_loads ((t.drop start).take (closeIdx + 1 - start)) with
          | some j => j
          | none => .obj []
        else .obj []
      | _, _ => .obj []

/-- Python `\w` (ASCII fragment). -/
def isWordChar (c : Char) : Bool := c.isAlphanum ∨ c = '_'

/-- The language alternation of the components code-block patterns; returns
the suffix after the first alternative that matches, in source order. -/
def langAlt (s : Str) : Option Str :=
  if startsWith (txt "python") s then some (s.drop 6)
  else if startsWith (txt "javascript") s then some (s.drop 10)
  else if startsWith (txt "html") s then some (s.drop 4)
  else if startsWith (txt "css") s then some (s.drop 3)
  else none

/-- One attempt of components pattern 1 (fence, language, filepath comment,
lazy body) at the current position; returns the two groups and the suffix
after the match. -/
def codePat1At (s : Str) : Option (Str × Str × Str) :=
  if startsWith (txt "```") s then
    match langAlt (s.drop 3) with
    | some r1 =>
      match r1 with
      | '\n' :: r2 =>
        if startsWith (txt "# filepath: ") r2 then
          match splitAtChar (r2.drop 12) '\n' with
          | some (fp, r3) =>
            match fenceSplit (r3.length + 1) r3 with
            | some (body, after) => some (fp, body, after)
            | none => none
          | none => none
        else none
      | _ => none
    | none => none
  else none

/-- `re.findall` for components pattern 1: all (filepath, body) groups. -/
def codePat1Find : Nat → Str → List (Str × Str)
  | 0, _ => []
  | fuel + 1, s =>
    match s with
    | [] => []
    | _ :: rest =>
      match codePat1At s with
      | some (fp, body, after) => (fp, body) :: codePat1Find fuel after
      | none => codePat1Find fuel rest

/-- One attempt of components pattern 2 (fence, optional language, newline,
lazy body to the next fence) at the current position. -/
def codePat2At (s : Str) : Option (Str × Str) :=
  if startsWith (txt "```") s then
    let afterLang :=
      match langAlt (s.drop 3) with
      | some r1 => (match r1 with
        | '\n' :: r2 => some r2
        | _ => (match s.drop 3 with
          | '\n' :: r2 => some r2
          | _ => none))
      | none => (match s.drop 3 with
        | '\n' :: r2 => some r2
        | _ => none)
    match afterLang with
    | some r2 =>
      match fenceSplit (r2.length + 1) r2 with
      | some (body, after) => some (body, after)
      | none => none
    | none => none
  else none

/-- `re.findall` for components pattern 2: all body groups. -/
def codePat2Find : Nat → Str → List Str
  | 0, _ => []
  | fuel + 1, s =>
    match s with
    | [] => []
    | _ :: rest =>
      match codePat2At s with
      | some (body, after) => body :: codePat2Find fuel after
      | none => codePat2Find fuel rest

/-- One attempt of the `code` constraint pattern (fence, word-character run,
newline, lazy body, newline, fence) at the current position. -/
def hasCodePatAt (s : Str) : Option (Str × Str × Str) :=
  if startsWith (txt "```") s then
    let r0 := s.drop 3
    let lang := r0.takeWhile isWordChar
    match r0.dropWhile isWordChar with
    | '\n' :: r1 =>
      match findNlFence r1 with
      | some (body, after) => some (lang, body, after)
      | none => none
    | _ => none
  else none
where
  /-- Split around the first `"\n```"` occurrence. -/
  findNlFence : Str → Option (Str × Str)
    | [] => none
    | c :: rest =>
      if c = '\n' ∧ startsWith (txt "```") rest then some ([], rest.drop 3)
      else
        match findNlFence rest with
        | some (pre, post) => some (c :: pre, post)
        | none => none

/-- `re.findall` for the `code` constraint pattern. -/
def hasCodeFind : Nat → Str → List (Str × Str)
  | 0, _ => []
  | fuel + 1, s =>
    match s with
    | [] => []
    | _ :: rest =>
      match hasCodePatAt s with
      | some (lang, body, after) => (lang, body) :: hasCodeFind fuel after
      | none => hasCodeFind fuel rest

/-! ### Python helpers shared by both modules -/

/-- Python `int()` digits with optional single underscores between digits. -/
def pyIntCore : Nat → Nat → Str → Option Nat
  | _, acc, [] => some acc
  | 0, _, _ => none
  | fuel + 1, acc, c :: rest =>
    if c.isDigit then pyIntCore fuel (acc * 10 + (c.toNat - 48)) rest
    else if c = '_' then
      match rest with
      | d :: rest2 =>
        if d.isDigit then pyIntCore fuel (acc * 10 + (d.toNat - 48)) rest2 else none
      | [] => none
    else none

/-- Python `int(str)`: surrounding whitespace, optional sign, digits. -/
def pyInt (s : Str) : Option Int :=
  let t := pyStrip s
  let signed : Bool × Str :=
    match t with
    | '-' :: r => (true, r)
    | '+' :: r => (false, r)
    | _ => (false, t)
  match signed.2 with
  | c :: _ =>
    if c.isDigit then
      match pyIntCore (signed.2.length + 1) 0 signed.2 with
      | some n => some (if signed.1 then -(n : Int) else (n : Int))
      | none => none
    else none
  | [] => none

mutual

/-- Python `repr` of a parsed JSON value (approximate: claims never inspect
these renderings; they only flow into prompt / context text). -/
def pyRepr : JVal → Str
  | .null => txt "None"
  | .bool b => if b then txt "True" else txt "False"
  | .num n => intRepr n
  | .flt lit => lit
  | .str s => '\'' :: (s ++ ['\''])
  | .arr xs => '[' :: (pyReprItems xs ++ [']'])
  | .obj fs => lbrace :: (pyReprFields fs ++ [rbrace])

def pyReprItems : List JVal → Str
  | [] => []
  | [x] => pyRepr x
  | x :: y :: rest => pyRepr x ++ txt ", " ++ pyReprItems (y :: rest)

def pyReprFields : List (Str × JVal) → Str
  | [] => []
  | [kv] => ('\'' :: (kv.1 ++ ['\''])) ++ txt ": " ++ pyRepr kv.2
  | kv :: kv2 :: rest =>
    ('\'' :: (kv.1 ++ ['\''])) ++ txt ": " ++ pyRepr kv.2 ++ txt ", " ++
      pyReprFields (kv2 :: rest)

end

/-- Python `str()` (f-string interpolation) of a parsed JSON value. -/
def pyStr (v : JVal) : Str :=
  match v with
  | .str s => s
  | _ => pyRepr v

/-- Join a list of prompt sections with blank lines (`"\n\n".join`). -/
def joinSections : List Str → Str
  | [] => []
  | [x] => x
  | x :: y :: rest => x ++ txt "\n\n" ++ joinSections (y :: rest)

/-- Truthiness of an optional lookup result (`if retrieved:`). -/
def optTruthy : Option JVal → Bool
  | some v => v.truthy
  | none => false

/-! ### Constants (`agent/constants.py`, `components/utils.py`) -/

def MAX_RETRIES : Nat := 3
def RETRY_DELAY : Nat := 2
def MAX_DEPTH : Nat := 5
def GLOBAL_CONTEXT_SUMMARY_INTERVAL : Nat := 5
def GLOBAL_CONTEXT_SUMMARY_INTERVAL_COMP : Nat := 10
def STATUS_PENDING : Str := txt "pending"
def STATUS_RUNNING : Str := txt "running"
def STATUS_COMPLETED : Str := txt "completed"
def STATUS_FAILED : Str := txt "failed"
def STATUS_OVERRIDDEN : Str := txt "overridden"

/-! ### Data model (`agent/memory.py`, `agent/node.py`) -/

/-- `LocalMemory`: a per-node key-value store. -/
structure LocalMemory where
  node_id : Nat
  local_memory : List (Str × JVal)

def LocalMemory.store (m : LocalMemory) (key : Str) (value : JVal) : LocalMemory :=
  { m with local_memory := dictSet m.local_memory key value }

def LocalMemory.retrieve (m : LocalMemory) (key : Str) : Option JVal :=
  dictGet m.local_memory key

/-- The dynamic type of a node's `local_memory` attribute: normally a
`LocalMemory` instance, but `save_session` aliases the node's attribute
dict and overwrites the attribute with the plain contents dict. -/
inductive MemAttr where
  | mem (m : LocalMemory)
  | rawDict (d : List (Str × JVal))

/-- A task-tree node.  Ids are opaque (`uuid4` is modelled by a fresh
counter); `task_description` is kept as a JSON value because subtask
entries can pass non-string descriptions through. -/
structure Node where
  node_id : Nat
  depth : Nat
  local_memory : MemAttr
  parent_id : Option Nat
  child_ids : List Nat
  status : Str
  output : Str
  error_message : Str
  task_description : Option JVal

/-- `Node.store_in_memory`.  On a `rawDict` attribute Python would raise
`AttributeError`; no embedded code path reaches that case (the theorems
about stateful flows assume nodes carry `LocalMemory` instances). -/
def Node.store_in_memory (n : Node) (key : Str) (value : JVal) : Node :=
  match n.local_memory with
  | .mem m => { n with local_memory := .mem (m.store key value) }
  | .rawDict _ => n

/-- `Node.retrieve_from_memory` (same caveat as `store_in_memory`). -/
def Node.retrieve_from_memory (n : Node) (key : Str) : Option JVal :=
  match n.local_memory with
  | .mem m => m.retrieve key
  | .rawDict _ => none

/-- `Node.__init__` (identical in both modules): the given fresh id stands
for the generated uuid; a truthy task description is mirrored into local
memory under `"task"`. -/
def mkNode (nid : Nat) (parent_id : Option Nat) (task_description : Option JVal)
    (depth : Nat) : Node :=
  let base : Node :=
    { node_id := nid, depth := depth,
      local_memory := .mem { node_id := nid, local_memory := [] },
      parent_id := parent_id, child_ids := [], status := STATUS_PENDING,
      output := [], error_message := [], task_description := task_description }
  match task_description with
  | some t => if t.truthy then base.store_in_memory (txt "task") t else base
  | none => base

/-- `Node.add_child` (both modules): append the child id unless present. -/
def Node.add_child (n : Node) (child_id : Nat) : Node :=
  if n.child_ids.contains child_id then n
  else { n with child_ids := n.child_ids ++ [child_id] }

/-! ### Dependency/constraint tracker (`agent/attention_mechanism.py`,
`components/attention_mechanism.py`; the data operations are identical in
the two files) -/

structure AttentionMechanism where
  dependency_graph : List (Nat × List Nat)
  constraints : List (Nat × List Str)

def AttentionMechanism.add_dependency (am : AttentionMechanism)
    (dependent : Nat) (dependency : Option Nat) : AttentionMechanism :=
  let g :=
    if dictHasKey am.dependency_graph dependent then am.dependency_graph
    else am.dependency_graph ++ [(dependent, [])]
  match dependency with
  | some d =>
    let cur := (dictGet g dependent).getD []
    if cur.contains d then { am with dependency_graph := g }
    else { am with dependency_graph := dictSet g dependent (cur ++ [d]) }
  | none => { am with dependency_graph := g }

def AttentionMechanism.track_dependencies (am : AttentionMechanism)
    (parent_node_id : Option Nat) (current_node_id : Nat) : AttentionMechanism :=
  am.add_dependency current_node_id parent_node_id

def AttentionMechanism.add_constraint (am : AttentionMechanism)
    (node_id : Nat) (constraint : Str) : AttentionMechanism :=
  let c :=
    if dictHasKey am.constraints node_id then am.constraints
    else am.constraints ++ [(node_id, [])]
  let cur := (dictGet c node_id).getD []
  if cur.contains constraint then { am with constraints := c }
  else { am with constraints := dictSet c node_id (cur ++ [constraint]) }

def AttentionMechanism.get_constraints (am : AttentionMechanism) (node_id : Nat) : List Str :=
  (dictGet am.constraints node_id).getD []

/-- `AttentionMechanism.remove_node`: drop the node's own entries, then
strip its id from every remaining dependency list. -/
def AttentionMechanism.remove_node (am : AttentionMechanism) (node_id : Nat) :
    AttentionMechanism :=
  let g := dictPop am.dependency_graph node_id
  let c := dictPop am.constraints node_id
  { dependency_graph :=
      g.map (fun kv =>
        (kv.1, if kv.2.contains node_id then pyListRemove kv.2 node_id else kv.2)),
    constraints := c }

/-! ### Constraint checkers -/

/-- `_check_json_format` (identical in both modules). -/
def check_json_format (_v : Str) (n : Node) : Bool × Node :=
  match json_loads n.output with
  | some _ => (true, n)
  | none =>
    (false,
      { n with
          status := STATUS_FAILED,
          error_message :=
            txt "Constraint violated: Output must be in JSON format. Output: " ++ n.output })

/-- `_check_contains_word` (identical in both modules). -/
def check_contains_word (v : Str) (n : Node) : Bool × Node :=
  if containsSub n.output v then (true, n)
  else
    (false,
      { n with
          status := STATUS_FAILED,
          error_message :=
            txt "Constraint violated: Output must contain '" ++ v ++ txt "'. Output: " ++
              n.output })

/-- `_check_max_length` (identical in both modules). -/
def check_max_length (v : Str) (n : Node) : Bool × Node :=
  match pyInt v with
  | some maxLen =>
    if (n.output.length : Int) ≤ maxLen then (true, n)
    else
      (false,
        { n with
            status := STATUS_FAILED,
            error_message :=
              txt "Constraint violated: Output must be no more than " ++ intRepr maxLen ++
                txt " characters. Output: " ++ n.output })
  | none =>
    (false,
      { n with
          status := STATUS_FAILED,
          error_message :=
            txt "Constraint violated: Invalid max length value '" ++ v ++ txt "'" })

/-- `_check_has_code` (components module only). -/
def check_has_code (_v : Str) (n : Node) : Bool × Node :=
  if (hasCodeFind (n.output.length + 1) n.output).isEmpty then
    (false,
      { n with
          status := STATUS_FAILED,
          error_message :=
            txt "Constraint violated: Output must contain code blocks. No code blocks found." })
  else (true, n)

/-- The checker registry built by `agent/agent.py` `setup_agent`. -/
def agentCheckers (t : Str) : Option (Str → Node → Bool × Node) :=
  if t = txt "format" then some check_json_format
  else if t = txt "contains" then some check_contains_word
  else if t = txt "max_length" then some check_max_length
  else none

/-- The checker registry of `components/attention_mechanism.py`. -/
def compCheckers (t : Str) : Option (Str → Node → Bool × Node) :=
  if t = txt "format" then some check_json_format
  else if t = txt "contains" then some check_contains_word
  else if t = txt "max_length" then some check_max_length
  else if t = txt "code" then some check_has_code
  else none

/-- `agent/utils.py` `parse_constraint`: split on the first colon and trim;
without a colon the type is the literal `"generic"`. -/
def parse_constraint (s : Str) : Str × Str :=
  match splitAtChar s ':' with
  | some (pre, post) => (pyStrip pre, pyStrip post)
  | none => (txt "generic", pyStrip s)

/-- `components/utils.py` `parse_constraint` (the type/value dict embedded
as a pair): without a colon the untrimmed string is the type. -/
def parse_constraint_comp (s : Str) : Str × Str :=
  match splitAtChar s ':' with
  | some (pre, post) => (pyStrip pre, pyStrip post)
  | none => (s, [])

/-- The `check_constraints` loop, shared shape of both modules.  The third
component records, in order, the `(type, value)` pairs whose checker was
actually invoked (an observer for the short-circuit claims; it has no
effect on the computed result). -/
def checkLoop (registry : Str → Option (Str → Node → Bool × Node))
    (parse : Str → Str × Str) :
    List Str → Node → List (Str × Str) → Bool × Node × List (Str × Str)
  | [], n, tr => (true, n, tr)
  | c :: rest, n, tr =>
    let tv := parse c
    match registry tv.1 with
    | some checker =>
      let r := checker tv.2 n
      if r.1 then checkLoop registry parse rest r.2 (tr ++ [tv])
      else (false, r.2, tr ++ [tv])
    | none => checkLoop registry parse rest n tr

/-- `agent/attention_mechanism.py` `check_constraints`. -/
def check_constraints (am : AttentionMechanism) (n : Node) :
    Bool × Node × List (Str × Str) :=
  checkLoop agentCheckers parse_constraint (am.get_constraints n.node_id) n []

/-- `components/attention_mechanism.py` `check_constraints`. -/
def check_constraints_comp (am : AttentionMechanism) (n : Node) :
    Bool × Node × List (Str × Str) :=
  checkLoop compCheckers parse_constraint_comp (am.get_constraints n.node_id) n []

/-! ### Orchestrator state -/

/-- The per-session mutable state: the node table, the tracker, the root
id, the global context, the execution counter, and the uuid source. -/
structure AgentState where
  node_lookup : List (Nat × Node)
  attention : AttentionMechanism
  root_node_id : Option Nat
  global_context : Str
  execution_count : Nat
  next_id : Nat

def AgentState.getNode (s : AgentState) (nid : Nat) : Option Node :=
  dictGet s.node_lookup nid

def AgentState.setNode (s : AgentState) (n : Node) : AgentState :=
  { s with node_lookup := dictSet s.node_lookup n.node_id n }

/-- Write a node back at the given table key (Python mutates the shared
object in place; the entry under the key it was looked up at changes). -/
def AgentState.putNode (s : AgentState) (nid : Nat) (n : Node) : AgentState :=
  { s with node_lookup := dictSet s.node_lookup nid n }

/-- Update the node with the given id in the table (Python mutates the
shared object; the table observes the mutation at that key). -/
def AgentState.updNode (s : AgentState) (nid : Nat) (f : Node → Node) : AgentState :=
  match s.getNode nid with
  | some n => s.putNode nid (f n)
  | none => s

/-- `store_in_memory` on the node with the given table id. -/
def AgentState.storeMem (s : AgentState) (nid : Nat) (key : Str) (v : JVal) : AgentState :=
  s.updNode nid (fun n => n.store_in_memory key v)

/-- `d[key]` raising semantics for Python subscripts on parsed JSON. -/
def JVal.subscript (v : JVal) (key : Str) : Except Str JVal :=
  match v with
  | .obj fs =>
    match dictGet fs key with
    | some w => .ok w
    | none => .error (txt "KeyError")
  | .arr _ => .error (txt "TypeError: list indices must be integers or slices, not str")
  | .str _ => .error (txt "TypeError: string indices must be integers")
  | _ => .error (txt "TypeError: value is not subscriptable")

/-! ### Agent-module node operations (`agent/node.py`) -/

/-- `agent/node.py` `Node.create_child_node(self, task_description, depth)`:
allocate a node, register it, append to the caller's child list, record the
dependency.  (The components `Agent.create_child_node`, reached through
`Node._create_child_node`, performs the same steps.) -/
def node_create_child_node (s : AgentState) (selfId : Nat) (task_description : JVal)
    (depth : Nat) : AgentState :=
  let nid := s.next_id
  let newNode := mkNode nid (some selfId) (some task_description) depth
  let s1 : AgentState :=
    { s with next_id := nid + 1, node_lookup := dictSet s.node_lookup nid newNode }
  let s2 := s1.updNode selfId (fun p => p.add_child nid)
  { s2 with attention := s2.attention.track_dependencies (some selfId) nid }

/-- The depth of a table node (`self.depth`). -/
def selfDepth (s : AgentState) (nid : Nat) : Nat :=
  match s.getNode nid with
  | some n => n.depth
  | none => 0

/-- One iteration of the subtask loop of `agent/node.py`
`process_llm_output`: a string entry or an object entry carrying
`task_description` creates a child at `self.depth + 1`; other shapes are
skipped. -/
def subtaskStep (selfId : Nat) (st : AgentState) (subtask : JVal) : AgentState :=
  match subtask with
  | .str t => node_create_child_node st selfId (.str t) (selfDepth st selfId + 1)
  | .obj fs =>
    if dictHasKey fs (txt "task_description") then
      node_create_child_node st selfId
        ((dictGet fs (txt "task_description")).getD .null)
        (selfDepth st selfId + 1)
    else st
  | _ => st

/-- The `try`-block body of `agent/node.py` `process_llm_output` (a raised
exception surfaces as `.error` and is caught by the wrapper below). -/
def processInner (s : AgentState) (selfId : Nat) (llm_output : Str) :
    Except Str AgentState :=
  match extract_json_from_text llm_output with
  | some p =>
    if p.truthy then
      let resultBranch : Except Str AgentState :=
        match JVal.hasMem (txt "result") p with
        | .error e => .error e
        | .ok hasRes =>
          if hasRes then
            match JVal.subscript p (txt "result") with
            | .error e => .error e
            | .ok rv => .ok (s.storeMem selfId (txt "result") rv)
          else .ok (s.storeMem selfId (txt "result") p)
      match JVal.hasMem (txt "subtasks") p with
      | .error e => .error e
      | .ok hasSub =>
        if hasSub then
          match JVal.subscript p (txt "subtasks") with
          | .error e => .error e
          | .ok sub =>
            match sub with
            | .arr xs => .ok (xs.foldl (subtaskStep selfId) s)
            | _ => resultBranch
        else resultBranch
    else .ok (s.storeMem selfId (txt "result") (.str llm_output))
  | none => .ok (s.storeMem selfId (txt "result") (.str llm_output))

/-- `agent/node.py` `process_llm_output`: runs the body and converts any
raised exception into a `failed` status with a descriptive message. -/
def process_llm_output (s : AgentState) (selfId : Nat) (llm_output : Str) : AgentState :=
  match processInner s selfId llm_output with
  | .ok s2 => s2
  | .error e =>
    s.updNode selfId (fun n =>
      { n with
          status := txt "failed",
          error_message := txt "Error processing LLM output: " ++ e })

/-- `agent/node.py` `build_prompt` (the `'agent' in st.session_state` guard
holds once `setup_agent` has run, which every embedded flow assumes). -/
def build_prompt (s : AgentState) (nid : Nat) : Str :=
  match s.getNode nid with
  | none => []
  | some n =>
    let p0 : List Str := [s.global_context]
    let p1 := p0 ++
      (match n.retrieve_from_memory (txt "task") with
       | some t => if t.truthy then [txt "Task: " ++ pyStr t] else []
       | none => [])
    let p2 := p1 ++
      (if dictHasKey s.attention.constraints nid then
        (let cs := (dictGet s.attention.constraints nid).getD []
         if cs.isEmpty then [] else txt "Constraints:" :: cs.map (fun c => txt "- " ++ c))
       else [])
    let p3 := p2 ++
      (match n.parent_id with
       | some pid =>
         match s.getNode pid with
         | some pn =>
           if pn.output.isEmpty then []
           else
             [txt "Output from Parent Node (" ++ (natRepr pn.node_id).take 8 ++
               txt "...): " ++ pn.output]
         | none => []
       | none => [])
    let p4 := p3 ++
      (match n.retrieve_from_memory (txt "regeneration_guidance") with
       | some g => if g.truthy then [txt "Regeneration Guidance: " ++ pyStr g] else []
       | none => [])
    joinSections p4

/-! ### Agent-module orchestrator (`agent/agent.py`) -/

/-- `reset_agent` (agent module): `st.session_state.clear()` plus
`setup_agent` empty the node table and drop the `root_node_id` key; the
agent-owned tracker object, global memory and counter survive the reset. -/
def reset_agent (s : AgentState) : AgentState :=
  { s with node_lookup := [], root_node_id := none }

/-- `create_root_node`: a parentless depth-0 node, with the optional
initial constraints registered and its (absent) dependency tracked. -/
def create_root_node (s : AgentState) (task_description : Str)
    (initial_constraints : List Str) : AgentState × Nat :=
  let nid := s.next_id
  let newNode := mkNode nid none (some (.str task_description)) 0
  let s1 : AgentState :=
    { s with next_id := nid + 1, node_lookup := dictSet s.node_lookup nid newNode }
  let am1 := initial_constraints.foldl (fun am c => am.add_constraint nid c) s1.attention
  ({ s1 with attention := am1.track_dependencies none nid }, nid)

/-- `run` (agent module): reset, create the root, remember its id.  (The
agent module waits for user input instead of executing the root.) -/
def run (s : AgentState) (task_description : Str) (initial_constraints : List Str) :
    AgentState :=
  let s1 := reset_agent s
  let r := create_root_node s1 task_description initial_constraints
  { r.1 with root_node_id := some r.2 }

/-- `delete_node_and_children` (textually identical in both modules),
fuel-indexed: recursively delete the children present in the table, then
pop the node itself and notify the tracker. -/
def deleteRec : Nat → AgentState → Nat → AgentState
  | 0, s, _ => s
  | fuel + 1, s, nid =>
    let childIds :=
      match s.getNode nid with
      | some n => n.child_ids
      | none => []
    let s1 := childIds.foldl
      (fun st cid => if dictHasKey st.node_lookup cid then deleteRec fuel st cid else st) s
    { s1 with
        node_lookup := dictPop s1.node_lookup nid,
        attention := s1.attention.remove_node nid }

/-- `delete_node_and_children` at the standard fuel (one unit per possible
tree level; sufficient for well-formed states, as proved below). -/
def delete_node_and_children (s : AgentState) (nid : Nat) : AgentState :=
  deleteRec (s.node_lookup.length + 1) s nid

/-- `agent/agent.py` `_regenerate_node`: reset status/output/error, ensure
the memory attribute is a `LocalMemory` object, store the guidance.  This
version does not delete children and does not re-execute. -/
def _regenerate_node (s : AgentState) (nid : Nat) (regeneration_guidance : Str) :
    AgentState :=
  s.updNode nid (fun n =>
    let n1 : Node := { n with status := STATUS_PENDING, output := [], error_message := [] }
    let n2 : Node :=
      match n1.local_memory with
      | .mem _ => n1
      | .rawDict _ =>
        { n1 with local_memory := .mem { node_id := n1.node_id, local_memory := [] } }
    n2.store_in_memory (txt "regeneration_guidance") (.str regeneration_guidance))

/-- `agent/utils.py` `handle_node_retryable_error`: `true` means retries
are exhausted; the returned counter stands for `time.sleep(RETRY_DELAY)`
invocations performed by this call. -/
def handle_node_retryable_error (n : Node) (attempt : Nat) (err : Str) :
    Bool × Node × Nat :=
  if attempt < MAX_RETRIES - 1 then (false, n, 1)
  else
    (true,
      { n with
          status := txt "failed",
          error_message :=
            txt "Error after " ++ natRepr MAX_RETRIES ++ txt " attempts: " ++ err },
      0)

/-- The LLM gateway: one generation call, indexed by the global call
counter and fed the prompt; `.error` models a raised exception. -/
structure GenEnv where
  oracle : Nat → Str → Except Str Str

/-- Observable side effects of an execute flow: gateway invocations and
retry-delay sleeps. -/
structure Trace where
  llm_calls : Nat
  sleeps : Nat

/-- `_summarize_global_context` (agent module). -/
def _summarize_global_context (env : GenEnv) (s : AgentState) (tr : Trace) :
    AgentState × Trace :=
  let prompt :=
    txt "Summarize the following global context into a concise JSON object with a single field \"summary\":\n\n" ++
      s.global_context
  let tr1 : Trace := { tr with llm_calls := tr.llm_calls + 1 }
  match env.oracle tr.llm_calls prompt with
  | .ok resp =>
    match json_loads resp with
    | some (.obj fs) =>
      ({ s with
          global_context :=
            pyStr ((JVal.obj fs).getD (txt "summary")
              (.str (txt "Error: Could not summarize global context."))) }, tr1)
    | some _ =>
      ({ s with global_context := txt "Error during summarization: AttributeError" }, tr1)
    | none =>
      ({ s with global_context := txt "Error during summarization: JSONDecodeError" }, tr1)
  | .error e =>
    ({ s with global_context := txt "Error during summarization: " ++ e }, tr1)

/-- `summarize_node` (agent module): summarize a completed leaf, append the
result line to the global context, bump the execution counter, and run the
periodic global-context compression. -/
def summarize_node (env : GenEnv) (s : AgentState) (n : Node) (tr : Trace) :
    AgentState × Trace :=
  let prompt :=
    txt "Summarize the following task and its result concisely into a JSON object with two fields \"task_summary\" and \"result_summary\":\n\nTask: " ++
      (match n.task_description with
       | some t => pyStr t
       | none => txt "None") ++
      txt "\n\nResult: " ++ n.output ++ txt "\n"
  let tr1 : Trace := { tr with llm_calls := tr.llm_calls + 1 }
  let line : Str :=
    match env.oracle tr.llm_calls prompt with
    | .ok resp =>
      match json_loads resp with
      | some (.obj fs) =>
        txt "\n- Node " ++ natRepr n.node_id ++ txt " (" ++ n.status ++ txt "): Task: " ++
          pyStr ((JVal.obj fs).getD (txt "task_summary") (.str (txt "Task summary not available."))) ++
          txt ", Result: " ++
          pyStr ((JVal.obj fs).getD (txt "result_summary") (.str (txt "Result summary not available.")))
      | some _ =>
        txt "\n- Node " ++ natRepr n.node_id ++ txt " (" ++ n.status ++
          txt "): Error during summarization: AttributeError"
      | none =>
        txt "\n- Node " ++ natRepr n.node_id ++ txt " (" ++ n.status ++
          txt "): Error during summarization: JSONDecodeError"
    | .error e =>
      txt "\n- Node " ++ natRepr n.node_id ++ txt " (" ++ n.status ++
        txt "): Error during summarization: " ++ e
  let s1 : AgentState :=
    { s with
        global_context := s.global_context ++ line,
        execution_count := s.execution_count + 1 }
  if s1.execution_count % GLOBAL_CONTEXT_SUMMARY_INTERVAL = 0 then
    _summarize_global_context env s1 tr1
  else (s1, tr1)

/-- Outcome of the retry loop of `_execute_node`: an early `return`, or
falling through to the code after the loop (via `break` or exhaustion). -/
inductive LoopExit where
  | returned (s : AgentState) (tr : Trace)
  | fell (s : AgentState) (tr : Trace)

/-- The retry loop of `agent/agent.py` `_execute_node` (`for attempt in
range(MAX_RETRIES)`), `remaining` counting the iterations left. -/
def execLoop (env : GenEnv) (nid : Nat) (prompt : Str) :
    Nat → Nat → AgentState → Trace → LoopExit
  | 0, _, s, tr => .fell s tr
  | remaining + 1, attempt, s, tr =>
    match env.oracle tr.llm_calls prompt with
    | .ok llm_output =>
      let tr1 : Trace := { tr with llm_calls := tr.llm_calls + 1 }
      let s1 := s.updNode nid (fun n => { n with output := llm_output })
      let s2 := process_llm_output s1 nid llm_output
      match s2.getNode nid with
      | some n2 =>
        let ckr := check_constraints s2.attention n2
        let s3 := s2.putNode nid ckr.2.1
        if ckr.1 then .fell s3 tr1 else .returned s3 tr1
      | none => .fell s2 tr1
    | .error e =>
      let tr1 : Trace := { tr with llm_calls := tr.llm_calls + 1 }
      match s.getNode nid with
      | some n =>
        let h := handle_node_retryable_error n attempt e
        let s1 := s.putNode nid h.2.1
        let tr2 : Trace := { tr1 with sleeps := tr1.sleeps + h.2.2 }
        if h.1 then .returned s1 tr2
        else execLoop env nid prompt remaining (attempt + 1) s1 tr2
      | none => .fell s tr1

/-- `agent/agent.py` `_execute_node`: set `running`, build the prompt, run
the retry loop; on falling through with the node still `running`, mark it
`completed` and summarize childless nodes. -/
def _execute_node (env : GenEnv) (s : AgentState) (nid : Nat) (tr : Trace) :
    AgentState × Trace :=
  let s0 := s.updNode nid (fun n => { n with status := txt "running" })
  let prompt := build_prompt s0 nid
  match execLoop env nid prompt MAX_RETRIES 0 s0 tr with
  | .returned s1 tr1 => (s1, tr1)
  | .fell s1 tr1 =>
    match s1.getNode nid with
    | some n =>
      if n.status = txt "running" then
        let n2 : Node := { n with status := txt "completed" }
        let s2 := s1.putNode nid n2
        if n2.child_ids.isEmpty then summarize_node env s2 n2 tr1
        else (s2, tr1)
      else (s1, tr1)
    | none => (s1, tr1)

/-! ### Session persistence (`agent/agent.py` `save_session` / `load_session`) -/

/-- One node's attribute dict as serialized into the session document. -/
structure NodeDoc where
  node_id : Nat
  depth : Nat
  local_memory : List (Str × JVal)
  parent_id : Option Nat
  child_ids : List Nat
  status : Str
  output : Str
  error_message : Str
  task_description : Option JVal

/-- The logical shape of the persisted session document (§6 of the spec:
transport is out of scope, only the document shape is modelled). -/
structure SessionDoc where
  node_lookup : List (Nat × NodeDoc)
  dependency_graph : List (Nat × List Nat)
  constraints : List (Nat × List Str)
  root_node_id : Option Nat
  global_memory : Str
  execution_count : Nat

/-- The contents dict behind a node's `local_memory` attribute.  (For a
`rawDict` attribute the Python source would raise `AttributeError` inside
`save_session`; the persistence theorems assume `LocalMemory` instances.) -/
def memContents : MemAttr → List (Str × JVal)
  | .mem m => m.local_memory
  | .rawDict d => d

/-- `node.__dict__` with `local_memory` replaced by its contents dict. -/
def nodeToDoc (n : Node) : NodeDoc :=
  { node_id := n.node_id, depth := n.depth, local_memory := memContents n.local_memory,
    parent_id := n.parent_id, child_ids := n.child_ids, status := n.status,
    output := n.output, error_message := n.error_message,
    task_description := n.task_description }

/-- `save_session`: builds the document from the live attribute dicts and —
because `node_data` aliases each node's `__dict__` — overwrites every live
node's `local_memory` attribute with the plain contents dict. -/
def save_session (s : AgentState) : SessionDoc × AgentState :=
  let doc : SessionDoc :=
    { node_lookup := s.node_lookup.map (fun kv => (kv.1, nodeToDoc kv.2)),
      dependency_graph := s.attention.dependency_graph,
      constraints := s.attention.constraints,
      root_node_id := s.root_node_id,
      global_memory := s.global_context,
      execution_count := s.execution_count }
  let s1 : AgentState :=
    { s with
        node_lookup := s.node_lookup.map (fun kv =>
          (kv.1, { kv.2 with local_memory := MemAttr.rawDict (memContents kv.2.local_memory) })) }
  (doc, s1)

/-- One iteration of the `load_session` node loop: `Node(...)` draws a
fresh uuid, the saved attributes overwrite it, a fresh `LocalMemory` object
receives the saved contents, and the node is stored under the saved key. -/
def loadStep (st : AgentState) (kv : Nat × NodeDoc) : AgentState :=
  let nd := kv.2
  let fresh := st.next_id
  let n0 := mkNode fresh nd.parent_id nd.task_description nd.depth
  let n1 : Node :=
    { n0 with
        node_id := nd.node_id, child_ids := nd.child_ids, status := nd.status,
        output := nd.output, error_message := nd.error_message,
        local_memory := .mem { node_id := nd.node_id, local_memory := nd.local_memory } }
  { st with next_id := fresh + 1, node_lookup := dictSet st.node_lookup kv.1 n1 }

/-- `load_session`: reset, then rebuild every node from the document, then
restore the tracker, the global context and the counter. -/
def load_session (s : AgentState) (doc : SessionDoc) : AgentState :=
  let s1 := reset_agent s
  let base : AgentState := { s1 with root_node_id := doc.root_node_id, node_lookup := [] }
  let s2 := doc.node_lookup.foldl loadStep base
  { s2 with
      attention :=
        { dependency_graph := doc.dependency_graph, constraints := doc.constraints },
      global_context := doc.global_memory,
      execution_count := doc.execution_count }

/-! ### Components-module node operations (`components/node.py`) -/

/-- `str.lower()` (ASCII). -/
def toLowerStr (s : Str) : Str := s.map Char.toLower

/-- `str.endswith`. -/
def endsWith (s suffix : Str) : Bool := startsWith suffix.reverse s.reverse

/-- Python `str.replace(pat, rep)`: non-overlapping, left to right. -/
def replaceAll : Nat → Str → Str → Str → Str
  | 0, s, _, _ => s
  | fuel + 1, s, pat, rep =>
    match s with
    | [] => []
    | c :: rest =>
      if ¬ pat.isEmpty ∧ startsWith pat s then
        rep ++ replaceAll fuel (s.drop pat.length) pat rep
      else c :: replaceAll fuel rest pat rep

/-- `components/node.py` `Node.extract_code_files`: filepath-tagged blocks,
untagged blocks under generated names, then any `code_files` dict already
in memory.  (The UI-side `print` logging has no state effect.) -/
def Node.extract_code_files (n : Node) : List (Str × JVal) :=
  let m1 := codePat1Find (n.output.length + 1) n.output
  let r1 := m1.foldl (fun r kv => dictSet r kv.1 (JVal.str (pyStrip kv.2))) []
  let m2 := codePat2Find (n.output.length + 1) n.output
  let r2 := m2.enum.foldl
    (fun r kv =>
      dictSet r (txt "code_block_" ++ natRepr kv.1 ++ txt ".py") (JVal.str (pyStrip kv.2))) r1
  match n.retrieve_from_memory (txt "code_files") with
  | some (.obj fs) => fs.foldl (fun r kv => dictSet r kv.1 kv.2) r2
  | _ => r2

mutual

/-- `search_for_code` inside `components/node.py` `_extract_code_from_json`:
the `(filename, code)` pairs in encounter order. -/
def searchForCode : Str → JVal → List (Str × Str)
  | prefx, .obj fs => searchFields prefx fs
  | prefx, .arr xs => searchItems prefx 0 xs
  | _, _ => []

def searchFields : Str → List (Str × JVal) → List (Str × Str)
  | _, [] => []
  | prefx, (key, value) :: rest =>
    let key_lower := toLowerStr key
    let hits : List (Str × Str) :=
      match value with
      | .str sv =>
        if containsSub key_lower (txt "code") ∨ containsSub key_lower (txt "implementation") ∨
            endsWith key_lower (txt "_py") ∨ endsWith key_lower (txt "_js") then
          let ext :=
            if containsSub key_lower (txt "html") then txt "html"
            else if containsSub key_lower (txt "css") then txt "css"
            else if containsSub key_lower (txt "python") ∨ endsWith key_lower (txt "_py") then
              txt "py"
            else txt "js"
          let base :=
            replaceAll (key_lower.length + 1)
              (replaceAll (key_lower.length + 1) key_lower (txt "_code") [])
              (txt "code_") []
          let fname0 := base ++ '.' :: ext
          let filename := if ¬ prefx.isEmpty then prefx ++ '_' :: fname0 else fname0
          [(filename, sv)]
        else []
      | .obj _ =>
        searchForCode (if ¬ prefx.isEmpty then prefx ++ '_' :: key else key) value
      | .arr _ =>
        searchForCode (if ¬ prefx.isEmpty then prefx ++ '_' :: key else key) value
      | _ => []
    hits ++ searchFields prefx rest

def searchItems : Str → Nat → List JVal → List (Str × Str)
  | _, _, [] => []
  | prefx, i, x :: rest =>
    searchForCode (if ¬ prefx.isEmpty then prefx ++ '_' :: natRepr i else natRepr i) x ++
      searchItems prefx (i + 1) rest

end

/-- `components/node.py` `_extract_code_from_json`: collect code-like
string fields anywhere in the parsed JSON and merge them into the node's
`code_files` memory entry. -/
def _extract_code_from_json (s : AgentState) (nid : Nat) (json_data : JVal) : AgentState :=
  if ¬ json_data.truthy then s
  else
    let found := searchForCode [] json_data
    let code_files := found.foldl (fun d kv => dictSet d kv.1 (JVal.str kv.2)) []
    if code_files.isEmpty then s
    else
      let current : List (Str × JVal) :=
        match (s.getNode nid).bind (fun n => n.retrieve_from_memory (txt "code_files")) with
        | some (.obj fs) => fs
        | _ => []
      let merged := code_files.foldl (fun d kv => dictSet d kv.1 kv.2) current
      s.storeMem nid (txt "code_files") (.obj merged)

/-- `components/agent.py` `create_child_node` (reached through
`Node._create_child_node`, which passes `depth = self.depth + 1`). -/
def create_child_node_comp (s : AgentState) (parentId : Nat) (task_description : JVal)
    (depth : Nat) : AgentState :=
  let nid := s.next_id
  let newNode := mkNode nid (some parentId) (some task_description) depth
  let s1 : AgentState :=
    { s with next_id := nid + 1, node_lookup := dictSet s.node_lookup nid newNode }
  let s2 := s1.updNode parentId (fun p => p.add_child nid)
  { s2 with attention := s2.attention.track_dependencies (some parentId) nid }

/-- The `try`-block body of `components/node.py` `process_llm_output`. -/
def processInnerComp (s : AgentState) (selfId : Nat) (llm_output : Str) :
    Except Str AgentState :=
  match s.getNode selfId with
  | none => .ok s
  | some n0 =>
    let code_files := n0.extract_code_files
    let s1 :=
      if code_files.isEmpty then s
      else s.storeMem selfId (txt "code_files") (.obj code_files)
    let p := extract_json_from_text_comp llm_output
    if p.truthy then
      let resultBranch : Except Str AgentState :=
        match JVal.hasMem (txt "result") p with
        | .error e => .error e
        | .ok hasRes =>
          if hasRes then
            match JVal.subscript p (txt "result") with
            | .error e => .error e
            | .ok rv =>
              .ok (_extract_code_from_json (s1.storeMem selfId (txt "result") rv) selfId p)
          else
            .ok (_extract_code_from_json (s1.storeMem selfId (txt "result") p) selfId p)
      match JVal.hasMem (txt "subtasks") p with
      | .error e => .error e
      | .ok hasSub =>
        if hasSub then
          match JVal.subscript p (txt "subtasks") with
          | .error e => .error e
          | .ok sub =>
            match sub with
            | .arr xs =>
              let s2 := xs.foldl (fun st subtask =>
                match subtask with
                | .str t => create_child_node_comp st selfId (.str t) (selfDepth st selfId + 1)
                | .obj fs =>
                  if dictHasKey fs (txt "task_description") then
                    create_child_node_comp st selfId
                      ((dictGet fs (txt "task_description")).getD .null)
                      (selfDepth st selfId + 1)
                  else st
                | _ => st) s1
              .ok (_extract_code_from_json s2 selfId p)
            | _ => resultBranch
        else resultBranch
    else
      if code_files.isEmpty then .ok (s1.storeMem selfId (txt "result") (.str llm_output))
      else .ok s1

/-- `components/node.py` `process_llm_output`. -/
def process_llm_output_comp (s : AgentState) (selfId : Nat) (llm_output : Str) :
    AgentState :=
  match processInnerComp s selfId llm_output with
  | .ok s2 => s2
  | .error e =>
    s.updNode selfId (fun n =>
      { n with
          status := STATUS_FAILED,
          error_message := txt "Error processing LLM output: " ++ e })

/-- `components/node.py` `has_code_constraint`. -/
def has_code_constraint (s : AgentState) (nid : Nat) : Bool :=
  (s.attention.get_constraints nid).any (fun c => startsWith (txt "code") c)

/-- `components/node.py` `build_prompt`: global context, task, depth line,
root decomposition instructions, code requirements, constraints, parent
output, regeneration guidance. -/
def build_prompt_comp (s : AgentState) (nid : Nat) : Str :=
  match s.getNode nid with
  | none => []
  | some n =>
    let p0 : List Str := [s.global_context]
    let p1 := p0 ++
      (match n.retrieve_from_memory (txt "task") with
       | some t => if t.truthy then [txt "Task: " ++ pyStr t] else []
       | none => [])
    let p2 := p1 ++ [txt "Current depth level: " ++ natRepr n.depth]
    let p3 := p2 ++
      (if n.depth = 0 then
        [txt "\nInstructions:\n1. Decompose this complex task into manageable subtasks in a hierarchical structure\n2. Return your response in JSON format with a 'subtasks' array\n3. Each subtask should be a string describing a specific part of the task\n4. Aim for 3-7 subtasks that collectively solve the main task\n5. Make sure each subtask is clear and focused on a specific aspect\n"]
       else [])
    let p4 := p3 ++
      (if has_code_constraint s nid then
        [txt "\nCode requirements:\n1. Include complete, working code in your response\n2. Format code blocks with proper markdown: ```language\n3. Put file paths in comments at the top of each code block:\n   ```python\n   # filepath: path/to/file.py\n   your code here\n   ```\n4. Ensure code is ready to be directly saved and executed\n5. Include all necessary imports, functions, and components\n"]
       else [])
    let p5 := p4 ++
      (if dictHasKey s.attention.constraints nid then
        (let cs := (dictGet s.attention.constraints nid).getD []
         if cs.isEmpty then [] else txt "Constraints:" :: cs.map (fun c => txt "- " ++ c))
       else [])
    let p6 := p5 ++
      (match n.parent_id with
       | some pid =>
         match s.getNode pid with
         | some pn =>
           if pn.output.isEmpty then []
           else
             [txt "Output from Parent Node (" ++ (natRepr pn.node_id).take 8 ++
               txt "...): " ++ pn.output]
         | none => []
       | none => [])
    let p7 := p6 ++
      (match n.retrieve_from_memory (txt "regeneration_guidance") with
       | some g => if g.truthy then [txt "Regeneration Guidance: " ++ pyStr g] else []
       | none => [])
    joinSections p7

/-! ### Components-module orchestrator (`components/agent.py`) -/

/-- `components/utils.py` `handle_node_retryable_error`. -/
def handle_node_retryable_error_comp (n : Node) (attempt : Nat) (err : Str) :
    Bool × Node × Nat :=
  if attempt < MAX_RETRIES - 1 then
    (false,
      { n with
          error_message :=
            txt "Error (attempt " ++ natRepr (attempt + 1) ++ txt "): " ++ err ++
              txt ". Retrying..." },
      1)
  else
    (true,
      { n with
          status := STATUS_FAILED,
          error_message := txt "Max retries reached. Last error: " ++ err },
      0)

/-- `re.search` for the fenced-json pattern used by
`_extract_code_from_json_output`: the first captured group. -/
def jsonFenceSearch : Nat → Str → Option Str
  | 0, _ => none
  | fuel + 1, s =>
    match s with
    | [] => none
    | _ :: rest =>
      if startsWith (txt "```json") s then
        let s2 := dropWs (s.drop 7)
        match fenceSplit (s2.length + 1) s2 with
        | some (chunk, _) => some (stripRight chunk)
        | none => jsonFenceSearch fuel rest
      else jsonFenceSearch fuel rest

/-- `components/agent.py` `_extract_code_from_json_output`: best-effort
extraction of code files from a JSON-shaped output; all exceptions are
swallowed (only logged), leaving the state unchanged. -/
def _extract_code_from_json_output (s : AgentState) (nid : Nat) : AgentState :=
  match s.getNode nid with
  | none => s
  | some n =>
    let outputJson : Option JVal :=
      match json_loads n.output with
      | some j => some j
      | none =>
        match jsonFenceSearch (n.output.length + 1) n.output with
        | some g => json_loads g
        | none => none
    match outputJson with
    | none => s
    | some oj =>
      let body : Except Str (List (Str × JVal)) :=
        match JVal.hasMem (txt "code") oj with
        | .error e => .error e
        | .ok hasCode =>
          let cf0 : List (Str × JVal) :=
            if hasCode then
              match oj.objGet (txt "code") with
              | some (.str code) =>
                let ext :=
                  if containsSub (toLowerStr n.output) (txt "python") then txt "py"
                  else txt "js"
                [(txt "script." ++ ext, JVal.str code)]
              | _ => []
            else []
          (List.foldl (fun acc field =>
              match acc with
              | .error e => .error e
              | .ok cf =>
                match JVal.hasMem field oj with
                | .error e => .error e
                | .ok hasField =>
                  let isList : Bool :=
                    hasField && (match oj.objGet field with
                      | some (.arr _) => true
                      | _ => false)
                  if isList then
                    let items :=
                      match oj.objGet field with
                      | some (.arr xs) => xs
                      | _ => []
                    .ok (items.enum.foldl (fun cf2 ix =>
                      match ix.2 with
                      | .obj fs =>
                        let filename :=
                          (JVal.obj fs).getD (txt "filename")
                            ((JVal.obj fs).getD (txt "path")
                              (.str (txt "file_" ++ natRepr ix.1 ++ txt ".py")))
                        let code :=
                          (JVal.obj fs).getD (txt "content")
                            ((JVal.obj fs).getD (txt "code") (.str []))
                        if code.truthy then dictSet cf2 (pyStr filename) code else cf2
                      | .str fi =>
                        if ix.1 % 2 = 0 then
                          match items.get? (ix.1 + 1) with
                          | some (.str nxt) => dictSet cf2 fi (JVal.str nxt)
                          | _ => cf2
                        else cf2
                      | _ => cf2) cf)
                  else .ok cf)
            (Except.ok cf0)
            [txt "files", txt "implementation", txt "code_files"])
      match body with
      | .error _ => s
      | .ok code_files =>
        if code_files.isEmpty then s
        else
          let current : List (Str × JVal) :=
            match n.retrieve_from_memory (txt "code_files") with
            | some (.obj fs) => fs
            | _ => []
          let merged := code_files.foldl (fun d kv => dictSet d kv.1 kv.2) current
          s.storeMem nid (txt "code_files") (.obj merged)

/-- State-relevant effect of `components/agent.py` `_process_code_in_output`
(the surrounding widgets are display-only): re-extract code files and, when
present, store them in the node's memory. -/
def _process_code_in_output (s : AgentState) (nid : Nat) : AgentState :=
  match s.getNode nid with
  | none => s
  | some n =>
    let code_files := n.extract_code_files
    if code_files.isEmpty then s
    else s.storeMem nid (txt "code_files") (.obj code_files)

/-- `_summarize_global_context` (components module; textually identical to
the agent version). -/
def _summarize_global_context_comp (env : GenEnv) (s : AgentState) (tr : Trace) :
    AgentState × Trace :=
  let prompt :=
    txt "Summarize the following global context into a concise JSON object with a single field \"summary\":\n\n" ++
      s.global_context
  let tr1 : Trace := { tr with llm_calls := tr.llm_calls + 1 }
  match env.oracle tr.llm_calls prompt with
  | .ok resp =>
    match json_loads resp with
    | some (.obj fs) =>
      ({ s with
          global_context :=
            pyStr ((JVal.obj fs).getD (txt "summary")
              (.str (txt "Error: Could not summarize global context."))) }, tr1)
    | some _ =>
      ({ s with global_context := txt "Error during summarization: AttributeError" }, tr1)
    | none =>
      ({ s with global_context := txt "Error during summarization: JSONDecodeError" }, tr1)
  | .error e =>
    ({ s with global_context := txt "Error during summarization: " ++ e }, tr1)

/-- `summarize_node` (components module): the task is read from local
memory and the compression interval is the components constant. -/
def summarize_node_comp (env : GenEnv) (s : AgentState) (n : Node) (tr : Trace) :
    AgentState × Trace :=
  let prompt :=
    txt "Summarize the following task and its result concisely into a JSON object with two fields \"task_summary\" and \"result_summary\":\n\nTask: " ++
      (match n.retrieve_from_memory (txt "task") with
       | some t => pyStr t
       | none => txt "None") ++
      txt "\n\nResult: " ++ n.output ++ txt "\n"
  let tr1 : Trace := { tr with llm_calls := tr.llm_calls + 1 }
  let line : Str :=
    match env.oracle tr.llm_calls prompt with
    | .ok resp =>
      match json_loads resp with
      | some (.obj fs) =>
        txt "\n- Node " ++ natRepr n.node_id ++ txt " (" ++ n.status ++ txt "): Task: " ++
          pyStr ((JVal.obj fs).getD (txt "task_summary") (.str (txt "Task summary not available."))) ++
          txt ", Result: " ++
          pyStr ((JVal.obj fs).getD (txt "result_summary") (.str (txt "Result summary not available.")))
      | some _ =>
        txt "\n- Node " ++ natRepr n.node_id ++ txt " (" ++ n.status ++
          txt "): Error during summarization: AttributeError"
      | none =>
        txt "\n- Node " ++ natRepr n.node_id ++ txt " (" ++ n.status ++
          txt "): Error during summarization: JSONDecodeError"
    | .error e =>
      txt "\n- Node " ++ natRepr n.node_id ++ txt " (" ++ n.status ++
        txt "): Error during summarization: " ++ e
  let s1 : AgentState :=
    { s with
        global_context := s.global_context ++ line,
        execution_count := s.execution_count + 1 }
  if s1.execution_count % GLOBAL_CONTEXT_SUMMARY_INTERVAL_COMP = 0 then
    _summarize_global_context_comp env s1 tr1
  else (s1, tr1)

/-- Outcome of the components retry loop: an early `return`, or falling
through carrying the final value of the `success` flag. -/
inductive LoopExitComp where
  | returnedC (s : AgentState) (tr : Trace)
  | fellC (s : AgentState) (tr : Trace) (success : Bool)

/-- The retry loop of `components/agent.py` `_execute_node`.  An empty or
whitespace-only response raises `ValueError` inside the `try`, landing in
the generic handler; a failed constraint check clears `success` and
`continue`s into the next attempt. -/
def execLoopComp (env : GenEnv) (nid : Nat) (prompt : Str) :
    Nat → Nat → Bool → AgentState → Trace → LoopExitComp
  | 0, _, success, s, tr => .fellC s tr success
  | remaining + 1, attempt, success, s, tr =>
    let genResult : Except Str Str :=
      match env.oracle tr.llm_calls prompt with
      | .ok out => if (pyStrip out).isEmpty then .error (txt "Empty response from LLM") else .ok out
      | .error e => .error e
    let tr1 : Trace := { tr with llm_calls := tr.llm_calls + 1 }
    match genResult with
    | .ok llm_output =>
      let s1 := s.updNode nid (fun n => { n with output := llm_output })
      let s2 := process_llm_output_comp s1 nid llm_output
      let gotResults : AgentState → Bool := fun st =>
        match st.getNode nid with
        | some n2 =>
          ¬ n2.child_ids.isEmpty ∨ optTruthy (n2.retrieve_from_memory (txt "result")) ∨
            optTruthy (n2.retrieve_from_memory (txt "code_files"))
        | none => false
      let step : AgentState × Bool :=
        if gotResults s2 then (s2, true)
        else
          let s3 := _extract_code_from_json_output s2 nid
          (s3,
            match s3.getNode nid with
            | some n3 => optTruthy (n3.retrieve_from_memory (txt "code_files"))
            | none => false)
      let s4 := step.1
      let success1 := step.2
      match s4.getNode nid with
      | some n4 =>
        let ckr := check_constraints_comp s4.attention n4
        let s5 := s4.putNode nid ckr.2.1
        if ckr.1 then .fellC s5 tr1 success1
        else execLoopComp env nid prompt remaining (attempt + 1) false s5 tr1
      | none => .fellC s4 tr1 success1
    | .error e =>
      match s.getNode nid with
      | some n =>
        let h := handle_node_retryable_error_comp n attempt e
        let s1 := s.putNode nid h.2.1
        let tr2 : Trace := { tr1 with sleeps := tr1.sleeps + h.2.2 }
        if h.1 then .returnedC s1 tr2
        else execLoopComp env nid prompt remaining (attempt + 1) success s1 tr2
      | none => .fellC s tr1 success

/-- `components/agent.py` `_execute_node`. -/
def _execute_node_comp (env : GenEnv) (s : AgentState) (nid : Nat) (tr : Trace) :
    AgentState × Trace :=
  let s0 := s.updNode nid (fun n => { n with status := STATUS_RUNNING })
  let prompt := build_prompt_comp s0 nid
  match execLoopComp env nid prompt MAX_RETRIES 0 false s0 tr with
  | .returnedC s1 tr1 => (s1, tr1)
  | .fellC s1 tr1 success =>
    let afterLoop : Option (AgentState × Trace) :=
      if ¬ success then
        match s1.getNode nid with
        | some n =>
          if n.status ≠ STATUS_FAILED then
            some
              (s1.putNode nid
                { n with
                    status := STATUS_FAILED,
                    error_message :=
                      txt "Failed to process LLM output after multiple attempts" }, tr1)
          else none
        | none => none
      else none
    match afterLoop with
    | some r => r
    | none =>
      if success then
        let s2 := _process_code_in_output s1 nid
        match s2.getNode nid with
        | some n =>
          if n.status = STATUS_RUNNING then
            let n2 : Node := { n with status := STATUS_COMPLETED }
            let s3 := s2.putNode nid n2
            if n2.child_ids.isEmpty then summarize_node_comp env s3 n2 tr1
            else (s3, tr1)
          else (s2, tr1)
        | none => (s2, tr1)
      else (s1, tr1)

/-- `components/agent.py` `_regenerate_node`: reset, store the guidance,
delete every current child subtree, clear the child list, re-execute. -/
def _regenerate_node_comp (env : GenEnv) (s : AgentState) (nid : Nat)
    (regeneration_guidance : Str) (tr : Trace) : AgentState × Trace :=
  let s1 := s.updNode nid (fun n =>
    ({ n with status := STATUS_PENDING, output := [], error_message := [] } :
      Node).store_in_memory (txt "regeneration_guidance") (.str regeneration_guidance))
  let childIds :=
    match s1.getNode nid with
    | some n => n.child_ids
    | none => []
  let s2 := childIds.foldl
    (fun st cid =>
      if dictHasKey st.node_lookup cid then delete_node_and_children st cid else st) s1
  let s3 := s2.updNode nid (fun n => { n with child_ids := [] })
  _execute_node_comp env s3 nid tr

/-! ## Dictionary lemmas -/

theorem dictGet_dictSet_self [DecidableEq κ] (l : List (κ × α)) (k : κ) (v : α) :
    dictGet (dictSet l k v) k = some v := by
  induction l with
  | nil => simp [dictSet, dictGet]
  | cons kv rest ih =>
    obtain ⟨k1, v1⟩ := kv
    by_cases h : k1 = k <;> simp [dictSet, dictGet, h, ih]

theorem dictGet_dictSet_ne [DecidableEq κ] (l : List (κ × α)) (k k2 : κ) (v : α)
    (h : k2 ≠ k) : dictGet (dictSet l k v) k2 = dictGet l k2 := by
  have hks : ¬ k = k2 := fun hh => h hh.symm
  induction l with
  | nil => simp [dictSet, dictGet, hks]
  | cons kv rest ih =>
    obtain ⟨k1, v1⟩ := kv
    by_cases h1 : k1 = k
    · subst h1
      simp [dictSet, dictGet, hks]
    · simp [dictSet, dictGet, h1, ih]

theorem dictGet_mapVal {β : Type} (l : List (κ × α)) (f : α → β) (k : κ) [DecidableEq κ] :
    dictGet (l.map (fun kv => (kv.1, f kv.2))) k = (dictGet l k).map f := by
  induction l with
  | nil => simp [dictGet]
  | cons kv rest ih =>
    obtain ⟨k1, v1⟩ := kv
    by_cases h : k1 = k <;> simp [dictGet, h, ih]

theorem dictSet_append_of_get_none [DecidableEq κ] (l : List (κ × α)) (k : κ) (v : α)
    (h : dictGet l k = none) : dictSet l k v = l ++ [(k, v)] := by
  induction l with
  | nil => simp [dictSet]
  | cons kv rest ih =>
    obtain ⟨k1, v1⟩ := kv
    by_cases hk : k1 = k
    · simp [dictGet, hk] at h
    · simp [dictGet, hk] at h
      simp [dictSet, hk, ih h]

theorem dictGet_append_right [DecidableEq κ] (l1 l2 : List (κ × α)) (k : κ)
    (h : dictGet l1 k = none) : dictGet (l1 ++ l2) k = dictGet l2 k := by
  induction l1 with
  | nil => simp
  | cons kv rest ih =>
    obtain ⟨k1, v1⟩ := kv
    by_cases hk : k1 = k
    · simp [dictGet, hk] at h
    · simp [dictGet, hk] at h ⊢
      exact ih h

/-! ## C4: constraint string parsing -/

theorem splitAtChar_of_not_mem (s : Str) (t : Char) (h : s.contains t = false) :
    splitAtChar s t = none := by
  induction s with
  | nil => simp [splitAtChar]
  | cons c rest ih =>
    simp only [List.contains_cons, Bool.or_eq_false_iff, beq_eq_false_iff_ne] at h
    have h1 : ¬ c = t := fun hh => h.1 hh.symm
    simp [splitAtChar, h1, ih h.2]

theorem splitAtChar_of_mem (s : Str) (t : Char) (h : s.contains t = true) :
    splitAtChar s t =
      some (s.takeWhile (fun c => c ≠ t), (s.dropWhile (fun c => c ≠ t)).tail) := by
  induction s with
  | nil => simp at h
  | cons c rest ih =>
    by_cases hc : c = t
    · subst hc; simp [splitAtChar]
    · simp only [List.contains_cons, Bool.or_eq_true, beq_iff_eq] at h
      rcases h with h | h
      · exact absurd h.symm hc
      · simp [splitAtChar, hc, ih (by simpa using h)]

/-- C4 counterexample: the claim predicts that a colon-free constraint
string parses to (trimmed string, ""); at the input `" foo "` the agent
parser yields `("generic", "foo")` and the components parser yields the
untrimmed `(" foo ", "")`, so the claim fails on both. -/
theorem c4_parse_constraint_counterexample :
    parse_constraint (txt " foo ") ≠ (pyStrip (txt " foo "), ([] : Str)) ∧
    parse_constraint_comp (txt " foo ") ≠ (pyStrip (txt " foo "), ([] : Str)) ∧
    parse_constraint (txt " foo ") = (txt "generic", txt "foo") ∧
    parse_constraint_comp (txt " foo ") = (txt " foo ", ([] : Str)) := by
  refine ⟨?_, ?_, ?_, ?_⟩ <;> decide

/-- C4 amended: with a colon, both parsers split at the first colon and
trim both parts; without one, the agent parser returns the literal type
`"generic"` with the trimmed string as the value, while the components
parser returns the untrimmed string as the type with an empty value. -/
theorem c4_parse_constraint_amended (s : Str) :
    (s.contains ':' = true →
      parse_constraint s =
        (pyStrip (s.takeWhile (fun c => c ≠ ':')),
         pyStrip ((s.dropWhile (fun c => c ≠ ':')).tail)) ∧
      parse_constraint_comp s =
        (pyStrip (s.takeWhile (fun c => c ≠ ':')),
         pyStrip ((s.dropWhile (fun c => c ≠ ':')).tail))) ∧
    (s.contains ':' = false →
      parse_constraint s = (txt "generic", pyStrip s) ∧
      parse_constraint_comp s = (s, [])) := by
  constructor
  · intro h
    rw [parse_constraint, parse_constraint_comp, splitAtChar_of_mem s ':' h]
    exact ⟨rfl, rfl⟩
  · intro h
    rw [parse_constraint, parse_constraint_comp, splitAtChar_of_not_mem s ':' h]
    exact ⟨rfl, rfl⟩

theorem c4_parse_constraint_amended_witness :
    parse_constraint (txt " a : b ") =
      (pyStrip ((txt " a : b ").takeWhile (fun c => c ≠ ':')),
       pyStrip (((txt " a : b ").dropWhile (fun c => c ≠ ':')).tail)) ∧
    parse_constraint_comp (txt "nocolon") = (txt "nocolon", []) :=
  ⟨((c4_parse_constraint_amended (txt " a : b ")).1 (by decide)).1,
   ((c4_parse_constraint_amended (txt "nocolon")).2 (by decide)).2⟩

/-! ## C10: the save_session aliasing side effect -/

/-- C10: `save_session` is not side-effect-free — through the aliased
attribute dict, every node's `local_memory` attribute is replaced by the
plain contents dict of its `LocalMemory` object, all other node fields and
all other state fields staying unchanged. -/
theorem c10_save_session_aliasing (s : AgentState) (nid : Nat) (n : Node)
    (m : LocalMemory) (hn : s.getNode nid = some n) (hm : n.local_memory = .mem m) :
    (save_session s).2.getNode nid =
      some { n with local_memory := MemAttr.rawDict m.local_memory } ∧
    (save_session s).2.attention = s.attention ∧
    (save_session s).2.root_node_id = s.root_node_id ∧
    (save_session s).2.global_context = s.global_context ∧
    (save_session s).2.execution_count = s.execution_count ∧
    (save_session s).2.next_id = s.next_id := by
  refine ⟨?_, rfl, rfl, rfl, rfl, rfl⟩
  have hmap : (save_session s).2.getNode nid =
      (s.getNode nid).map (fun nd =>
        { nd with local_memory := MemAttr.rawDict (memContents nd.local_memory) }) := by
    unfold save_session AgentState.getNode
    dsimp only
    exact dictGet_mapVal s.node_lookup
      (fun nd => { nd with local_memory := MemAttr.rawDict (memContents nd.local_memory) }) nid
  rw [hmap, hn]
  simp [hm, memContents]

def c10state : AgentState :=
  run { node_lookup := [], attention := { dependency_graph := [], constraints := [] },
        root_node_id := none, global_context := txt "ctx", execution_count := 0,
        next_id := 0 }
      (txt "t") []

def c10node : Node := mkNode 0 none (some (JVal.str (txt "t"))) 0

def c10mem : LocalMemory := { node_id := 0, local_memory := [(txt "task", .str (txt "t"))] }

theorem c10_save_session_aliasing_witness :
    (save_session c10state).2.getNode 0 =
      some { c10node with local_memory := MemAttr.rawDict c10mem.local_memory } ∧
    (save_session c10state).2.attention = c10state.attention ∧
    (save_session c10state).2.root_node_id = c10state.root_node_id ∧
    (save_session c10state).2.global_context = c10state.global_context ∧
    (save_session c10state).2.execution_count = c10state.execution_count ∧
    (save_session c10state).2.next_id = c10state.next_id :=
  c10_save_session_aliasing c10state 0 c10node c10mem (by rfl) (by rfl)

/-! ## C9: session round trip -/

/-- The node a `loadStep` iteration reconstructs from a document entry. -/
def docToNode (nd : NodeDoc) : Node :=
  { node_id := nd.node_id, depth := nd.depth,
    local_memory := .mem { node_id := nd.node_id, local_memory := nd.local_memory },
    parent_id := nd.parent_id, child_ids := nd.child_ids, status := nd.status,
    output := nd.output, error_message := nd.error_message,
    task_description := nd.task_description }

theorem nodeToDoc_docToNode (nd : NodeDoc) : nodeToDoc (docToNode nd) = nd := rfl

theorem loadStep_eq (st : AgentState) (kv : Nat × NodeDoc) :
    loadStep st kv =
      { st with
          next_id := st.next_id + 1,
          node_lookup := dictSet st.node_lookup kv.1 (docToNode kv.2) } := by
  obtain ⟨k, nd⟩ := kv
  cases htd : nd.task_description with
  | none =>
    simp [loadStep, mkNode, Node.store_in_memory, docToNode, htd]
  | some t =>
    by_cases ht : t.truthy <;>
      simp [loadStep, mkNode, Node.store_in_memory, docToNode, htd, ht]

theorem load_fold_root (docs : List (Nat × NodeDoc)) (st : AgentState) :
    (docs.foldl loadStep st).root_node_id = st.root_node_id := by
  induction docs generalizing st with
  | nil => rfl
  | cons kv rest ih =>
    rw [List.foldl_cons, loadStep_eq]
    exact ih _

theorem load_fold (docs : List (Nat × NodeDoc)) (st : AgentState)
    (hnd : (docs.map Prod.fst).Nodup)
    (hfresh : ∀ k ∈ docs.map Prod.fst, dictGet st.node_lookup k = none) :
    (docs.foldl loadStep st).node_lookup =
      st.node_lookup ++ docs.map (fun kv => (kv.1, docToNode kv.2)) := by
  induction docs generalizing st with
  | nil => simp
  | cons kv rest ih =>
    obtain ⟨k, nd⟩ := kv
    simp only [List.foldl_cons, loadStep_eq]
    simp only [List.map_cons, List.nodup_cons] at hnd
    have hk : dictGet st.node_lookup k = none := hfresh k (by simp)
    rw [ih _ hnd.2]
    · rw [dictSet_append_of_get_none st.node_lookup k (docToNode nd) hk]
      simp
    · intro k2 hk2
      have hne : k2 ≠ k := by
        intro hh
        exact hnd.1 (hh ▸ hk2)
      rw [show ({ st with
            next_id := st.next_id + 1,
            node_lookup := dictSet st.node_lookup k (docToNode nd) } :
          AgentState).node_lookup = dictSet st.node_lookup k (docToNode nd) from rfl]
      rw [dictGet_dictSet_ne st.node_lookup k k2 (docToNode nd) hne]
      exact hfresh k2 (by simp [hk2])

/-- C9: a `save_session` / `load_session` round trip reproduces the node
table (ids, statuses, parent/child links, depths, outputs, error messages,
local-memory contents, task descriptions — compared through the attribute
dict `nodeToDoc`), the dependency graph, the constraints map, the root id,
the global context, and the execution counter, whatever state the loading
agent starts from.  The hypotheses state that the saved state is an actual
Python state: distinct table keys, and every `local_memory` attribute still
a `LocalMemory` object (otherwise `save_session` itself raises). -/
theorem c9_session_roundtrip (s s2 : AgentState)
    (hkeys : (s.node_lookup.map Prod.fst).Nodup)
    (_hmem : ∀ kv ∈ s.node_lookup, ∃ m, kv.2.local_memory = MemAttr.mem m) :
    (load_session s2 (save_session s).1).node_lookup.map (fun kv => (kv.1, nodeToDoc kv.2)) =
      s.node_lookup.map (fun kv => (kv.1, nodeToDoc kv.2)) ∧
    (load_session s2 (save_session s).1).attention.dependency_graph =
      s.attention.dependency_graph ∧
    (load_session s2 (save_session s).1).attention.constraints = s.attention.constraints ∧
    (load_session s2 (save_session s).1).root_node_id = s.root_node_id ∧
    (load_session s2 (save_session s).1).global_context = s.global_context ∧
    (load_session s2 (save_session s).1).execution_count = s.execution_count := by
  clear _hmem
  have hdocs : ((save_session s).1.node_lookup.map Prod.fst).Nodup := by
    have heq : (save_session s).1.node_lookup.map Prod.fst = s.node_lookup.map Prod.fst := by
      simp [save_session]
    rw [heq]; exact hkeys
  have htable : (load_session s2 (save_session s).1).node_lookup =
      [] ++ (save_session s).1.node_lookup.map (fun kv => (kv.1, docToNode kv.2)) := by
    unfold load_session
    exact load_fold _ _ hdocs (by intro k hk; rfl)
  have hroot : (load_session s2 (save_session s).1).root_node_id = s.root_node_id := by
    unfold load_session
    dsimp only
    rw [load_fold_root]
    rfl
  refine ⟨?_, rfl, rfl, hroot, rfl, rfl⟩
  rw [htable]
  simp only [List.nil_append, List.map_map, save_session]
  simp [Function.comp, nodeToDoc_docToNode]

def c9state : AgentState :=
  { node_lookup := [(0, c10node)],
    attention := { dependency_graph := [(0, [])], constraints := [(0, [txt "contains:x"])] },
    root_node_id := some 0, global_context := txt "ctx", execution_count := 2, next_id := 1 }

theorem c9_session_roundtrip_witness :
    (load_session c9state (save_session c9state).1).node_lookup.map
        (fun kv => (kv.1, nodeToDoc kv.2)) =
      c9state.node_lookup.map (fun kv => (kv.1, nodeToDoc kv.2)) ∧
    (load_session c9state (save_session c9state).1).attention.dependency_graph =
      c9state.attention.dependency_graph ∧
    (load_session c9state (save_session c9state).1).attention.constraints =
      c9state.attention.constraints ∧
    (load_session c9state (save_session c9state).1).root_node_id = c9state.root_node_id ∧
    (load_session c9state (save_session c9state).1).global_context =
      c9state.global_context ∧
    (load_session c9state (save_session c9state).1).execution_count =
      c9state.execution_count :=
  c9_session_roundtrip c9state c9state (by decide)
    (by
      intro kv hkv
      rw [show c9state.node_lookup = [(0, c10node)] from rfl, List.mem_singleton] at hkv
      subst hkv
      exact ⟨c10mem, rfl⟩)

/-! ## C3: checkConstraints evaluation order and short-circuiting -/

/-- Whether one constraint passes for the given node: the checker of its
parsed type accepts, or no checker is registered for the type. -/
def constraintPasses (reg : Str → Option (Str → Node → Bool × Node))
    (parse : Str → Str × Str) (n : Node) (c : Str) : Bool :=
  match reg (parse c).1 with
  | some ch => (ch (parse c).2 n).1
  | none => true

theorem check_json_format_pure (v : Str) (n : Node)
    (h : (check_json_format v n).1 = true) : (check_json_format v n).2 = n := by
  cases hj : json_loads n.output <;> simp [check_json_format, hj] at h ⊢

theorem check_contains_word_pure (v : Str) (n : Node)
    (h : (check_contains_word v n).1 = true) : (check_contains_word v n).2 = n := by
  by_cases hc : containsSub n.output v <;> simp [check_contains_word, hc] at h ⊢

theorem check_max_length_pure (v : Str) (n : Node)
    (h : (check_max_length v n).1 = true) : (check_max_length v n).2 = n := by
  cases hp : pyInt v with
  | none => simp [check_max_length, hp] at h
  | some maxLen =>
    by_cases hl : (n.output.length : Int) ≤ maxLen <;>
      simp [check_max_length, hp, hl] at h ⊢

theorem check_has_code_pure (v : Str) (n : Node)
    (h : (check_has_code v n).1 = true) : (check_has_code v n).2 = n := by
  by_cases hc : (hasCodeFind (n.output.length + 1) n.output).isEmpty <;>
    simp [check_has_code, hc] at h ⊢

/-- Every checker in the agent registry leaves the node unchanged when it
accepts (a failing checker mutates status and message and short-circuits). -/
theorem agentCheckers_pure : ∀ t ch, agentCheckers t = some ch →
    ∀ v n, (ch v n).1 = true → (ch v n).2 = n := by
  intro t ch h v n
  unfold agentCheckers at h
  split_ifs at h
  · cases h; exact check_json_format_pure v n
  · cases h; exact check_contains_word_pure v n
  · cases h; exact check_max_length_pure v n

theorem compCheckers_pure : ∀ t ch, compCheckers t = some ch →
    ∀ v n, (ch v n).1 = true → (ch v n).2 = n := by
  intro t ch h v n
  unfold compCheckers at h
  split_ifs at h
  · cases h; exact check_json_format_pure v n
  · cases h; exact check_contains_word_pure v n
  · cases h; exact check_max_length_pure v n
  · cases h; exact check_has_code_pure v n

/-- Full characterization of the `check_constraints` loop for a registry
whose checkers are pure on acceptance: the result is the conjunction of
the per-constraint verdicts against the original node, the invoked-checker
trace is exactly the registered constraints of the passing prefix plus the
first failing one, and on overall success the node is untouched. -/
theorem checkLoop_spec (reg : Str → Option (Str → Node → Bool × Node))
    (parse : Str → Str × Str)
    (hpure : ∀ t ch, reg t = some ch → ∀ v n0, (ch v n0).1 = true → (ch v n0).2 = n0)
    (cs : List Str) (n : Node) (tr : List (Str × Str)) :
    ((checkLoop reg parse cs n tr).1 = cs.all (constraintPasses reg parse n)) ∧
    ((checkLoop reg parse cs n tr).2.2 =
      tr ++ ((cs.takeWhile (constraintPasses reg parse n) ++
        (cs.dropWhile (constraintPasses reg parse n)).take 1).filter
          (fun c => (reg (parse c).1).isSome)).map parse) ∧
    (cs.all (constraintPasses reg parse n) = true →
      (checkLoop reg parse cs n tr).2.1 = n) := by
  induction cs generalizing tr with
  | nil => simp [checkLoop]
  | cons c rest ih =>
    cases hr : reg (parse c).1 with
    | none =>
      have hp : constraintPasses reg parse n c = true := by
        simp [constraintPasses, hr]
      have hh := ih tr
      refine ⟨?_, ?_, ?_⟩
      · simpa [checkLoop, hr, hp] using hh.1
      · simpa [checkLoop, hr, hp] using hh.2.1
      · intro hall
        simp only [List.all_cons, hp, Bool.true_and] at hall
        simpa [checkLoop, hr] using hh.2.2 hall
    | some ch =>
      by_cases h1 : (ch (parse c).2 n).1 = true
      · have hp : constraintPasses reg parse n c = true := by
          simp [constraintPasses, hr, h1]
        have hn2 : (ch (parse c).2 n).2 = n := hpure _ _ hr _ _ h1
        have hh := ih (tr ++ [parse c])
        refine ⟨?_, ?_, ?_⟩
        · simpa [checkLoop, hr, h1, hn2, hp] using hh.1
        · have := hh.2.1
          simp only [checkLoop, hr, h1, hn2, hp, if_true] at this ⊢
          rw [this]
          simp [hr, hp, List.takeWhile_cons, List.dropWhile_cons]
        · intro hall
          simp only [List.all_cons, hp, Bool.true_and] at hall
          simpa [checkLoop, hr, h1, hn2] using hh.2.2 hall
      · have hp : constraintPasses reg parse n c = false := by
          simp [constraintPasses, hr]
          exact Bool.eq_false_iff.mpr h1
        refine ⟨?_, ?_, ?_⟩
        · simp [checkLoop, hr, h1, hp]
        · simp [checkLoop, hr, h1, hp]
        · intro hall
          simp [List.all_cons, hp] at hall

/-- C3: in both modules, `check_constraints` evaluates the node's
constraint list in insertion order against the registered checkers: the
result is true exactly when every constraint passes (a constraint with no
registered checker counting as satisfied), the checkers actually invoked
are precisely those registered for the passing prefix plus the first
failing constraint (nothing after the first failure runs), and when all
pass the node is returned unchanged. -/
theorem c3_check_constraints_short_circuit (am : AttentionMechanism) (n : Node) :
    ((check_constraints am n).1 =
      (am.get_constraints n.node_id).all (constraintPasses agentCheckers parse_constraint n)) ∧
    ((check_constraints am n).2.2 =
      (((am.get_constraints n.node_id).takeWhile
          (constraintPasses agentCheckers parse_constraint n) ++
        ((am.get_constraints n.node_id).dropWhile
          (constraintPasses agentCheckers parse_constraint n)).take 1).filter
            (fun c => (agentCheckers (parse_constraint c).1).isSome)).map parse_constraint) ∧
    ((am.get_constraints n.node_id).all (constraintPasses agentCheckers parse_constraint n) =
        true → (check_constraints am n).2.1 = n) ∧
    ((check_constraints_comp am n).1 =
      (am.get_constraints n.node_id).all
        (constraintPasses compCheckers parse_constraint_comp n)) ∧
    ((check_constraints_comp am n).2.2 =
      (((am.get_constraints n.node_id).takeWhile
          (constraintPasses compCheckers parse_constraint_comp n) ++
        ((am.get_constraints n.node_id).dropWhile
          (constraintPasses compCheckers parse_constraint_comp n)).take 1).filter
            (fun c => (compCheckers (parse_constraint_comp c).1).isSome)).map
              parse_constraint_comp) ∧
    ((am.get_constraints n.node_id).all
        (constraintPasses compCheckers parse_constraint_comp n) = true →
      (check_constraints_comp am n).2.1 = n) := by
  have ha := checkLoop_spec agentCheckers parse_constraint agentCheckers_pure
    (am.get_constraints n.node_id) n []
  have hc := checkLoop_spec compCheckers parse_constraint_comp compCheckers_pure
    (am.get_constraints n.node_id) n []
  unfold check_constraints check_constraints_comp
  exact ⟨ha.1, by simpa using ha.2.1, ha.2.2, hc.1, by simpa using hc.2.1, hc.2.2⟩

/-! ## C5: retry exhaustion -/

theorem getNode_putNode (st : AgentState) (k : Nat) (nn : Node) :
    (st.putNode k nn).getNode k = some nn :=
  dictGet_dictSet_self st.node_lookup k nn

/-- C5: with the retry count fixed at 3 and a gateway that throws on every
invocation, `_execute_node` leaves the node `failed` with an error message
naming 3 attempts, invokes the gateway exactly 3 times, and sleeps the
fixed delay exactly twice (between attempts, not after the last). -/
theorem c5_retry_exhaustion (env : GenEnv) (s : AgentState) (nid : Nat) (n : Node)
    (tr : Trace) (e0 e1 e2 : Str)
    (hn : s.getNode nid = some n)
    (h0 : ∀ p, env.oracle tr.llm_calls p = .error e0)
    (h1 : ∀ p, env.oracle (tr.llm_calls + 1) p = .error e1)
    (h2 : ∀ p, env.oracle (tr.llm_calls + 2) p = .error e2) :
    (_execute_node env s nid tr).2.llm_calls = tr.llm_calls + MAX_RETRIES ∧
    (_execute_node env s nid tr).2.sleeps = tr.sleeps + (MAX_RETRIES - 1) ∧
    ((_execute_node env s nid tr).1.getNode nid).map Node.status = some (txt "failed") ∧
    ((_execute_node env s nid tr).1.getNode nid).map Node.error_message =
      some (txt "Error after 3 attempts: " ++ e2) := by
  have h1' : ∀ m p, m = tr.llm_calls + 1 → env.oracle m p = .error e1 := by
    intro m p hm; exact hm ▸ h1 p
  have h2' : ∀ m p, m = tr.llm_calls + 1 + 1 → env.oracle m p = .error e2 := by
    intro m p hm; exact hm ▸ h2 p
  unfold _execute_node
  simp only [AgentState.updNode, hn, MAX_RETRIES]
  rw [show (3 : Nat) = 2 + 1 from rfl]
  simp only [execLoop, h0, getNode_putNode, handle_node_retryable_error, MAX_RETRIES]
  norm_num
  rw [h1' _ _ rfl]
  simp only [execLoop, getNode_putNode, handle_node_retryable_error, MAX_RETRIES]
  rw [h2' _ _ rfl]
  simp only [getNode_putNode, handle_node_retryable_error, MAX_RETRIES]
  norm_num
  rfl

def c5env : GenEnv := { oracle := fun _ _ => Except.error (txt "boom") }

theorem c5_retry_exhaustion_witness :
    (_execute_node c5env c9state 0 ⟨0, 0⟩).2.llm_calls =
      (⟨0, 0⟩ : Trace).llm_calls + MAX_RETRIES ∧
    (_execute_node c5env c9state 0 ⟨0, 0⟩).2.sleeps =
      (⟨0, 0⟩ : Trace).sleeps + (MAX_RETRIES - 1) ∧
    ((_execute_node c5env c9state 0 ⟨0, 0⟩).1.getNode 0).map Node.status =
      some (txt "failed") ∧
    ((_execute_node c5env c9state 0 ⟨0, 0⟩).1.getNode 0).map Node.error_message =
      some (txt "Error after 3 attempts: " ++ txt "boom") :=
  c5_retry_exhaustion c5env c9state 0 c10node ⟨0, 0⟩ (txt "boom") (txt "boom") (txt "boom")
    rfl (fun _ => rfl) (fun _ => rfl) (fun _ => rfl)

/-! ## C6: constraint violation and retries -/

/-- The checkers of the agent registry set status `failed` whenever they
reject. -/
theorem agentCheckers_fail_status : ∀ t ch, agentCheckers t = some ch →
    ∀ v n, (ch v n).1 = false → (ch v n).2.status = txt "failed" := by
  intro t ch h v n
  unfold agentCheckers at h
  split_ifs at h
  · cases h
    intro hf
    cases hj : json_loads n.output with
    | some v2 => simp [check_json_format, hj] at hf
    | none => simp [check_json_format, hj, STATUS_FAILED]
  · cases h
    intro hf
    by_cases hc : containsSub n.output v
    · simp [check_contains_word, hc] at hf
    · simp [check_contains_word, hc, STATUS_FAILED]
  · cases h
    intro hf
    cases hp : pyInt v with
    | none => simp [check_max_length, hp, STATUS_FAILED]
    | some maxLen =>
      by_cases hl : (n.output.length : Int) ≤ maxLen
      · simp [check_max_length, hp, hl] at hf
      · simp [check_max_length, hp, hl, STATUS_FAILED]

/-- A failing `check_constraints` run hands back a node whose status is
`failed` (set by the rejecting checker). -/
theorem checkLoop_fail_status (reg : Str → Option (Str → Node → Bool × Node))
    (parse : Str → Str × Str)
    (hfs : ∀ t ch, reg t = some ch → ∀ v n0, (ch v n0).1 = false →
      (ch v n0).2.status = txt "failed")
    (hpure : ∀ t ch, reg t = some ch → ∀ v n0, (ch v n0).1 = true → (ch v n0).2 = n0) :
    ∀ (cs : List Str) (n : Node) (tr : List (Str × Str)),
      (checkLoop reg parse cs n tr).1 = false →
      (checkLoop reg parse cs n tr).2.1.status = txt "failed" := by
  intro cs
  induction cs with
  | nil => intro n tr h; simp [checkLoop] at h
  | cons c rest ih =>
    intro n tr h
    cases hr : reg (parse c).1 with
    | none =>
      simp only [checkLoop, hr] at h ⊢
      exact ih n _ h
    | some ch =>
      by_cases h1 : (ch (parse c).2 n).1 = true
      · have hn2 := hpure _ _ hr _ _ h1
        simp only [checkLoop, hr, h1, if_true] at h ⊢
        rw [hn2] at h ⊢
        exact ih n _ h
      · have hb : (ch (parse c).2 n).1 = false := Bool.eq_false_iff.mpr h1
        simp only [checkLoop, hr, hb, Bool.false_eq_true, if_false] at h ⊢
        exact hfs _ _ hr _ _ hb

/-- The state inside `_execute_node` after the first successful generation
with output `o`: status set to `running`, the raw output stored, and the
output processed. -/
def afterFirstGen (s : AgentState) (nid : Nat) (o : Str) : AgentState :=
  process_llm_output
    ((s.updNode nid (fun n => { n with status := txt "running" })).updNode nid
      (fun n => { n with output := o })) nid o

def c6state : AgentState :=
  run { node_lookup := [], attention := { dependency_graph := [], constraints := [] },
        root_node_id := none, global_context := txt "ctx", execution_count := 0,
        next_id := 0 }
      (txt "do a thing") [txt "contains:x"]

def c6env : GenEnv := { oracle := fun _ _ => Except.ok (txt "y") }

/-- C6 counterexample: in the components module a failed constraint check
does not stop execute.  With a gateway constantly producing an output that
violates the node's `contains:x` constraint, the node does end `failed`
with the checker-specific message — but the gateway has been invoked 3
times, not once, because the loop `continue`s after the failed check. -/
theorem c6_constraint_retry_counterexample :
    (_execute_node_comp c6env c6state 0 ⟨0, 0⟩).2.llm_calls = 3 ∧
    ((_execute_node_comp c6env c6state 0 ⟨0, 0⟩).1.getNode 0).map Node.status =
      some (txt "failed") ∧
    ((_execute_node_comp c6env c6state 0 ⟨0, 0⟩).1.getNode 0).map Node.error_message =
      some (txt "Constraint violated: Output must contain 'x'. Output: y") ∧
    (3 : Nat) ≠ 1 :=
  ⟨by rfl, by rfl, by rfl, by decide⟩

/-- C6 amended: in the agent module a constraint violation is indeed
non-retryable — when the first generation succeeds and the constraint
check on the processed node fails, execute returns at once with exactly one
gateway invocation and the node `failed` with the checker's message.  In
the components module the loop instead continues into further attempts
(the counterexample above shows 3 invocations for one failing node). -/
theorem c6_constraint_violation_amended (env : GenEnv) (s : AgentState) (nid : Nat)
    (n n2 : Node) (tr : Trace) (o : Str)
    (hn : s.getNode nid = some n)
    (hok : ∀ p, env.oracle tr.llm_calls p = .ok o)
    (hn2 : (afterFirstGen s nid o).getNode nid = some n2)
    (hfail : (check_constraints (afterFirstGen s nid o).attention n2).1 = false) :
    (_execute_node env s nid tr).2.llm_calls = tr.llm_calls + 1 ∧
    (_execute_node env s nid tr).2.sleeps = tr.sleeps ∧
    (_execute_node env s nid tr).1 =
      (afterFirstGen s nid o).putNode nid
        (check_constraints (afterFirstGen s nid o).attention n2).2.1 ∧
    ((_execute_node env s nid tr).1.getNode nid).map Node.status =
      some (txt "failed") := by
  unfold afterFirstGen at hn2 hfail ⊢
  unfold _execute_node
  simp only [MAX_RETRIES]
  rw [show (3 : Nat) = 2 + 1 from rfl]
  simp only [execLoop, hok]
  simp only [AgentState.updNode, hn, getNode_putNode] at hn2 hfail ⊢
  simp only [hn2, hfail, Bool.false_eq_true, if_false]
  refine ⟨trivial, trivial, trivial, ?_⟩
  simp only [getNode_putNode, Option.map_some]
  exact congrArg some (checkLoop_fail_status agentCheckers parse_constraint
    agentCheckers_fail_status agentCheckers_pure _ n2 [] hfail)

def c6node : Node := mkNode 0 none (some (JVal.str (txt "do a thing"))) 0

/-- The processed node of the witness scenario. -/
def c6node2 : Node :=
  match (afterFirstGen c6state 0 (txt "y")).getNode 0 with
  | some n => n
  | none => mkNode 0 none none 0

theorem c6_constraint_violation_amended_witness :
    (_execute_node c6env c6state 0 ⟨0, 0⟩).2.llm_calls = (⟨0, 0⟩ : Trace).llm_calls + 1 ∧
    (_execute_node c6env c6state 0 ⟨0, 0⟩).2.sleeps = (⟨0, 0⟩ : Trace).sleeps ∧
    (_execute_node c6env c6state 0 ⟨0, 0⟩).1 =
      (afterFirstGen c6state 0 (txt "y")).putNode 0
        (check_constraints (afterFirstGen c6state 0 (txt "y")).attention c6node2).2.1 ∧
    ((_execute_node c6env c6state 0 ⟨0, 0⟩).1.getNode 0).map Node.status =
      some (txt "failed") :=
  c6_constraint_violation_amended c6env c6state 0 c6node c6node2 ⟨0, 0⟩ (txt "y")
    rfl (fun _ => rfl) rfl rfl

/-! ## C7: processOutput routing -/

/-- The descriptions of the subtask entries that create children: string
entries and object entries carrying `task_description`; other shapes are
skipped. -/
def subtaskDescs (xs : List JVal) : List JVal :=
  xs.filterMap (fun v =>
    match v with
    | .str t => some (.str t)
    | .obj fs =>
      if dictHasKey fs (txt "task_description") then
        some ((dictGet fs (txt "task_description")).getD .null)
      else none
    | _ => none)

/-- Whether a parsed object enters the subtasks branch: it has a
`subtasks` key whose value is a list. -/
def hasSubtasksList (fs : List (Str × JVal)) : Bool :=
  match dictGet fs (txt "subtasks") with
  | some (.arr _) => true
  | _ => false

/-- Effect of one `create_child_node` call on the node table. -/
theorem node_create_child_spec (s : AgentState) (nid : Nat) (n : Node) (d : JVal)
    (dep : Nat) (hn : s.getNode nid = some n) (hne : nid ≠ s.next_id)
    (hnotin : n.child_ids.contains s.next_id = false) :
    (node_create_child_node s nid d dep).next_id = s.next_id + 1 ∧
    (node_create_child_node s nid d dep).getNode nid =
      some { n with child_ids := n.child_ids ++ [s.next_id] } ∧
    (node_create_child_node s nid d dep).getNode s.next_id =
      some (mkNode s.next_id (some nid) (some d) dep) ∧
    (∀ k, k ≠ nid → k ≠ s.next_id →
      (node_create_child_node s nid d dep).getNode k = s.getNode k) := by
  have hg1 : ∀ (v : Node), dictGet (dictSet s.node_lookup s.next_id v) nid = some n := by
    intro v
    rw [dictGet_dictSet_ne s.node_lookup s.next_id nid v hne]
    exact hn
  unfold node_create_child_node AgentState.updNode AgentState.getNode AgentState.putNode
  dsimp only
  rw [hg1]
  simp only [Node.add_child, hnotin, Bool.false_eq_true, if_false]
  refine ⟨trivial, ?_, ?_, ?_⟩
  · exact dictGet_dictSet_self _ _ _
  · rw [dictGet_dictSet_ne _ _ _ _ (Ne.symm hne)]
    exact dictGet_dictSet_self _ _ _
  · intro k hk1 hk2
    rw [dictGet_dictSet_ne _ _ _ _ hk1, dictGet_dictSet_ne _ _ _ _ hk2]

/-- Characterization of the subtask creation loop: fresh sequential ids are
appended to the parent's child list, each new node carries the extracted
description at depth parent + 1, and every other table entry is framed. -/
theorem subtaskStep_fold (xs : List JVal) (s : AgentState) (nid : Nat) (n : Node)
    (hn : s.getNode nid = some n) (hlt : nid < s.next_id)
    (hch : ∀ c ∈ n.child_ids, c < s.next_id) :
    (xs.foldl (subtaskStep nid) s).next_id = s.next_id + (subtaskDescs xs).length ∧
    (xs.foldl (subtaskStep nid) s).getNode nid =
      some { n with child_ids :=
        n.child_ids ++ List.range' s.next_id (subtaskDescs xs).length } ∧
    (∀ i, i < (subtaskDescs xs).length →
      (xs.foldl (subtaskStep nid) s).getNode (s.next_id + i) =
        some (mkNode (s.next_id + i) (some nid)
          (some ((subtaskDescs xs).getD i JVal.null)) (n.depth + 1))) ∧
    (∀ k, k ≠ nid → k < s.next_id →
      (xs.foldl (subtaskStep nid) s).getNode k = s.getNode k) := by
  induction xs generalizing s n with
  | nil =>
    refine ⟨by simp [subtaskDescs], ?_, by simp [subtaskDescs], by simp⟩
    simp only [List.foldl_nil, subtaskDescs, List.filterMap_nil, List.length_nil,
      List.range'_zero, List.append_nil, hn]
  | cons x rest ih =>
    by_cases hcreate : (match x with
      | JVal.str _ => true
      | JVal.obj fs => dictHasKey fs (txt "task_description")
      | _ => false) = true
    · -- a child is created for this entry
      have hdesc : ∃ d, subtaskDescs (x :: rest) = d :: subtaskDescs rest ∧
          subtaskStep nid s x =
            node_create_child_node s nid d (selfDepth s nid + 1) := by
        cases x with
        | str t => exact ⟨.str t, by simp [subtaskDescs], by simp [subtaskStep]⟩
        | obj fs =>
          simp only at hcreate
          exact ⟨(dictGet fs (txt "task_description")).getD .null,
            by simp [subtaskDescs, hcreate],
            by simp [subtaskStep, hcreate]⟩
        | null => simp at hcreate
        | bool b => simp at hcreate
        | num m => simp at hcreate
        | flt l => simp at hcreate
        | arr ys => simp at hcreate
      obtain ⟨d, hd, hx⟩ := hdesc
      have hdep : selfDepth s nid = n.depth := by simp [selfDepth, hn]
      have hnotin : n.child_ids.contains s.next_id = false := by
        by_cases hc : n.child_ids.contains s.next_id
        · exfalso
          have := hch s.next_id (by simpa using hc)
          omega
        · simpa using hc
      have hcc := node_create_child_spec s nid n d (selfDepth s nid + 1) hn
        (by omega) hnotin
      set s1 := node_create_child_node s nid d (selfDepth s nid + 1) with hs1
      have hn1 : s1.getNode nid = some { n with child_ids := n.child_ids ++ [s.next_id] } :=
        hcc.2.1
      have hih := ih s1 { n with child_ids := n.child_ids ++ [s.next_id] } hn1
        (by omega) ?hch1
      case hch1 =>
        intro c hc
        simp only [List.mem_append, List.mem_singleton] at hc
        rcases hc with hc | hc
        · have := hch c hc
          omega
        · omega
      rw [List.foldl_cons, hx]
      have hnext1 : s1.next_id = s.next_id + 1 := hcc.1
      refine ⟨?_, ?_, ?_, ?_⟩
      · rw [hih.1, hnext1, hd]
        simp only [List.length_cons]
        omega
      · rw [hih.2.1, hd]
        simp only [List.length_cons, hnext1]
        rw [show List.range' s.next_id ((subtaskDescs rest).length + 1) =
          s.next_id :: List.range' (s.next_id + 1) (subtaskDescs rest).length from rfl]
        simp
      · intro i hi
        rw [hd] at hi ⊢
        cases i with
        | zero =>
          have hframe := hih.2.2.2 s.next_id (by omega) (by omega)
          rw [Nat.add_zero, hframe, hcc.2.2.1, hdep]
          simp
        | succ j =>
          simp only [List.length_cons, Nat.add_lt_add_iff_right] at hi
          have hcj := hih.2.2.1 j hi
          rw [show s.next_id + (j + 1) = s1.next_id + j by omega]
          rw [hcj, hnext1]
          simp
      · intro k hk1 hk2
        rw [hih.2.2.2 k hk1 (by omega), hcc.2.2.2 k hk1 (by omega)]
    · -- entry skipped
      have hx : subtaskStep nid s x = s := by
        cases x with
        | str t => simp at hcreate
        | obj fs =>
          simp only at hcreate
          simp [subtaskStep, Bool.not_eq_true] at hcreate ⊢
          simp [hcreate]
        | null => simp [subtaskStep]
        | bool b => simp [subtaskStep]
        | num m => simp [subtaskStep]
        | flt l => simp [subtaskStep]
        | arr ys => simp [subtaskStep]
      have hd : subtaskDescs (x :: rest) = subtaskDescs rest := by
        cases x with
        | str t => simp at hcreate
        | obj fs =>
          simp only at hcreate
          simp [subtaskDescs, Bool.not_eq_true] at hcreate ⊢
          simp [hcreate]
        | null => simp [subtaskDescs]
        | bool b => simp [subtaskDescs]
        | num m => simp [subtaskDescs]
        | flt l => simp [subtaskDescs]
        | arr ys => simp [subtaskDescs]
      rw [List.foldl_cons, hx, hd]
      exact ih s n hn hlt hch

/-- C7 counterexample: on the raw text consisting solely of an empty JSON
object, extraction succeeds with the object `\x7b\x7d` — but Python
truthiness of the empty dict is false, so the raw TEXT is stored under
`"result"`, not the whole parsed object as the claim prescribes. -/
theorem c7_process_output_counterexample :
    extract_json_from_text (txt "\x7b\x7d") = some (JVal.obj []) ∧
    ((process_llm_output c9state 0 (txt "\x7b\x7d")).getNode 0).map
        (fun n => n.retrieve_from_memory (txt "result")) =
      some (some (JVal.str (txt "\x7b\x7d"))) ∧
    JVal.str (txt "\x7b\x7d") ≠ JVal.obj [] :=
  ⟨by rfl, by rfl, fun h => JVal.noConfusion h⟩

/-- C7 amended: extraction tries fenced blocks first and then the
brace-matched substring; within a successfully parsed TRUTHY (non-empty)
object the precedence is subtasks (children created for each string entry
or object entry with `task_description`, other shapes skipped) over
`result` over the whole object; when no JSON object can be extracted — or
when the extracted value is falsy, such as the empty object — the raw text
is stored verbatim under `"result"`; and an exception raised inside the
procedure sets status `failed` with a message and never propagates. -/
theorem c7_process_output_amended :
    (∀ t j, firstLoads (fencedFindAgent (t.length + 1) t) = some j →
      extract_json_from_text t = some j) ∧
    (∀ t m j, firstLoads (fencedFindAgent (t.length + 1) t) = none →
      braceSearch (t.length + 1) t = some m → json_loads m = some j →
      extract_json_from_text t = some j) ∧
    (∀ s nid n t fs xs, s.getNode nid = some n → nid < s.next_id →
      (∀ c ∈ n.child_ids, c < s.next_id) →
      extract_json_from_text t = some (JVal.obj fs) →
      (JVal.obj fs).truthy = true →
      dictGet fs (txt "subtasks") = some (JVal.arr xs) →
      ((process_llm_output s nid t).getNode nid).map Node.child_ids =
        some (n.child_ids ++ List.range' s.next_id (subtaskDescs xs).length) ∧
      (∀ i, i < (subtaskDescs xs).length →
        (process_llm_output s nid t).getNode (s.next_id + i) =
          some (mkNode (s.next_id + i) (some nid)
            (some ((subtaskDescs xs).getD i JVal.null)) (n.depth + 1))) ∧
      ((process_llm_output s nid t).getNode nid).map
          (fun nn => nn.retrieve_from_memory (txt "result")) =
        some (n.retrieve_from_memory (txt "result"))) ∧
    (∀ s nid t fs rv, extract_json_from_text t = some (JVal.obj fs) →
      (JVal.obj fs).truthy = true → hasSubtasksList fs = false →
      dictGet fs (txt "result") = some rv →
      process_llm_output s nid t = s.storeMem nid (txt "result") rv) ∧
    (∀ s nid t fs, extract_json_from_text t = some (JVal.obj fs) →
      (JVal.obj fs).truthy = true → hasSubtasksList fs = false →
      dictGet fs (txt "result") = none →
      process_llm_output s nid t = s.storeMem nid (txt "result") (JVal.obj fs)) ∧
    (∀ s nid t, extract_json_from_text t = none →
      process_llm_output s nid t = s.storeMem nid (txt "result") (JVal.str t)) ∧
    (∀ s nid t v, extract_json_from_text t = some v → v.truthy = false →
      process_llm_output s nid t = s.storeMem nid (txt "result") (JVal.str t)) ∧
    (∀ s nid t e, processInner s nid t = Except.error e →
      process_llm_output s nid t = s.updNode nid (fun n =>
        { n with
            status := txt "failed",
            error_message := txt "Error processing LLM output: " ++ e })) := by
  refine ⟨?_, ?_, ?_, ?_, ?_, ?_, ?_, ?_⟩
  · intro t j h
    unfold extract_json_from_text
    rw [h]
  · intro t m j h1 h2 h3
    unfold extract_json_from_text
    rw [h1, h2]
    dsimp only
    rw [h3]
  · intro s nid n t fs xs hn hlt hch hx htr hsub
    have hfold := subtaskStep_fold xs s nid n hn hlt hch
    have hproc : process_llm_output s nid t = xs.foldl (subtaskStep nid) s := by
      unfold process_llm_output processInner
      rw [hx]
      simp only [htr, if_true, JVal.hasMem, dictHasKey, hsub, Option.isSome_some,
        JVal.subscript, dictGet]
    rw [hproc]
    refine ⟨?_, hfold.2.2.1, ?_⟩
    · rw [hfold.2.1]
      rfl
    · rw [hfold.2.1]
      rfl
  · intro s nid t fs rv hx htr hnosub hres
    unfold process_llm_output processInner
    rw [hx]
    simp only [htr, if_true, JVal.hasMem, dictHasKey, JVal.subscript]
    unfold hasSubtasksList at hnosub
    cases hsubv : dictGet fs (txt "subtasks") with
    | none => simp [hsubv, hres]
    | some v =>
      rw [hsubv] at hnosub
      cases v <;> simp_all [hres]
  · intro s nid t fs hx htr hnosub hres
    unfold process_llm_output processInner
    rw [hx]
    simp only [htr, if_true, JVal.hasMem, dictHasKey, JVal.subscript]
    unfold hasSubtasksList at hnosub
    cases hsubv : dictGet fs (txt "subtasks") with
    | none => simp [hsubv, hres]
    | some v =>
      rw [hsubv] at hnosub
      cases v <;> simp_all [hres]
  · intro s nid t hx
    unfold process_llm_output processInner
    rw [hx]
  · intro s nid t v hx htr
    unfold process_llm_output processInner
    rw [hx]
    simp [htr]
  · intro s nid t e he
    unfold process_llm_output
    rw [he]

def c7xs : List JVal :=
  [JVal.str (txt "a"), JVal.num 5, JVal.obj [(txt "task_description", JVal.str (txt "b"))]]

def c7fs : List (Str × JVal) := [(txt "subtasks", JVal.arr c7xs)]

def c7t : Str := txt "\x7b\"subtasks\": [\"a\", 5, \x7b\"task_description\": \"b\"\x7d]\x7d"

theorem c7_process_output_amended_witness :
    (((process_llm_output c9state 0 c7t).getNode 0).map Node.child_ids =
      some (c10node.child_ids ++ List.range' c9state.next_id (subtaskDescs c7xs).length)) ∧
    (process_llm_output c9state 0 (txt "no json") =
      c9state.storeMem 0 (txt "result") (JVal.str (txt "no json"))) ∧
    (process_llm_output c9state 0 (txt "```json\n5\n```") =
      c9state.updNode 0 (fun n =>
        { n with
            status := txt "failed",
            error_message := txt "Error processing LLM output: " ++
              txt "TypeError: argument is not iterable" })) :=
  ⟨(c7_process_output_amended.2.2.1 c9state 0 c10node c7t c7fs c7xs rfl (by decide)
      (by
        intro c hc
        rw [show c10node.child_ids = [] from rfl] at hc
        cases hc) rfl rfl rfl).1,
   c7_process_output_amended.2.2.2.2.2.1 c9state 0 (txt "no json") rfl,
   c7_process_output_amended.2.2.2.2.2.2.2 c9state 0 (txt "```json\n5\n```")
     (txt "TypeError: argument is not iterable") rfl⟩

/-! ## C2: deletion cleanup — dictionary and list lemmas -/

theorem mem_of_dictGet_some [DecidableEq κ] {l : List (κ × α)} {k : κ} {v : α}
    (h : dictGet l k = some v) : (k, v) ∈ l := by
  induction l with
  | nil => simp [dictGet] at h
  | cons kv rest ih =>
    obtain ⟨k1, v1⟩ := kv
    by_cases hk : k1 = k
    · subst hk
      simp [dictGet] at h
      simp [h]
    · simp [dictGet, hk] at h
      simp [ih h]

theorem dictGet_eq_some_of_mem [DecidableEq κ] {l : List (κ × α)} {k : κ} {v : α}
    (hnd : (l.map Prod.fst).Nodup) (h : (k, v) ∈ l) : dictGet l k = some v := by
  induction l with
  | nil => simp at h
  | cons kv rest ih =>
    obtain ⟨k1, v1⟩ := kv
    simp only [List.map_cons, List.nodup_cons] at hnd
    rcases List.mem_cons.mp h with h1 | h1
    · cases h1
      simp [dictGet]
    · have hk : k1 ≠ k := by
        intro hh
        subst hh
        exact hnd.1 (List.mem_map.mpr ⟨(k1, v), h1, rfl⟩)
      simp [dictGet, hk]
      exact ih hnd.2 h1

theorem dictGet_none_iff [DecidableEq κ] {l : List (κ × α)} {k : κ} :
    dictGet l k = none ↔ k ∉ l.map Prod.fst := by
  induction l with
  | nil => simp [dictGet]
  | cons kv rest ih =>
    obtain ⟨k1, v1⟩ := kv
    by_cases hk : k1 = k
    · subst hk; simp [dictGet]
    · have hne : ¬ k = k1 := fun hh => hk hh.symm
      simp [dictGet, hk, ih, hne]

theorem dictPop_sublist [DecidableEq κ] (l : List (κ × α)) (k : κ) :
    (dictPop l k).Sublist l := by
  induction l with
  | nil => simp [dictPop]
  | cons kv rest ih =>
    obtain ⟨k1, v1⟩ := kv
    simp only [dictPop]
    by_cases hk : k1 = k
    · rw [if_pos hk]
      exact List.sublist_cons_self _ _
    · rw [if_neg hk]
      exact List.Sublist.cons₂ _ ih

theorem dictGet_dictPop_self [DecidableEq κ] (l : List (κ × α)) (k : κ)
    (hnd : (l.map Prod.fst).Nodup) : dictGet (dictPop l k) k = none := by
  induction l with
  | nil => simp [dictPop, dictGet]
  | cons kv rest ih =>
    obtain ⟨k1, v1⟩ := kv
    simp only [List.map_cons, List.nodup_cons] at hnd
    by_cases hk : k1 = k
    · subst hk
      simp only [dictPop, if_pos rfl]
      rw [dictGet_none_iff]
      exact hnd.1
    · simp [dictPop, dictGet, hk, ih hnd.2]

theorem dictGet_dictPop_ne [DecidableEq κ] (l : List (κ × α)) (k x : κ) (h : k ≠ x) :
    dictGet (dictPop l x) k = dictGet l k := by
  induction l with
  | nil => rfl
  | cons kv rest ih =>
    obtain ⟨k1, v1⟩ := kv
    simp only [dictPop]
    by_cases hx : k1 = x
    · rw [if_pos hx]
      have hk1 : ¬ k1 = k := by
        rw [hx]
        exact fun hh => h hh.symm
      simp [dictGet, hk1]
    · rw [if_neg hx]
      simp only [dictGet]
      by_cases hk : k1 = k
      · simp [hk]
      · simp [hk, ih]

theorem pyListRemove_sublist [DecidableEq α] (l : List α) (x : α) :
    (pyListRemove l x).Sublist l := by
  induction l with
  | nil => simp [pyListRemove]
  | cons y rest ih =>
    simp only [pyListRemove]
    by_cases hy : y = x
    · rw [if_pos hy]
      exact List.sublist_cons_self _ _
    · rw [if_neg hy]
      exact List.Sublist.cons₂ _ ih

theorem not_mem_pyListRemove_self [DecidableEq α] (l : List α) (x : α)
    (hnd : l.Nodup) : x ∉ pyListRemove l x := by
  induction l with
  | nil => simp [pyListRemove]
  | cons y rest ih =>
    simp only [List.nodup_cons] at hnd
    simp only [pyListRemove]
    by_cases hy : y = x
    · rw [if_pos hy]
      rw [hy] at hnd
      exact hnd.1
    · rw [if_neg hy]
      simp only [List.mem_cons, not_or]
      exact ⟨fun hh => hy hh.symm, ih hnd.2⟩

theorem length_filter_lt_of_mem {α : Type} (l : List α) (p q : α → Bool) (x : α)
    (hx : x ∈ l) (hp : p x = true) (hq : q x = false)
    (himp : ∀ y, q y = true → p y = true) :
    (l.filter q).length < (l.filter p).length := by
  induction l with
  | nil => simp at hx
  | cons y rest ih =>
    rcases List.mem_cons.mp hx with h1 | h1
    · subst h1
      simp only [List.filter_cons, hp, hq, if_true, Bool.false_eq_true, if_false]
      have hle : (rest.filter q).length ≤ (rest.filter p).length :=
        List.Sublist.length_le (List.monotone_filter_right rest (by
          intro a ha
          exact himp a ha))
      simp only [List.length_cons]
      omega
    · by_cases hqy : q y = true
      · have hpy := himp y hqy
        simp only [List.filter_cons, hqy, hpy, if_true]
        simpa using ih h1
      · simp only [List.filter_cons, hqy, if_false]
        have := ih h1
        by_cases hpy : p y = true <;> simp [hpy] <;> omega

/-! ## C2: well-formed states and the descendant relation -/

/-- Well-formedness of a session state as maintained by the Python code:
dictionaries have distinct keys, each node is stored under its own id,
child lists are duplicate-free, a stored child is one level deeper than its
parent, a node is the child of at most one parent, and dependency lists
are duplicate-free.  (Child ids may dangle: deletion leaves the deleted
node's id in its surviving parent's child list.) -/
def WF (s : AgentState) : Prop :=
  (s.node_lookup.map Prod.fst).Nodup ∧
  (∀ kv ∈ s.node_lookup, kv.2.node_id = kv.1) ∧
  (∀ kv ∈ s.node_lookup, kv.2.child_ids.Nodup) ∧
  (∀ kv ∈ s.node_lookup, ∀ c ∈ kv.2.child_ids,
    ∀ cn ∈ (dictGet s.node_lookup c).toList, cn.depth = kv.2.depth + 1) ∧
  (∀ kv1 ∈ s.node_lookup, ∀ kv2 ∈ s.node_lookup, ∀ c ∈ kv1.2.child_ids,
    c ∈ kv2.2.child_ids → kv1.1 = kv2.1) ∧
  (s.attention.dependency_graph.map Prod.fst).Nodup ∧
  (∀ kv ∈ s.attention.dependency_graph, kv.2.Nodup) ∧
  (s.attention.constraints.map Prod.fst).Nodup

instance (s : AgentState) : Decidable (WF s) := by
  unfold WF
  infer_instance

/-- `d` is the node `a` or one of its descendants through child links whose
every node is present in the table. -/
inductive Desc (s : AgentState) : Nat → Nat → Prop where
  | refl (a : Nat) : Desc s a a
  | step {a b c : Nat} (bn cn : Node) :
      Desc s a b → dictGet s.node_lookup b = some bn → c ∈ bn.child_ids →
      dictGet s.node_lookup c = some cn → Desc s a c

theorem Desc.trans {s : AgentState} {a b c : Nat}
    (h1 : Desc s a b) (h2 : Desc s b c) : Desc s a c := by
  induction h2 with
  | refl => exact h1
  | step bn cn hd hb hc hcn ih => exact Desc.step bn cn ih hb hc hcn

theorem desc_child {s : AgentState} {a c : Nat} (an cn : Node)
    (ha : dictGet s.node_lookup a = some an) (hc : c ∈ an.child_ids)
    (hcn : dictGet s.node_lookup c = some cn) : Desc s a c :=
  Desc.step an cn (Desc.refl a) ha hc hcn

theorem desc_present {s : AgentState} {a d : Nat} (an : Node)
    (ha : dictGet s.node_lookup a = some an) (h : Desc s a d) :
    ∃ dn, dictGet s.node_lookup d = some dn := by
  cases h with
  | refl => exact ⟨an, ha⟩
  | step bn cn hd hb hc hcn => exact ⟨cn, hcn⟩

/-- Strict depth increase along proper descendant chains. -/
theorem desc_depth_lt {s : AgentState} (hwf : WF s) {a d : Nat}
    (h : Desc s a d) : ∀ an dn, dictGet s.node_lookup a = some an →
    dictGet s.node_lookup d = some dn → a = d ∨ an.depth < dn.depth := by
  induction h with
  | refl =>
    intro an dn _ _
    exact Or.inl rfl
  | step bn cn hd hb hc hcn ih =>
    intro an dn ha hdn
    right
    have hdc : cn = dn := by
      rw [hcn] at hdn
      exact Option.some.inj hdn
    subst hdc
    have hdepth : cn.depth = bn.depth + 1 := by
      have hmem := mem_of_dictGet_some hb
      have := hwf.2.2.2.1 _ hmem _ hc cn (by simp [hcn])
      simpa using this
    rcases ih an bn ha hb with heq | hlt
    · subst heq
      have hab : an = bn := by
        rw [ha] at hb
        exact Option.some.inj hb
      rw [hab]
      omega
    · omega

/-- First-step inversion: a proper descendant of `a` lies in the subtree of
one of `a`'s present children. -/
theorem desc_first_step {s : AgentState} {a d : Nat} (an : Node)
    (ha : dictGet s.node_lookup a = some an) (h : Desc s a d) :
    d = a ∨ ∃ c cn, c ∈ an.child_ids ∧ dictGet s.node_lookup c = some cn ∧ Desc s c d := by
  induction h with
  | refl => exact Or.inl rfl
  | step bn cn hd hb hc hcn ih =>
    rcases ih with heq | ⟨c1, cn1, hc1, hcn1, hdesc⟩
    · subst heq
      right
      rw [ha] at hb
      cases Option.some.inj hb
      exact ⟨_, cn, hc, hcn, Desc.refl _⟩
    · right
      exact ⟨c1, cn1, hc1, hcn1, Desc.step bn cn hdesc hb hc hcn⟩

/-- Last-step inversion. -/
theorem desc_last_step {s : AgentState} {a d : Nat} (h : Desc s a d) :
    d = a ∨ ∃ p pn dn, Desc s a p ∧ dictGet s.node_lookup p = some pn ∧
      d ∈ pn.child_ids ∧ dictGet s.node_lookup d = some dn := by
  cases h with
  | refl => exact Or.inl rfl
  | step bn cn hd hb hc hcn => exact Or.inr ⟨_, bn, cn, hd, hb, hc, hcn⟩

/-- Ancestors of a common node are comparable in a well-formed state. -/
theorem desc_comparable {s : AgentState} (hwf : WF s) {a d : Nat}
    (h1 : Desc s a d) : ∀ {b : Nat}, Desc s b d → Desc s a b ∨ Desc s b a := by
  induction h1 with
  | refl =>
    intro b h2
    exact Or.inr h2
  | step pn dn hd hp hmem hdn ih =>
    intro b h2
    rcases desc_last_step h2 with heq | ⟨q, qn, dn2, hbq, hq, hdq, _⟩
    · subst heq
      exact Or.inl (Desc.step pn dn hd hp hmem hdn)
    · have hpq :=
        hwf.2.2.2.2.1 _ (mem_of_dictGet_some hp) _ (mem_of_dictGet_some hq) _ hmem hdq
      subst hpq
      rw [hp] at hq
      cases Option.some.inj hq
      exact ih hbq

/-- Subtrees of two distinct children of one node are disjoint. -/
theorem desc_disjoint_children {s : AgentState} (hwf : WF s) {nid : Nat} {n : Node}
    (hn : dictGet s.node_lookup nid = some n) {c1 c2 : Nat} {cn1 cn2 : Node}
    (h1 : c1 ∈ n.child_ids) (h2 : c2 ∈ n.child_ids) (hne : c1 ≠ c2)
    (hcn1 : dictGet s.node_lookup c1 = some cn1)
    (hcn2 : dictGet s.node_lookup c2 = some cn2) :
    ∀ d, Desc s c1 d → Desc s c2 d → False := by
  intro d hd1 hd2
  have hdep1 : cn1.depth = n.depth + 1 := by
    have := hwf.2.2.2.1 _ (mem_of_dictGet_some hn) _ h1 cn1 (by simp [hcn1])
    simpa using this
  have hdep2 : cn2.depth = n.depth + 1 := by
    have := hwf.2.2.2.1 _ (mem_of_dictGet_some hn) _ h2 cn2 (by simp [hcn2])
    simpa using this
  rcases desc_comparable hwf hd1 hd2 with h | h
  · rcases desc_depth_lt hwf h cn1 cn2 hcn1 hcn2 with heq | hlt
    · exact hne heq
    · omega
  · rcases desc_depth_lt hwf h cn2 cn1 hcn2 hcn1 with heq | hlt
    · exact hne heq.symm
    · omega

/-- A present child's subtree never reaches back to the parent. -/
theorem desc_child_not_parent {s : AgentState} (hwf : WF s) {nid c : Nat} {n cn : Node}
    (hn : dictGet s.node_lookup nid = some n) (hc : c ∈ n.child_ids)
    (hcn : dictGet s.node_lookup c = some cn) : ¬ Desc s c nid := by
  intro h
  have hdep : cn.depth = n.depth + 1 := by
    have := hwf.2.2.2.1 _ (mem_of_dictGet_some hn) _ hc cn (by simp [hcn])
    simpa using this
  rcases desc_depth_lt hwf h cn n hcn hn with heq | hlt
  · subst heq
    rw [hn] at hcn
    cases Option.some.inj hcn
    omega
  · omega

/-- Descendant chains transfer to a super-state with duplicate-free keys
whose table contains every entry of the sub-state. -/
theorem desc_of_sublist {t s : AgentState}
    (hnd : (s.node_lookup.map Prod.fst).Nodup)
    (hsub : t.node_lookup.Sublist s.node_lookup) {a d : Nat}
    (h : Desc t a d) : Desc s a d := by
  have hget : ∀ k v, dictGet t.node_lookup k = some v → dictGet s.node_lookup k = some v := by
    intro k v hkv
    exact dictGet_eq_some_of_mem hnd (hsub.mem (mem_of_dictGet_some hkv))
  induction h with
  | refl => exact Desc.refl _
  | step bn cn hd hb hc hcn ih => exact Desc.step bn cn ih (hget _ _ hb) hc (hget _ _ hcn)

/-- Descendant chains transfer to a sub-state that agrees with the original
on the subtree. -/
theorem desc_of_frame {t s : AgentState} {a : Nat}
    (hframe : ∀ k, Desc s a k → dictGet t.node_lookup k = dictGet s.node_lookup k)
    {d : Nat} (h : Desc s a d) : Desc t a d := by
  induction h with
  | refl => exact Desc.refl _
  | step bn cn hd hb hc hcn ih =>
    exact Desc.step bn cn ih ((hframe _ hd).trans hb) hc
      ((hframe _ (Desc.step bn cn hd hb hc hcn)).trans hcn)

/-- A `Desc` chain from an absent node goes nowhere. -/
theorem desc_absent {s : AgentState} {a d : Nat} (h : Desc s a d) :
    dictGet s.node_lookup a = none → d = a := by
  induction h with
  | refl => intro _; rfl
  | step bn cn hd hb hc hcn ih =>
    intro hna
    have hba := ih hna
    subst hba
    rw [hna] at hb
    simp at hb

/-- Disjointness of sibling subtrees, with no presence assumptions. -/
theorem desc_disjoint_strong {s : AgentState} (hwf : WF s) {nid : Nat} {n : Node}
    (hn : dictGet s.node_lookup nid = some n) {c1 c2 : Nat}
    (h1 : c1 ∈ n.child_ids) (h2 : c2 ∈ n.child_ids) (hne : c1 ≠ c2) :
    ∀ d, Desc s c1 d → Desc s c2 d → False := by
  intro d hd1 hd2
  cases hc1 : dictGet s.node_lookup c1 with
  | none =>
    have he1 := desc_absent hd1 hc1
    subst he1
    cases hc2 : dictGet s.node_lookup c2 with
    | none => exact hne (desc_absent hd2 hc2)
    | some cn2 =>
      obtain ⟨dn, hdn⟩ := desc_present cn2 hc2 hd2
      rw [hc1] at hdn
      simp at hdn
  | some cn1 =>
    cases hc2 : dictGet s.node_lookup c2 with
    | none =>
      have he2 := desc_absent hd2 hc2
      subst he2
      obtain ⟨dn, hdn⟩ := desc_present cn1 hc1 hd1
      rw [hc2] at hdn
      simp at hdn
    | some cn2 => exact desc_disjoint_children hwf hn h1 h2 hne hc1 hc2 d hd1 hd2

theorem contains_false_not_mem {l : List Nat} {x : Nat}
    (h : l.contains x = false) : x ∉ l := by
  simpa using h

/-- `dictGet` through a key-preserving entry map. -/
theorem dictGet_mapPair {β : Type} [DecidableEq κ] (l : List (κ × α)) (f : κ × α → β)
    (k : κ) :
    dictGet (l.map (fun kv => (kv.1, f kv))) k =
      (dictGet l k).map (fun v => f (k, v)) := by
  induction l with
  | nil => simp [dictGet]
  | cons kv rest ih =>
    obtain ⟨k1, v1⟩ := kv
    by_cases h : k1 = k
    · subst h
      simp [dictGet]
    · simp [dictGet, h, ih]

theorem map_fst_mapPair {β : Type} (l : List (κ × α)) (f : κ × α → β) :
    (l.map (fun kv => (kv.1, f kv))).map Prod.fst = l.map Prod.fst := by
  induction l with
  | nil => rfl
  | cons kv rest ih => simp [ih]

/-- Invariant relating a partially-deleted state `st` to the original state
`s`; the predicate `P` marks the ids whose subtrees have been deleted. -/
structure DelInv (s : AgentState) (P : Nat → Prop) (st : AgentState) : Prop where
  wf : WF st
  tbl_sub : List.Sublist st.node_lookup s.node_lookup
  tbl_frame : ∀ k, ¬ P k → dictGet st.node_lookup k = dictGet s.node_lookup k
  tbl_none : ∀ d, P d → dictGet st.node_lookup d = none
  dep_keys : List.Sublist (st.attention.dependency_graph.map Prod.fst)
      (s.attention.dependency_graph.map Prod.fst)
  dep_entries : ∀ kv ∈ st.attention.dependency_graph,
      ∃ l, dictGet s.attention.dependency_graph kv.1 = some l ∧
        List.Sublist kv.2 l ∧ ∀ d, P d → d ∉ kv.2
  dep_none : ∀ d, P d → dictGet st.attention.dependency_graph d = none
  con_keys : List.Sublist (st.attention.constraints.map Prod.fst)
      (s.attention.constraints.map Prod.fst)
  con_none : ∀ d, P d → dictGet st.attention.constraints d = none

theorem DelInv.congr {s st : AgentState} {P Q : Nat → Prop}
    (hpq : ∀ d, P d ↔ Q d) (h : DelInv s P st) : DelInv s Q st := by
  refine ⟨h.wf, h.tbl_sub, ?_, ?_, h.dep_keys, ?_, ?_, h.con_keys, ?_⟩
  · intro k hk
    exact h.tbl_frame k (fun hp => hk ((hpq k).mp hp))
  · intro d hd
    exact h.tbl_none d ((hpq d).mpr hd)
  · intro kv hkv
    obtain ⟨l, h1, h2, h3⟩ := h.dep_entries kv hkv
    exact ⟨l, h1, h2, fun d hd => h3 d ((hpq d).mpr hd)⟩
  · intro d hd
    exact h.dep_none d ((hpq d).mpr hd)
  · intro d hd
    exact h.con_none d ((hpq d).mpr hd)

/-- Well-formedness survives shrinking the table and tracker entrywise. -/
theorem WF_of_shrink {s t : AgentState} (hwf : WF s)
    (hA : List.Sublist t.node_lookup s.node_lookup)
    (hD : List.Sublist (t.attention.dependency_graph.map Prod.fst)
      (s.attention.dependency_graph.map Prod.fst))
    (hE : ∀ kv ∈ t.attention.dependency_graph,
      ∃ l, dictGet s.attention.dependency_graph kv.1 = some l ∧ List.Sublist kv.2 l)
    (hG : List.Sublist (t.attention.constraints.map Prod.fst)
      (s.attention.constraints.map Prod.fst)) : WF t := by
  obtain ⟨w1, w2, w3, w4, w5, w6, w7, w8⟩ := hwf
  refine ⟨List.Nodup.sublist (hA.map Prod.fst) w1, ?_, ?_, ?_, ?_,
    List.Nodup.sublist hD w6, ?_, List.Nodup.sublist hG w8⟩
  · intro kv hkv
    exact w2 kv (hA.subset hkv)
  · intro kv hkv
    exact w3 kv (hA.subset hkv)
  · intro kv hkv c hc cn hcn
    simp only [Option.mem_toList, Option.mem_def] at hcn
    have hmem : (c, cn) ∈ s.node_lookup := hA.subset (mem_of_dictGet_some hcn)
    have hget : dictGet s.node_lookup c = some cn := dictGet_eq_some_of_mem w1 hmem
    exact w4 kv (hA.subset hkv) c hc cn (by simp [hget])
  · intro kv1 h1 kv2 h2 c hc1 hc2
    exact w5 kv1 (hA.subset h1) kv2 (hA.subset h2) c hc1 hc2
  · intro kv hkv
    obtain ⟨l, hl, hsub⟩ := hE kv hkv
    exact List.Nodup.sublist hsub (w7 (kv.1, l) (mem_of_dictGet_some hl))

/-- Effect of the child-deletion fold inside `deleteRec`: assuming the
one-level-smaller specification for `deleteRec fuel`, folding over a
duplicate-free list of mutually subtree-disjoint ids extends the deleted
set by every present id's subtree. -/
theorem delete_fold_inv (fuel : Nat)
    (IH : ∀ (sx : AgentState) (nidx : Nat) (nx : Node), WF sx →
      dictGet sx.node_lookup nidx = some nx →
      (sx.node_lookup.filter (fun kv => nx.depth < kv.2.depth)).length < fuel →
      DelInv sx (Desc sx nidx) (deleteRec fuel sx nidx))
    (s : AgentState) (hwf : WF s) :
    ∀ (rest : List Nat) (P : Nat → Prop) (st : AgentState),
    rest.Nodup →
    (∀ c ∈ rest, ∀ cn, dictGet s.node_lookup c = some cn → ∀ d, Desc s c d → ¬ P d) →
    (∀ c1 ∈ rest, ∀ c2 ∈ rest, c1 ≠ c2 → ∀ d, Desc s c1 d → Desc s c2 d → False) →
    (∀ c ∈ rest, ∀ cn, dictGet s.node_lookup c = some cn →
      (s.node_lookup.filter (fun kv => cn.depth < kv.2.depth)).length < fuel) →
    DelInv s P st →
    DelInv s
      (fun d => P d ∨ ∃ c ∈ rest, ∃ cn, dictGet s.node_lookup c = some cn ∧ Desc s c d)
      (List.foldl
        (fun stx cid =>
          if dictHasKey stx.node_lookup cid then deleteRec fuel stx cid else stx)
        st rest) := by
  intro rest
  induction rest with
  | nil =>
    intro P st hnd hP hdisj hf inv
    refine DelInv.congr (fun d => ?_) inv
    simp
  | cons c rest' ih =>
    intro P st hnd hP hdisj hf inv
    cases hc : dictGet s.node_lookup c with
    | none =>
      have hstc : dictGet st.node_lookup c = none := by
        rw [dictGet_none_iff] at hc ⊢
        intro hmem
        exact hc (List.Sublist.subset (inv.tbl_sub.map Prod.fst) hmem)
      have hkey : dictHasKey st.node_lookup c = false := by
        simp [dictHasKey, hstc]
      have hfold : List.foldl
          (fun stx cid =>
            if dictHasKey stx.node_lookup cid then deleteRec fuel stx cid else stx)
          st (c :: rest') =
          List.foldl
          (fun stx cid =>
            if dictHasKey stx.node_lookup cid then deleteRec fuel stx cid else stx)
          st rest' := by
        rw [List.foldl_cons]
        congr 1
        show (if dictHasKey st.node_lookup c then deleteRec fuel st c else st) = st
        rw [hkey]
        simp
      rw [hfold]
      have res := ih P st (List.Nodup.of_cons hnd)
          (fun c2 hc2 => hP c2 (List.mem_cons_of_mem _ hc2))
          (fun c1 h1 c2 h2 => hdisj c1 (List.mem_cons_of_mem _ h1) c2
            (List.mem_cons_of_mem _ h2))
          (fun c2 hc2 => hf c2 (List.mem_cons_of_mem _ hc2))
          inv
      refine DelInv.congr (fun d => ?_) res
      constructor
      · rintro (hp | ⟨c2, hc2, cn2, hcn2, hdesc⟩)
        · exact Or.inl hp
        · exact Or.inr ⟨c2, List.mem_cons_of_mem _ hc2, cn2, hcn2, hdesc⟩
      · rintro (hp | ⟨c2, hc2, cn2, hcn2, hdesc⟩)
        · exact Or.inl hp
        · rcases List.mem_cons.mp hc2 with heq | hmem
          · subst heq
            rw [hc] at hcn2
            simp at hcn2
          · exact Or.inr ⟨c2, hmem, cn2, hcn2, hdesc⟩
    | some cn =>
      have hnotP : ¬ P c := hP c (List.mem_cons_self _ _) cn hc c (Desc.refl c)
      have hstc : dictGet st.node_lookup c = some cn := by
        rw [inv.tbl_frame c hnotP]
        exact hc
      have hkey : dictHasKey st.node_lookup c = true := by
        simp [dictHasKey, hstc]
      have hsubframe : ∀ k, Desc s c k →
          dictGet st.node_lookup k = dictGet s.node_lookup k :=
        fun k hk => inv.tbl_frame k (hP c (List.mem_cons_self _ _) cn hc k hk)
      have hT2 : ∀ d, Desc s c d → Desc st c d :=
        fun d hd => desc_of_frame hsubframe hd
      have hT1 : ∀ d, Desc st c d → Desc s c d :=
        fun d hd => desc_of_sublist hwf.1 inv.tbl_sub hd
      have hfc : (st.node_lookup.filter (fun kv => cn.depth < kv.2.depth)).length
          < fuel := by
        have h1 : List.Sublist
            (st.node_lookup.filter (fun kv => cn.depth < kv.2.depth))
            (s.node_lookup.filter (fun kv => cn.depth < kv.2.depth)) :=
          inv.tbl_sub.filter _
        exact lt_of_le_of_lt h1.length_le (hf c (List.mem_cons_self _ _) cn hc)
      have D := IH st c cn inv.wf hstc hfc
      have inv2 : DelInv s
          (fun d => P d ∨ ∃ cn0, dictGet s.node_lookup c = some cn0 ∧ Desc s c d)
          (deleteRec fuel st c) := by
        refine ⟨D.wf, D.tbl_sub.trans inv.tbl_sub, ?_, ?_,
          D.dep_keys.trans inv.dep_keys, ?_, ?_, D.con_keys.trans inv.con_keys, ?_⟩
        · intro k hk
          have hk1 : ¬ P k := fun h => hk (Or.inl h)
          have hk2 : ¬ Desc s c k := fun h => hk (Or.inr ⟨cn, hc, h⟩)
          rw [D.tbl_frame k (fun h => hk2 (hT1 k h))]
          exact inv.tbl_frame k hk1
        · intro d hd
          rcases hd with hp | ⟨cn0, hcn0, hdesc⟩
          · have h0 := inv.tbl_none d hp
            rw [dictGet_none_iff] at h0 ⊢
            exact fun hm => h0 (List.Sublist.subset (D.tbl_sub.map Prod.fst) hm)
          · exact D.tbl_none d (hT2 d hdesc)
        · intro kv hkv
          obtain ⟨l1, hl1, hsub1, hexc1⟩ := D.dep_entries kv hkv
          obtain ⟨l, hl, hsub, hexc⟩ := inv.dep_entries (kv.1, l1) (mem_of_dictGet_some hl1)
          refine ⟨l, hl, hsub1.trans hsub, ?_⟩
          intro d hd
          rcases hd with hp | ⟨cn0, hcn0, hdesc⟩
          · intro hmem
            exact hexc d hp (hsub1.subset hmem)
          · exact hexc1 d (hT2 d hdesc)
        · intro d hd
          rcases hd with hp | ⟨cn0, hcn0, hdesc⟩
          · have h0 := inv.dep_none d hp
            rw [dictGet_none_iff] at h0 ⊢
            exact fun hm => h0 (List.Sublist.subset D.dep_keys hm)
          · exact D.dep_none d (hT2 d hdesc)
        · intro d hd
          rcases hd with hp | ⟨cn0, hcn0, hdesc⟩
          · have h0 := inv.con_none d hp
            rw [dictGet_none_iff] at h0 ⊢
            exact fun hm => h0 (List.Sublist.subset D.con_keys hm)
          · exact D.con_none d (hT2 d hdesc)
      have res := ih
          (fun d => P d ∨ ∃ cn0, dictGet s.node_lookup c = some cn0 ∧ Desc s c d)
          (deleteRec fuel st c)
          (List.Nodup.of_cons hnd)
          (fun c2 hc2 cn2 hcn2 d hdesc hcontra => by
            rcases hcontra with hp | ⟨cn0, hcn0, hdesc0⟩
            · exact hP c2 (List.mem_cons_of_mem _ hc2) cn2 hcn2 d hdesc hp
            · have hne : c ≠ c2 := by
                intro heq
                subst heq
                exact (List.nodup_cons.mp hnd).1 hc2
              exact hdisj c2 (List.mem_cons_of_mem _ hc2) c (List.mem_cons_self _ _)
                (fun hh => hne hh.symm) d hdesc hdesc0)
          (fun c1 h1 c2 h2 => hdisj c1 (List.mem_cons_of_mem _ h1) c2
            (List.mem_cons_of_mem _ h2))
          (fun c2 hc2 => hf c2 (List.mem_cons_of_mem _ hc2))
          inv2
      have hfold : List.foldl
          (fun stx cid =>
            if dictHasKey stx.node_lookup cid then deleteRec fuel stx cid else stx)
          st (c :: rest') =
          List.foldl
          (fun stx cid =>
            if dictHasKey stx.node_lookup cid then deleteRec fuel stx cid else stx)
          (deleteRec fuel st c) rest' := by
        rw [List.foldl_cons]
        congr 1
        show (if dictHasKey st.node_lookup c then deleteRec fuel st c else st)
          = deleteRec fuel st c
        rw [hkey]
        simp
      rw [hfold]
      refine DelInv.congr (fun d => ?_) res
      constructor
      · rintro ((hp | ⟨cn0, hcn0, hdesc⟩) | ⟨c2, hc2, cn2, hcn2, hdesc⟩)
        · exact Or.inl hp
        · exact Or.inr ⟨c, List.mem_cons_self _ _, cn0, hcn0, hdesc⟩
        · exact Or.inr ⟨c2, List.mem_cons_of_mem _ hc2, cn2, hcn2, hdesc⟩
      · rintro (hp | ⟨c2, hc2, cn2, hcn2, hdesc⟩)
        · exact Or.inl (Or.inl hp)
        · rcases List.mem_cons.mp hc2 with heq | hmem
          · subst heq
            exact Or.inl (Or.inr ⟨cn2, hcn2, hdesc⟩)
          · exact Or.inr ⟨c2, hmem, cn2, hcn2, hdesc⟩

/-- Full specification of `deleteRec` on a well-formed state, for any fuel
exceeding the number of table entries strictly deeper than the target. -/
theorem deleteRec_spec : ∀ (fuel : Nat) (s : AgentState) (nid : Nat) (n : Node),
    WF s → dictGet s.node_lookup nid = some n →
    (s.node_lookup.filter (fun kv => n.depth < kv.2.depth)).length < fuel →
    DelInv s (Desc s nid) (deleteRec fuel s nid) := by
  intro fuel
  induction fuel with
  | zero =>
    intro s nid n _ _ hfl
    exact absurd hfl (Nat.not_lt_zero _)
  | succ fuel ihf =>
    intro s nid n hwf hn hfl
    have hnd_children : n.child_ids.Nodup := hwf.2.2.1 _ (mem_of_dictGet_some hn)
    have Hdisj : ∀ c1 ∈ n.child_ids, ∀ c2 ∈ n.child_ids, c1 ≠ c2 →
        ∀ d, Desc s c1 d → Desc s c2 d → False := by
      intro c1 h1 c2 h2 hne d hd1 hd2
      exact desc_disjoint_strong hwf hn h1 h2 hne d hd1 hd2
    have Hf : ∀ c ∈ n.child_ids, ∀ cn, dictGet s.node_lookup c = some cn →
        (s.node_lookup.filter (fun kv => cn.depth < kv.2.depth)).length < fuel := by
      intro c hcmem cn hcn
      have hdep : cn.depth = n.depth + 1 := by
        have h4 := hwf.2.2.2.1 _ (mem_of_dictGet_some hn) _ hcmem cn (by simp [hcn])
        simpa using h4
      have hlt : (s.node_lookup.filter (fun kv => cn.depth < kv.2.depth)).length
          < (s.node_lookup.filter (fun kv => n.depth < kv.2.depth)).length := by
        apply length_filter_lt_of_mem s.node_lookup _ _ (c, cn) (mem_of_dictGet_some hcn)
        · simp [hdep]
        · simp [hdep]
        · intro y hy
          rw [decide_eq_true_eq] at hy
          rw [decide_eq_true_eq]
          omega
      omega
    have inv0 : DelInv s (fun _ => False) s := by
      refine ⟨hwf, List.Sublist.refl _, fun k _ => rfl, fun d hd => hd.elim,
        List.Sublist.refl _, ?_, fun d hd => hd.elim, List.Sublist.refl _,
        fun d hd => hd.elim⟩
      intro kv hkv
      exact ⟨kv.2, dictGet_eq_some_of_mem hwf.2.2.2.2.2.1 hkv, List.Sublist.refl _,
        fun d hd => hd.elim⟩
    have fold := delete_fold_inv fuel ihf s hwf n.child_ids (fun _ => False) s
        hnd_children (fun c hc cn hcn d hd => id) Hdisj Hf inv0
    have hiff : ∀ d, Desc s nid d ↔ (d = nid ∨ (False ∨
        ∃ c ∈ n.child_ids, ∃ cn0, dictGet s.node_lookup c = some cn0 ∧ Desc s c d)) := by
      intro d
      constructor
      · intro hd
        rcases desc_first_step n hn hd with heq | ⟨c, cn0, hcm, hcn0, hdesc⟩
        · exact Or.inl heq
        · exact Or.inr (Or.inr ⟨c, hcm, cn0, hcn0, hdesc⟩)
      · rintro (heq | (hfalse | ⟨c, hcm, cn0, hcn0, hdesc⟩))
        · subst heq
          exact Desc.refl _
        · exact hfalse.elim
        · exact Desc.trans (Desc.step n cn0 (Desc.refl nid) hn hcm hcn0) hdesc
    have hstep_eq : deleteRec (fuel + 1) s nid =
        { (List.foldl
              (fun stx cid =>
                if dictHasKey stx.node_lookup cid then deleteRec fuel stx cid else stx)
              s n.child_ids) with
          node_lookup := dictPop
            (List.foldl
              (fun stx cid =>
                if dictHasKey stx.node_lookup cid then deleteRec fuel stx cid else stx)
              s n.child_ids).node_lookup nid,
          attention := (List.foldl
              (fun stx cid =>
                if dictHasKey stx.node_lookup cid then deleteRec fuel stx cid else stx)
              s n.child_ids).attention.remove_node nid } := by
      simp only [deleteRec, AgentState.getNode, hn]
    rw [hstep_eq]
    set s1 := List.foldl
        (fun stx cid =>
          if dictHasKey stx.node_lookup cid then deleteRec fuel stx cid else stx)
        s n.child_ids with hs1
    have hPf : ∀ d, Desc s nid d → d = nid ∨ (False ∨
        ∃ c ∈ n.child_ids, ∃ cn0, dictGet s.node_lookup c = some cn0 ∧ Desc s c d) :=
      fun d hd => (hiff d).mp hd
    have hdep_keys : List.Sublist
        (((dictPop s1.attention.dependency_graph nid).map
          (fun kv => (kv.1, if kv.2.contains nid then pyListRemove kv.2 nid else kv.2))).map
          Prod.fst)
        (s.attention.dependency_graph.map Prod.fst) := by
      rw [map_fst_mapPair]
      exact ((dictPop_sublist _ _).map Prod.fst).trans fold.dep_keys
    refine ⟨?_, ?_, ?_, ?_, ?_, ?_, ?_, ?_, ?_⟩
    · -- WF of the result
      refine WF_of_shrink hwf ((dictPop_sublist _ _).trans fold.tbl_sub) ?_ ?_ ?_
      · show List.Sublist
          (((dictPop s1.attention.dependency_graph nid).map
            (fun kv => (kv.1, if kv.2.contains nid then pyListRemove kv.2 nid else kv.2))).map
            Prod.fst)
          (s.attention.dependency_graph.map Prod.fst)
        exact hdep_keys
      · intro kv hkv
        show ∃ l, dictGet s.attention.dependency_graph kv.1 = some l ∧
          List.Sublist kv.2 l
        obtain ⟨kv0, hkv0, heq⟩ := List.mem_map.mp hkv
        obtain ⟨l, hl, hsub, hexc⟩ :=
          fold.dep_entries kv0 ((dictPop_sublist _ _).subset hkv0)
        refine ⟨l, ?_, ?_⟩
        · rw [← heq]
          exact hl
        · rw [← heq]
          by_cases hcont : kv0.2.contains nid
          · simp only [hcont, if_true]
            exact (pyListRemove_sublist _ _).trans hsub
          · simp only [hcont, if_false]
            exact hsub
      · show List.Sublist
          ((dictPop s1.attention.constraints nid).map Prod.fst)
          (s.attention.constraints.map Prod.fst)
        exact ((dictPop_sublist _ _).map Prod.fst).trans fold.con_keys
    · exact (dictPop_sublist _ _).trans fold.tbl_sub
    · intro k hk
      have hne : k ≠ nid := by
        intro heq
        subst heq
        exact hk (Desc.refl _)
      have hnPf : ¬ (False ∨
          ∃ c ∈ n.child_ids, ∃ cn0, dictGet s.node_lookup c = some cn0 ∧ Desc s c k) :=
        fun h => hk ((hiff k).mpr (Or.inr h))
      show dictGet (dictPop s1.node_lookup nid) k = dictGet s.node_lookup k
      rw [dictGet_dictPop_ne _ _ _ hne]
      exact fold.tbl_frame k hnPf
    · intro d hd
      show dictGet (dictPop s1.node_lookup nid) d = none
      rcases hPf d hd with heq | hrest
      · subst heq
        exact dictGet_dictPop_self _ _ fold.wf.1
      · have h0 := fold.tbl_none d hrest
        rw [dictGet_none_iff] at h0 ⊢
        exact fun hm => h0 (((dictPop_sublist _ _).map Prod.fst).subset hm)
    · exact hdep_keys
    · intro kv hkv
      obtain ⟨kv0, hkv0, heq⟩ := List.mem_map.mp hkv
      have hkv0mem : kv0 ∈ s1.attention.dependency_graph :=
        (dictPop_sublist _ _).subset hkv0
      obtain ⟨l, hl, hsub, hexc⟩ := fold.dep_entries kv0 hkv0mem
      have hval : List.Sublist kv.2 kv0.2 := by
        rw [← heq]
        by_cases hcont : kv0.2.contains nid
        · simp only [hcont, if_true]
          exact pyListRemove_sublist _ _
        · simp only [hcont, if_false]
          exact List.Sublist.refl _
      refine ⟨l, ?_, hval.trans hsub, ?_⟩
      · rw [← heq]
        exact hl
      · intro d hd
        rcases hPf d hd with hdeq | hrest
        · rw [hdeq, ← heq]
          by_cases hcont : kv0.2.contains nid
          · simp only [hcont, if_true]
            exact not_mem_pyListRemove_self _ _
              (fold.wf.2.2.2.2.2.2.1 kv0 hkv0mem)
          · simp only [hcont, if_false]
            exact contains_false_not_mem (by simpa using hcont)
        · intro hm
          exact hexc d hrest (hval.subset hm)
    · intro d hd
      show dictGet ((dictPop s1.attention.dependency_graph nid).map
          (fun kv => (kv.1, if kv.2.contains nid then pyListRemove kv.2 nid else kv.2)))
          d = none
      rw [dictGet_mapPair]
      rcases hPf d hd with heq | hrest
      · subst heq
        rw [dictGet_dictPop_self _ _ fold.wf.2.2.2.2.2.1]
        rfl
      · have h0 := fold.dep_none d hrest
        have h1 : dictGet (dictPop s1.attention.dependency_graph nid) d = none := by
          rw [dictGet_none_iff] at h0 ⊢
          exact fun hm => h0 (((dictPop_sublist _ _).map Prod.fst).subset hm)
        rw [h1]
        rfl
    · exact ((dictPop_sublist _ _).map Prod.fst).trans fold.con_keys
    · intro d hd
      show dictGet (dictPop s1.attention.constraints nid) d = none
      rcases hPf d hd with heq | hrest
      · subst heq
        exact dictGet_dictPop_self _ _ fold.wf.2.2.2.2.2.2.2
      · have h0 := fold.con_none d hrest
        rw [dictGet_none_iff] at h0 ⊢
        exact fun hm => h0 (((dictPop_sublist _ _).map Prod.fst).subset hm)

/-- C2: Deletion cleanup invariant — for every well-formed state and every
node present in the table, after `delete_node_and_children` completes, that
node and all its descendants are absent from the node table, the dependency
graph, and the constraints map, and no surviving dependency list contains
any deleted id. -/
theorem c2_delete_cleanup (s : AgentState) (nid : Nat) (n : Node)
    (hwf : WF s) (hn : dictGet s.node_lookup nid = some n) :
    (∀ d, Desc s nid d →
      dictGet (delete_node_and_children s nid).node_lookup d = none ∧
      dictGet (delete_node_and_children s nid).attention.dependency_graph d = none ∧
      dictGet (delete_node_and_children s nid).attention.constraints d = none) ∧
    (∀ kv ∈ (delete_node_and_children s nid).attention.dependency_graph,
      ∀ d, Desc s nid d → d ∉ kv.2) := by
  have h := deleteRec_spec (s.node_lookup.length + 1) s nid n hwf hn
      (lt_of_le_of_lt (List.length_filter_le _ _) (Nat.lt_succ_self _))
  constructor
  · intro d hd
    exact ⟨h.tbl_none d hd, h.dep_none d hd, h.con_none d hd⟩
  · intro kv hkv d hd
    obtain ⟨l, _, _, hexc⟩ := h.dep_entries kv hkv
    exact hexc d hd

/-- A two-node tree with tracker entries, used to instantiate C2. -/
def c2node0 : Node := { mkNode 0 none none 0 with child_ids := [1] }

def c2node1 : Node := mkNode 1 (some 0) none 1

def c2state : AgentState :=
  { node_lookup := [(0, c2node0), (1, c2node1)],
    attention := { dependency_graph := [(0, [1]), (1, []), (5, [1, 0])],
                   constraints := [(1, [txt "format:json"]), (0, [])] },
    root_node_id := some 0, global_context := txt "g", execution_count := 0,
    next_id := 2 }

theorem c2_delete_cleanup_witness :
    WF c2state ∧ dictGet c2state.node_lookup 1 = some c2node1 ∧
    ((∀ d, Desc c2state 1 d →
      dictGet (delete_node_and_children c2state 1).node_lookup d = none ∧
      dictGet (delete_node_and_children c2state 1).attention.dependency_graph d = none ∧
      dictGet (delete_node_and_children c2state 1).attention.constraints d = none) ∧
    (∀ kv ∈ (delete_node_and_children c2state 1).attention.dependency_graph,
      ∀ d, Desc c2state 1 d → d ∉ kv.2)) :=
  ⟨by decide, rfl, c2_delete_cleanup c2state 1 c2node1 (by decide) rfl⟩

theorem map_if_id [DecidableEq κ] {l : List (κ × α)} {k : κ}
    (h : k ∉ l.map Prod.fst) (v : α) :
    l.map (fun kv => if kv.1 = k then (kv.1, v) else kv) = l := by
  induction l with
  | nil => rfl
  | cons kv rest ih =>
    simp only [List.map_cons, List.mem_cons, not_or] at h
    rw [List.map_cons, if_neg (fun hh => h.1 hh.symm), ih h.2]

theorem map_fst_setVal [DecidableEq κ] (l : List (κ × α)) (k : κ) (v : α) :
    (l.map (fun kv => if kv.1 = k then (kv.1, v) else kv)).map Prod.fst =
      l.map Prod.fst := by
  induction l with
  | nil => rfl
  | cons kv rest ih =>
    by_cases h : kv.1 = k <;> simp [h, ih]

/-- On a duplicate-free dict, setting a present key rewrites that entry in
place. -/
theorem dictSet_present_eq_map [DecidableEq κ] (l : List (κ × α)) (k : κ) (v : α)
    (hnd : (l.map Prod.fst).Nodup) (hk : k ∈ l.map Prod.fst) :
    dictSet l k v = l.map (fun kv => if kv.1 = k then (kv.1, v) else kv) := by
  induction l with
  | nil => simp at hk
  | cons kv0 rest ih =>
    obtain ⟨k1, v1⟩ := kv0
    simp only [List.map_cons, List.nodup_cons] at hnd
    by_cases h : k1 = k
    · subst h
      have h1 : dictSet ((k1, v1) :: rest) k1 v = (k1, v) :: rest := by
        simp [dictSet]
      rw [h1, List.map_cons, if_pos rfl, map_if_id hnd.1 v]
    · rcases List.mem_cons.mp hk with heq | hmem
      · exact absurd heq.symm h
      · simp only [dictSet, if_neg h, List.map_cons, if_neg h]
        rw [ih hnd.2 hmem]

theorem dictGet_updNode (s : AgentState) (nid : Nat) (f : Node → Node) (k : Nat) :
    dictGet (s.updNode nid f).node_lookup k =
      if k = nid then (dictGet s.node_lookup nid).map f else dictGet s.node_lookup k := by
  unfold AgentState.updNode
  cases hget : s.getNode nid with
  | none =>
    unfold AgentState.getNode at hget
    by_cases hk : k = nid
    · subst hk
      simp [hget]
    · simp [hk]
  | some n =>
    unfold AgentState.getNode at hget
    by_cases hk : k = nid
    · subst hk
      simp only [AgentState.putNode, hget, if_pos rfl]
      exact dictGet_dictSet_self _ _ _
    · simp only [AgentState.putNode, if_neg hk]
      exact dictGet_dictSet_ne _ _ _ _ hk

theorem updNode_attention (s : AgentState) (nid : Nat) (f : Node → Node) :
    (s.updNode nid f).attention = s.attention := by
  unfold AgentState.updNode
  cases s.getNode nid <;> rfl

theorem updNode_others (s : AgentState) (nid : Nat) (f : Node → Node) :
    (s.updNode nid f).root_node_id = s.root_node_id ∧
    (s.updNode nid f).global_context = s.global_context ∧
    (s.updNode nid f).execution_count = s.execution_count ∧
    (s.updNode nid f).next_id = s.next_id := by
  unfold AgentState.updNode
  cases s.getNode nid <;> exact ⟨rfl, rfl, rfl, rfl⟩

theorem updNode_node_lookup {s : AgentState} {nid : Nat} {n : Node} (f : Node → Node)
    (hnd : (s.node_lookup.map Prod.fst).Nodup)
    (hn : dictGet s.node_lookup nid = some n) :
    (s.updNode nid f).node_lookup =
      s.node_lookup.map (fun kv => if kv.1 = nid then (kv.1, f n) else kv) := by
  unfold AgentState.updNode AgentState.getNode
  rw [hn]
  show dictSet s.node_lookup nid (f n) = _
  exact dictSet_present_eq_map _ _ _ hnd
    (List.mem_map.mpr ⟨(nid, n), mem_of_dictGet_some hn, rfl⟩)

/-- Updating one node without touching its id, depth or child list keeps
the state well-formed. -/
theorem WF_updNode_struct {s : AgentState} (hwf : WF s) (nid : Nat) (f : Node → Node)
    (hid : ∀ nx, (f nx).node_id = nx.node_id)
    (hdepth : ∀ nx, (f nx).depth = nx.depth)
    (hch : ∀ nx, (f nx).child_ids = nx.child_ids) : WF (s.updNode nid f) := by
  obtain ⟨w1, w2, w3, w4, w5, w6, w7, w8⟩ := hwf
  cases hn : dictGet s.node_lookup nid with
  | none =>
    have : s.updNode nid f = s := by
      unfold AgentState.updNode AgentState.getNode
      rw [hn]
    rw [this]
    exact ⟨w1, w2, w3, w4, w5, w6, w7, w8⟩
  | some n =>
    have htbl := updNode_node_lookup f w1 hn
    have hmementries : ∀ kv ∈ (s.updNode nid f).node_lookup,
        ∃ kv0 ∈ s.node_lookup, kv.1 = kv0.1 ∧
          kv.2.node_id = kv0.2.node_id ∧ kv.2.depth = kv0.2.depth ∧
          kv.2.child_ids = kv0.2.child_ids := by
      intro kv hkv
      rw [htbl] at hkv
      obtain ⟨kv0, hkv0, heq⟩ := List.mem_map.mp hkv
      by_cases h : kv0.1 = nid
      · have hkv02 : kv0.2 = n := by
          have := dictGet_eq_some_of_mem w1 (show (nid, kv0.2) ∈ s.node_lookup from by
            rw [← h]
            exact hkv0)
          rw [hn] at this
          exact (Option.some.inj this).symm
        rw [if_pos h] at heq
        refine ⟨kv0, hkv0, ?_, ?_, ?_, ?_⟩
        · rw [← heq]
        · rw [← heq]
          show (f n).node_id = kv0.2.node_id
          rw [hid, hkv02]
        · rw [← heq]
          show (f n).depth = kv0.2.depth
          rw [hdepth, hkv02]
        · rw [← heq]
          show (f n).child_ids = kv0.2.child_ids
          rw [hch, hkv02]
      · rw [if_neg h] at heq
        exact ⟨kv0, hkv0, by rw [← heq], by rw [← heq], by rw [← heq], by rw [← heq]⟩
    have hkeys : (s.updNode nid f).node_lookup.map Prod.fst =
        s.node_lookup.map Prod.fst := by
      rw [htbl]
      exact map_fst_setVal _ _ _
    have hatt := updNode_attention s nid f
    refine ⟨?_, ?_, ?_, ?_, ?_, ?_, ?_, ?_⟩
    · rw [hkeys]
      exact w1
    · intro kv hkv
      obtain ⟨kv0, hkv0, he1, he2, _, _⟩ := hmementries kv hkv
      rw [he1, he2]
      exact w2 kv0 hkv0
    · intro kv hkv
      obtain ⟨kv0, hkv0, _, _, _, he4⟩ := hmementries kv hkv
      rw [he4]
      exact w3 kv0 hkv0
    · intro kv hkv c hc cn hcn
      obtain ⟨kv0, hkv0, _, _, he3, he4⟩ := hmementries kv hkv
      simp only [Option.mem_toList, Option.mem_def] at hcn
      rw [dictGet_updNode] at hcn
      by_cases hcnid : c = nid
      · subst hcnid
        rw [if_pos rfl, hn] at hcn
        have hcn2 : cn = f n := by
          simpa using hcn.symm
        rw [hcn2, hdepth, he3]
        rw [he4] at hc
        exact w4 kv0 hkv0 c hc n (by simp [hn])
      · rw [if_neg hcnid] at hcn
        rw [he3]
        rw [he4] at hc
        exact w4 kv0 hkv0 c hc cn (by simp [hcn])
    · intro kv1 h1 kv2 h2 c hc1 hc2
      obtain ⟨kv01, hm1, ha1, _, _, hb1⟩ := hmementries kv1 h1
      obtain ⟨kv02, hm2, ha2, _, _, hb2⟩ := hmementries kv2 h2
      rw [ha1, ha2]
      rw [hb1] at hc1
      rw [hb2] at hc2
      exact w5 kv01 hm1 kv02 hm2 c hc1 hc2
    · rw [hatt]
      exact w6
    · rw [hatt]
      exact w7
    · rw [hatt]
      exact w8

/-- Descendant chains only read child lists, so they transfer between
states whose tables agree on child lists. -/
theorem desc_of_map_child_ids {t s : AgentState}
    (h : ∀ k, (dictGet t.node_lookup k).map Node.child_ids =
      (dictGet s.node_lookup k).map Node.child_ids) :
    ∀ {a d : Nat}, Desc t a d → Desc s a d := by
  intro a d hd
  induction hd with
  | refl => exact Desc.refl _
  | step bn cn hdx hb hc hcn ih =>
    rename_i b2 c2
    have hb2 : (dictGet s.node_lookup b2).map Node.child_ids = some bn.child_ids := by
      rw [← h b2, hb]
      rfl
    have hcn2 : (dictGet s.node_lookup c2).map Node.child_ids = some cn.child_ids := by
      rw [← h c2, hcn]
      rfl
    obtain ⟨bn2, hbn2, hbe⟩ := Option.map_eq_some'.mp hb2
    obtain ⟨cn2, hcn2x, _⟩ := Option.map_eq_some'.mp hcn2
    exact Desc.step bn2 cn2 ih hbn2 (by rw [hbe]; exact hc) hcn2x

/-- The trivial deletion invariant at the start of a fold. -/
theorem DelInv_init {s : AgentState} (hwf : WF s) : DelInv s (fun _ => False) s := by
  refine ⟨hwf, List.Sublist.refl _, fun k _ => rfl, fun d hd => hd.elim,
    List.Sublist.refl _, ?_, fun d hd => hd.elim, List.Sublist.refl _,
    fun d hd => hd.elim⟩
  intro kv hkv
  exact ⟨kv.2, dictGet_eq_some_of_mem hwf.2.2.2.2.2.1 hkv, List.Sublist.refl _,
    fun d hd => hd.elim⟩

/-- Effect of the child-deletion fold inside the components module's
`_regenerate_node`, which calls `delete_node_and_children` per child. -/
theorem regen_fold_inv (s : AgentState) (hwf : WF s) :
    ∀ (rest : List Nat) (P : Nat → Prop) (st : AgentState),
    rest.Nodup →
    (∀ c ∈ rest, ∀ cn, dictGet s.node_lookup c = some cn → ∀ d, Desc s c d → ¬ P d) →
    (∀ c1 ∈ rest, ∀ c2 ∈ rest, c1 ≠ c2 → ∀ d, Desc s c1 d → Desc s c2 d → False) →
    DelInv s P st →
    DelInv s
      (fun d => P d ∨ ∃ c ∈ rest, ∃ cn, dictGet s.node_lookup c = some cn ∧ Desc s c d)
      (List.foldl
        (fun stx cid =>
          if dictHasKey stx.node_lookup cid then delete_node_and_children stx cid else stx)
        st rest) := by
  intro rest
  induction rest with
  | nil =>
    intro P st hnd hP hdisj inv
    refine DelInv.congr (fun d => ?_) inv
    simp
  | cons c rest' ih =>
    intro P st hnd hP hdisj inv
    cases hc : dictGet s.node_lookup c with
    | none =>
      have hstc : dictGet st.node_lookup c = none := by
        rw [dictGet_none_iff] at hc ⊢
        intro hmem
        exact hc (List.Sublist.subset (inv.tbl_sub.map Prod.fst) hmem)
      have hkey : dictHasKey st.node_lookup c = false := by
        simp [dictHasKey, hstc]
      have hfold : List.foldl
          (fun stx cid =>
            if dictHasKey stx.node_lookup cid then delete_node_and_children stx cid else stx)
          st (c :: rest') =
          List.foldl
          (fun stx cid =>
            if dictHasKey stx.node_lookup cid then delete_node_and_children stx cid else stx)
          st rest' := by
        rw [List.foldl_cons]
        congr 1
        show (if dictHasKey st.node_lookup c then delete_node_and_children st c else st) = st
        rw [hkey]
        simp
      rw [hfold]
      have res := ih P st (List.Nodup.of_cons hnd)
          (fun c2 hc2 => hP c2 (List.mem_cons_of_mem _ hc2))
          (fun c1 h1 c2 h2 => hdisj c1 (List.mem_cons_of_mem _ h1) c2
            (List.mem_cons_of_mem _ h2))
          inv
      refine DelInv.congr (fun d => ?_) res
      constructor
      · rintro (hp | ⟨c2, hc2, cn2, hcn2, hdesc⟩)
        · exact Or.inl hp
        · exact Or.inr ⟨c2, List.mem_cons_of_mem _ hc2, cn2, hcn2, hdesc⟩
      · rintro (hp | ⟨c2, hc2, cn2, hcn2, hdesc⟩)
        · exact Or.inl hp
        · rcases List.mem_cons.mp hc2 with heq | hmem
          · subst heq
            rw [hc] at hcn2
            simp at hcn2
          · exact Or.inr ⟨c2, hmem, cn2, hcn2, hdesc⟩
    | some cn =>
      have hnotP : ¬ P c := hP c (List.mem_cons_self _ _) cn hc c (Desc.refl c)
      have hstc : dictGet st.node_lookup c = some cn := by
        rw [inv.tbl_frame c hnotP]
        exact hc
      have hkey : dictHasKey st.node_lookup c = true := by
        simp [dictHasKey, hstc]
      have hsubframe : ∀ k, Desc s c k →
          dictGet st.node_lookup k = dictGet s.node_lookup k :=
        fun k hk => inv.tbl_frame k (hP c (List.mem_cons_self _ _) cn hc k hk)
      have hT2 : ∀ d, Desc s c d → Desc st c d :=
        fun d hd => desc_of_frame hsubframe hd
      have hT1 : ∀ d, Desc st c d → Desc s c d :=
        fun d hd => desc_of_sublist hwf.1 inv.tbl_sub hd
      have D : DelInv st (Desc st c) (delete_node_and_children st c) :=
        deleteRec_spec (st.node_lookup.length + 1) st c cn inv.wf hstc
          (lt_of_le_of_lt (List.length_filter_le _ _) (Nat.lt_succ_self _))
      have inv2 : DelInv s
          (fun d => P d ∨ ∃ cn0, dictGet s.node_lookup c = some cn0 ∧ Desc s c d)
          (delete_node_and_children st c) := by
        refine ⟨D.wf, D.tbl_sub.trans inv.tbl_sub, ?_, ?_,
          D.dep_keys.trans inv.dep_keys, ?_, ?_, D.con_keys.trans inv.con_keys, ?_⟩
        · intro k hk
          have hk1 : ¬ P k := fun h => hk (Or.inl h)
          have hk2 : ¬ Desc s c k := fun h => hk (Or.inr ⟨cn, hc, h⟩)
          rw [D.tbl_frame k (fun h => hk2 (hT1 k h))]
          exact inv.tbl_frame k hk1
        · intro d hd
          rcases hd with hp | ⟨cn0, hcn0, hdesc⟩
          · have h0 := inv.tbl_none d hp
            rw [dictGet_none_iff] at h0 ⊢
            exact fun hm => h0 (List.Sublist.subset (D.tbl_sub.map Prod.fst) hm)
          · exact D.tbl_none d (hT2 d hdesc)
        · intro kv hkv
          obtain ⟨l1, hl1, hsub1, hexc1⟩ := D.dep_entries kv hkv
          obtain ⟨l, hl, hsub, hexc⟩ := inv.dep_entries (kv.1, l1) (mem_of_dictGet_some hl1)
          refine ⟨l, hl, hsub1.trans hsub, ?_⟩
          intro d hd
          rcases hd with hp | ⟨cn0, hcn0, hdesc⟩
          · intro hmem
            exact hexc d hp (hsub1.subset hmem)
          · exact hexc1 d (hT2 d hdesc)
        · intro d hd
          rcases hd with hp | ⟨cn0, hcn0, hdesc⟩
          · have h0 := inv.dep_none d hp
            rw [dictGet_none_iff] at h0 ⊢
            exact fun hm => h0 (List.Sublist.subset D.dep_keys hm)
          · exact D.dep_none d (hT2 d hdesc)
        · intro d hd
          rcases hd with hp | ⟨cn0, hcn0, hdesc⟩
          · have h0 := inv.con_none d hp
            rw [dictGet_none_iff] at h0 ⊢
            exact fun hm => h0 (List.Sublist.subset D.con_keys hm)
          · exact D.con_none d (hT2 d hdesc)
      have res := ih
          (fun d => P d ∨ ∃ cn0, dictGet s.node_lookup c = some cn0 ∧ Desc s c d)
          (delete_node_and_children st c)
          (List.Nodup.of_cons hnd)
          (fun c2 hc2 cn2 hcn2 d hdesc hcontra => by
            rcases hcontra with hp | ⟨cn0, hcn0, hdesc0⟩
            · exact hP c2 (List.mem_cons_of_mem _ hc2) cn2 hcn2 d hdesc hp
            · have hne : c ≠ c2 := by
                intro heq
                subst heq
                exact (List.nodup_cons.mp hnd).1 hc2
              exact hdisj c2 (List.mem_cons_of_mem _ hc2) c (List.mem_cons_self _ _)
                (fun hh => hne hh.symm) d hdesc hdesc0)
          (fun c1 h1 c2 h2 => hdisj c1 (List.mem_cons_of_mem _ h1) c2
            (List.mem_cons_of_mem _ h2))
          inv2
      have hfold : List.foldl
          (fun stx cid =>
            if dictHasKey stx.node_lookup cid then delete_node_and_children stx cid else stx)
          st (c :: rest') =
          List.foldl
          (fun stx cid =>
            if dictHasKey stx.node_lookup cid then delete_node_and_children stx cid else stx)
          (delete_node_and_children st c) rest' := by
        rw [List.foldl_cons]
        congr 1
        show (if dictHasKey st.node_lookup c then delete_node_and_children st c else st)
          = delete_node_and_children st c
        rw [hkey]
        simp
      rw [hfold]
      refine DelInv.congr (fun d => ?_) res
      constructor
      · rintro ((hp | ⟨cn0, hcn0, hdesc⟩) | ⟨c2, hc2, cn2, hcn2, hdesc⟩)
        · exact Or.inl hp
        · exact Or.inr ⟨c, List.mem_cons_self _ _, cn0, hcn0, hdesc⟩
        · exact Or.inr ⟨c2, List.mem_cons_of_mem _ hc2, cn2, hcn2, hdesc⟩
      · rintro (hp | ⟨c2, hc2, cn2, hcn2, hdesc⟩)
        · exact Or.inl (Or.inl hp)
        · rcases List.mem_cons.mp hc2 with heq | hmem
          · subst heq
            exact Or.inl (Or.inr ⟨cn2, hcn2, hdesc⟩)
          · exact Or.inr ⟨c2, hmem, cn2, hcn2, hdesc⟩

/-- The per-node reset performed by both modules' `_regenerate_node`:
status pending, output and error cleared, guidance stored. -/
def regenReset (g : Str) (nx : Node) : Node :=
  ({ nx with status := STATUS_PENDING, output := [], error_message := [] } :
    Node).store_in_memory (txt "regeneration_guidance") (JVal.str g)

/-- The state passed to `_execute_node` by the components module's
`_regenerate_node`: reset node, children subtrees deleted, child list
cleared. -/
def regenMid (s : AgentState) (nid : Nat) (g : Str) : AgentState :=
  let s1 := s.updNode nid (regenReset g)
  let childIds :=
    match s1.getNode nid with
    | some nx => nx.child_ids
    | none => []
  let s2 := childIds.foldl
    (fun st cid =>
      if dictHasKey st.node_lookup cid then delete_node_and_children st cid else st) s1
  s2.updNode nid (fun nx => { nx with child_ids := [] })

theorem regenerate_comp_eq (env : GenEnv) (s : AgentState) (nid : Nat) (g : Str)
    (tr : Trace) :
    _regenerate_node_comp env s nid g tr = _execute_node_comp env (regenMid s nid g) nid tr :=
  rfl

theorem regenReset_node_id (g : Str) (nx : Node) :
    (regenReset g nx).node_id = nx.node_id := by
  unfold regenReset Node.store_in_memory
  cases nx.local_memory <;> rfl

theorem regenReset_depth (g : Str) (nx : Node) :
    (regenReset g nx).depth = nx.depth := by
  unfold regenReset Node.store_in_memory
  cases nx.local_memory <;> rfl

theorem regenReset_child_ids (g : Str) (nx : Node) :
    (regenReset g nx).child_ids = nx.child_ids := by
  unfold regenReset Node.store_in_memory
  cases nx.local_memory <;> rfl

theorem regenReset_val (g : Str) (n : Node) (m : LocalMemory)
    (hmem : n.local_memory = MemAttr.mem m) :
    regenReset g n =
      { n with status := STATUS_PENDING, output := [], error_message := [],
               local_memory :=
                 MemAttr.mem (m.store (txt "regeneration_guidance") (JVal.str g)) } := by
  unfold regenReset Node.store_in_memory
  dsimp only
  rw [hmem]

/-- Behaviour of the intermediate state of the components module's
`_regenerate_node`: the target node is reset with no children; each
present child's subtree is fully removed from the table and the tracker. -/
theorem regenMid_spec (s : AgentState) (nid : Nat) (n : Node) (m : LocalMemory)
    (g : Str) (hwf : WF s) (hn : dictGet s.node_lookup nid = some n)
    (hmem : n.local_memory = MemAttr.mem m) :
    dictGet (regenMid s nid g).node_lookup nid = some
      { n with status := STATUS_PENDING, output := [], error_message := [],
               local_memory :=
                 MemAttr.mem (m.store (txt "regeneration_guidance") (JVal.str g)),
               child_ids := [] } ∧
    (∀ c ∈ n.child_ids, ∀ cn, dictGet s.node_lookup c = some cn →
      ∀ d, Desc s c d →
        dictGet (regenMid s nid g).node_lookup d = none ∧
        dictGet (regenMid s nid g).attention.dependency_graph d = none ∧
        dictGet (regenMid s nid g).attention.constraints d = none ∧
        ∀ kv ∈ (regenMid s nid g).attention.dependency_graph, d ∉ kv.2) := by
  have hwf1 : WF (s.updNode nid (regenReset g)) :=
    WF_updNode_struct hwf nid _ (regenReset_node_id g) (regenReset_depth g)
      (regenReset_child_ids g)
  have hget1 : dictGet (s.updNode nid (regenReset g)).node_lookup nid =
      some (regenReset g n) := by
    rw [dictGet_updNode, if_pos rfl, hn]
    rfl
  have hmid : regenMid s nid g =
      AgentState.updNode
        (List.foldl
          (fun st cid =>
            if dictHasKey st.node_lookup cid then delete_node_and_children st cid else st)
          (s.updNode nid (regenReset g)) n.child_ids)
        nid (fun nx => { nx with child_ids := [] }) := by
    unfold regenMid
    dsimp only
    rw [show AgentState.getNode (s.updNode nid (regenReset g)) nid
        = some (regenReset g n) from hget1]
    rw [← regenReset_child_ids g n]
  have hnd1 : n.child_ids.Nodup := hwf.2.2.1 _ (mem_of_dictGet_some hn)
  have Hdisj1 : ∀ c1 ∈ n.child_ids, ∀ c2 ∈ n.child_ids, c1 ≠ c2 →
      ∀ d, Desc (s.updNode nid (regenReset g)) c1 d →
        Desc (s.updNode nid (regenReset g)) c2 d → False := by
    intro c1 h1 c2 h2 hne d hd1 hd2
    exact desc_disjoint_strong hwf1 hget1
      (by rw [regenReset_child_ids]; exact h1)
      (by rw [regenReset_child_ids]; exact h2) hne d hd1 hd2
  have fold2 := regen_fold_inv (s.updNode nid (regenReset g)) hwf1 n.child_ids
      (fun _ => False) (s.updNode nid (regenReset g)) hnd1
      (fun _ _ _ _ _ _ => id) Hdisj1 (DelInv_init hwf1)
  have hmapc : ∀ k, (dictGet (s.updNode nid (regenReset g)).node_lookup k).map
      Node.child_ids = (dictGet s.node_lookup k).map Node.child_ids := by
    intro k
    rw [dictGet_updNode]
    by_cases hk : k = nid
    · subst hk
      rw [if_pos rfl, hn]
      simp [regenReset_child_ids]
    · rw [if_neg hk]
  have hT12 : ∀ a d, Desc s a d → Desc (s.updNode nid (regenReset g)) a d :=
    fun a d h => desc_of_map_child_ids (fun k => (hmapc k).symm) h
  constructor
  · rw [hmid, dictGet_updNode, if_pos rfl]
    have hnid_frame : dictGet
        (List.foldl
          (fun st cid =>
            if dictHasKey st.node_lookup cid then delete_node_and_children st cid else st)
          (s.updNode nid (regenReset g)) n.child_ids).node_lookup nid =
        some (regenReset g n) := by
      rw [fold2.tbl_frame nid ?hnp]
      · exact hget1
      case hnp =>
        rintro (hfalse | ⟨c, hcm, cn1, hcn1, hdesc⟩)
        · exact hfalse
        · exact desc_child_not_parent hwf1 hget1
            (by rw [regenReset_child_ids]; exact hcm) hcn1 hdesc
    rw [hnid_frame, regenReset_val g n m hmem]
    rfl
  · intro c hcm cn hcn d hdesc
    have hcne : c ≠ nid := by
      intro heq
      subst heq
      have h4 := hwf.2.2.2.1 _ (mem_of_dictGet_some hn) _ hcm n (by simp [hn])
      simp at h4
    have hcn1 : dictGet (s.updNode nid (regenReset g)).node_lookup c = some cn := by
      rw [dictGet_updNode, if_neg hcne]
      exact hcn
    have hdesc1 : Desc (s.updNode nid (regenReset g)) c d := hT12 c d hdesc
    have hPf : False ∨ ∃ c2 ∈ n.child_ids, ∃ cn2,
        dictGet (s.updNode nid (regenReset g)).node_lookup c2 = some cn2 ∧
        Desc (s.updNode nid (regenReset g)) c2 d :=
      Or.inr ⟨c, hcm, cn, hcn1, hdesc1⟩
    have hdne : d ≠ nid := by
      intro heq
      subst heq
      exact desc_child_not_parent hwf1 hget1
        (by rw [regenReset_child_ids]; exact hcm) hcn1 hdesc1
    refine ⟨?_, ?_, ?_, ?_⟩
    · rw [hmid, dictGet_updNode, if_neg hdne]
      exact fold2.tbl_none d hPf
    · rw [hmid, updNode_attention]
      exact fold2.dep_none d hPf
    · rw [hmid, updNode_attention]
      exact fold2.con_none d hPf
    · rw [hmid, updNode_attention]
      intro kv hkv
      obtain ⟨l, _, _, hexc⟩ := fold2.dep_entries kv hkv
      exact hexc d hPf

/-- A root with two children and tracker entries, used for C8. -/
def c8node : Node := { mkNode 0 none none 0 with child_ids := [1, 2] }

def c8n1 : Node := mkNode 1 (some 0) none 1

def c8n2 : Node := mkNode 2 (some 0) none 1

def c8mem : LocalMemory := { node_id := 0, local_memory := [] }

def c8state : AgentState :=
  { node_lookup := [(0, c8node), (1, c8n1), (2, c8n2)],
    attention := { dependency_graph := [(0, [1]), (1, [2]), (2, [])],
                   constraints := [(1, [txt "contains:x"])] },
    root_node_id := some 0, global_context := txt "g", execution_count := 0,
    next_id := 3 }

def c8env : GenEnv := { oracle := fun _ _ => Except.error (txt "boom") }

/-- C8 counterexample: the agent module's `_regenerate_node` does not
delete the node's children — after regenerating a node with two children,
both children are still in the table with the parent's child list and their
tracker entries intact (and no execute call occurs: the function is a pure
state update with no gateway access). -/
theorem c8_regenerate_counterexample :
    ((_regenerate_node c8state 0 (txt "fix")).getNode 0).map Node.child_ids =
      some [1, 2] ∧
    dictGet (_regenerate_node c8state 0 (txt "fix")).node_lookup 1 = some c8n1 ∧
    dictGet (_regenerate_node c8state 0 (txt "fix")).node_lookup 2 = some c8n2 ∧
    dictGet (_regenerate_node c8state 0 (txt "fix")).attention.dependency_graph 1 =
      some [2] ∧
    dictGet (_regenerate_node c8state 0 (txt "fix")).attention.constraints 1 =
      some [txt "contains:x"] :=
  ⟨rfl, rfl, rfl, rfl, rfl⟩

/-- C8 (amended): regenerate semantics differ between the modules.  The
agent module's `_regenerate_node` only resets the node (status pending,
output and error cleared, guidance stored under "regeneration_guidance")
— the children, the tracker and every other node are untouched, and
execute is not called again.  The components module's `_regenerate_node`
resets the node the same way, recursively deletes every present child and
their descendants (leaving the node with 0 children and the tracker with
no dependency or constraint entries for the removed ids, which also vanish
from surviving dependency lists), and then calls execute on the node
again. -/
theorem c8_regenerate_amended :
    (∀ (s : AgentState) (nid : Nat) (n : Node) (m : LocalMemory) (g : Str),
      dictGet s.node_lookup nid = some n → n.local_memory = MemAttr.mem m →
      _regenerate_node s nid g = s.putNode nid
        { n with status := STATUS_PENDING, output := [], error_message := [],
                 local_memory :=
                   MemAttr.mem (m.store (txt "regeneration_guidance") (JVal.str g)) }) ∧
    (∀ (env : GenEnv) (s : AgentState) (nid : Nat) (n : Node) (m : LocalMemory)
        (g : Str) (tr : Trace),
      WF s → dictGet s.node_lookup nid = some n → n.local_memory = MemAttr.mem m →
      _regenerate_node_comp env s nid g tr =
        _execute_node_comp env (regenMid s nid g) nid tr ∧
      dictGet (regenMid s nid g).node_lookup nid = some
        { n with status := STATUS_PENDING, output := [], error_message := [],
                 local_memory :=
                   MemAttr.mem (m.store (txt "regeneration_guidance") (JVal.str g)),
                 child_ids := [] } ∧
      (∀ c ∈ n.child_ids, ∀ cn, dictGet s.node_lookup c = some cn →
        ∀ d, Desc s c d →
          dictGet (regenMid s nid g).node_lookup d = none ∧
          dictGet (regenMid s nid g).attention.dependency_graph d = none ∧
          dictGet (regenMid s nid g).attention.constraints d = none ∧
          ∀ kv ∈ (regenMid s nid g).attention.dependency_graph, d ∉ kv.2)) := by
  constructor
  · intro s nid n m g hn hmem
    unfold _regenerate_node AgentState.updNode AgentState.getNode
    rw [hn]
    dsimp only
    rw [hmem]
    unfold Node.store_in_memory
    dsimp only
  · intro env s nid n m g tr hwf hn hmem
    refine ⟨regenerate_comp_eq env s nid g tr, ?_, ?_⟩
    · exact (regenMid_spec s nid n m g hwf hn hmem).1
    · exact (regenMid_spec s nid n m g hwf hn hmem).2

theorem c8_regenerate_amended_witness :
    dictGet c8state.node_lookup 0 = some c8node ∧
    c8node.local_memory = MemAttr.mem c8mem ∧
    WF c8state ∧
    (_regenerate_node c8state 0 (txt "fix") = c8state.putNode 0
      { c8node with status := STATUS_PENDING, output := [], error_message := [],
                    local_memory := MemAttr.mem
                      (c8mem.store (txt "regeneration_guidance") (JVal.str (txt "fix"))) }) ∧
    (_regenerate_node_comp c8env c8state 0 (txt "fix") ⟨0, 0⟩ =
      _execute_node_comp c8env (regenMid c8state 0 (txt "fix")) 0 ⟨0, 0⟩ ∧
    dictGet (regenMid c8state 0 (txt "fix")).node_lookup 0 = some
      { c8node with status := STATUS_PENDING, output := [], error_message := [],
                    local_memory := MemAttr.mem
                      (c8mem.store (txt "regeneration_guidance") (JVal.str (txt "fix"))),
                    child_ids := [] } ∧
    (∀ c ∈ c8node.child_ids, ∀ cn, dictGet c8state.node_lookup c = some cn →
      ∀ d, Desc c8state c d →
        dictGet (regenMid c8state 0 (txt "fix")).node_lookup d = none ∧
        dictGet (regenMid c8state 0 (txt "fix")).attention.dependency_graph d = none ∧
        dictGet (regenMid c8state 0 (txt "fix")).attention.constraints d = none ∧
        ∀ kv ∈ (regenMid c8state 0 (txt "fix")).attention.dependency_graph, d ∉ kv.2)) :=
  ⟨rfl, rfl, by decide,
   c8_regenerate_amended.1 c8state 0 c8node c8mem (txt "fix") rfl rfl,
   c8_regenerate_amended.2 c8env c8state 0 c8node c8mem (txt "fix") ⟨0, 0⟩
     (by decide) rfl rfl⟩

theorem mkNode_child_ids (a : Nat) (b : Option Nat) (c : Option JVal) (d : Nat) :
    (mkNode a b c d).child_ids = [] := by
  unfold mkNode
  cases c with
  | none => rfl
  | some t =>
    dsimp only
    by_cases h : t.truthy
    · rw [if_pos h]
      rfl
    · rw [if_neg h]

theorem mkNode_depth (a : Nat) (b : Option Nat) (c : Option JVal) (d : Nat) :
    (mkNode a b c d).depth = d := by
  unfold mkNode
  cases c with
  | none => rfl
  | some t =>
    dsimp only
    by_cases h : t.truthy
    · rw [if_pos h]
      rfl
    · rw [if_neg h]

theorem add_child_depth (n : Node) (x : Nat) : (n.add_child x).depth = n.depth := by
  unfold Node.add_child
  by_cases h : n.child_ids.contains x
  · rw [if_pos h]
  · rw [if_neg h]

theorem add_child_of_not_mem {n : Node} {x : Nat} (h : x ∉ n.child_ids) :
    n.add_child x = { n with child_ids := n.child_ids ++ [x] } := by
  unfold Node.add_child
  have hc : n.child_ids.contains x = false := by
    simpa using h
  rw [hc]
  simp

/-- States reachable from the creation operations alone: `run` making a
fresh root, and the two modules' child-creation methods invoked — as at
every call site in the repository — on a live node with depth one more
than the parent's. -/
inductive Reach : AgentState → Prop where
  | run_root (s0 : AgentState) (task : Str) (cons : List Str) :
      Reach (run s0 task cons)
  | child_agent {s : AgentState} {selfId : Nat} {n : Node} (task : JVal) :
      Reach s → dictGet s.node_lookup selfId = some n →
      Reach (node_create_child_node s selfId task (n.depth + 1))
  | child_comp {s : AgentState} {parentId : Nat} {n : Node} (task : JVal) :
      Reach s → dictGet s.node_lookup parentId = some n →
      Reach (create_child_node_comp s parentId task (n.depth + 1))

/-- The tree-depth invariant of C1, plus the bookkeeping that makes it
inductive: distinct table keys, ids below the uuid counter, and a present
root of depth 0. -/
def depthInv (s : AgentState) : Prop :=
  (s.node_lookup.map Prod.fst).Nodup ∧
  (∀ kv ∈ s.node_lookup, kv.1 < s.next_id) ∧
  (∀ kv ∈ s.node_lookup, ∀ c ∈ kv.2.child_ids, c < s.next_id) ∧
  (∀ kv ∈ s.node_lookup, ∀ c ∈ kv.2.child_ids,
    ∀ cn ∈ (dictGet s.node_lookup c).toList, cn.depth = kv.2.depth + 1) ∧
  (∀ rid ∈ s.root_node_id.toList, (dictGet s.node_lookup rid).map Node.depth = some 0)

instance (s : AgentState) : Decidable (depthInv s) := by
  unfold depthInv
  infer_instance

theorem depthInv_run (s0 : AgentState) (task : Str) (cons : List Str) :
    depthInv (run s0 task cons) := by
  have htbl : (run s0 task cons).node_lookup =
      [(s0.next_id, mkNode s0.next_id none (some (JVal.str task)) 0)] := rfl
  have hnext : (run s0 task cons).next_id = s0.next_id + 1 := rfl
  have hroot : (run s0 task cons).root_node_id = some s0.next_id := rfl
  refine ⟨?_, ?_, ?_, ?_, ?_⟩
  · rw [htbl]
    simp
  · intro kv hkv
    rw [htbl] at hkv
    simp only [List.mem_singleton] at hkv
    subst hkv
    rw [hnext]
    omega
  · intro kv hkv c hc
    rw [htbl] at hkv
    simp only [List.mem_singleton] at hkv
    subst hkv
    rw [mkNode_child_ids] at hc
    simp at hc
  · intro kv hkv c hc
    rw [htbl] at hkv
    simp only [List.mem_singleton] at hkv
    subst hkv
    rw [mkNode_child_ids] at hc
    simp at hc
  · intro rid hrid
    rw [hroot] at hrid
    simp only [Option.toList_some, List.mem_singleton] at hrid
    subst hrid
    rw [htbl]
    simp [dictGet, mkNode_depth]

theorem depthInv_create_child {s : AgentState} {selfId : Nat} {n : Node} (task : JVal)
    (inv : depthInv s) (hget : dictGet s.node_lookup selfId = some n) :
    depthInv (node_create_child_node s selfId task (n.depth + 1)) := by
  obtain ⟨i1, i2, i3, i4, i5⟩ := inv
  have hfresh : dictGet s.node_lookup s.next_id = none := by
    rw [dictGet_none_iff]
    intro hm
    obtain ⟨kv, hkv, heq⟩ := List.mem_map.mp hm
    have := i2 kv hkv
    rw [heq] at this
    omega
  have hself_lt : selfId < s.next_id := i2 (selfId, n) (mem_of_dictGet_some hget)
  have hself_ne : selfId ≠ s.next_id := by omega
  have hnid_notmem : s.next_id ∉ n.child_ids := by
    intro hm
    have := i3 (selfId, n) (mem_of_dictGet_some hget) _ hm
    omega
  have hadd : n.add_child s.next_id = { n with child_ids := n.child_ids ++ [s.next_id] } :=
    add_child_of_not_mem hnid_notmem
  have htbl1 : dictSet s.node_lookup s.next_id
      (mkNode s.next_id (some selfId) (some task) (n.depth + 1)) =
      s.node_lookup ++ [(s.next_id, mkNode s.next_id (some selfId) (some task) (n.depth + 1))] :=
    dictSet_append_of_get_none _ _ _ hfresh
  have hget1 : dictGet (dictSet s.node_lookup s.next_id
      (mkNode s.next_id (some selfId) (some task) (n.depth + 1))) selfId = some n := by
    rw [dictGet_dictSet_ne _ _ _ _ hself_ne]
    exact hget
  have hkeys1 : (dictSet s.node_lookup s.next_id
      (mkNode s.next_id (some selfId) (some task) (n.depth + 1))).map Prod.fst =
      s.node_lookup.map Prod.fst ++ [s.next_id] := by
    rw [htbl1, List.map_append]
    rfl
  have hnd1 : ((dictSet s.node_lookup s.next_id
      (mkNode s.next_id (some selfId) (some task) (n.depth + 1))).map Prod.fst).Nodup := by
    rw [hkeys1]
    refine List.Nodup.append i1 (List.nodup_singleton _) ?_
    intro x hx hx2
    simp only [List.mem_singleton] at hx2
    subst hx2
    rw [show s.next_id ∈ List.map Prod.fst s.node_lookup
        ↔ ¬ dictGet s.node_lookup s.next_id = none from by
      rw [dictGet_none_iff]
      exact (not_not).symm] at hx
    exact hx hfresh
  have hproj_tbl : (node_create_child_node s selfId task (n.depth + 1)).node_lookup =
      dictSet (dictSet s.node_lookup s.next_id
        (mkNode s.next_id (some selfId) (some task) (n.depth + 1))) selfId
        (n.add_child s.next_id) := by
    unfold node_create_child_node
    dsimp only
    unfold AgentState.updNode AgentState.getNode
    dsimp only
    rw [hget1]
    rfl
  have hproj_next : (node_create_child_node s selfId task (n.depth + 1)).next_id =
      s.next_id + 1 := by
    unfold node_create_child_node
    dsimp only
    unfold AgentState.updNode AgentState.getNode
    dsimp only
    rw [hget1]
    rfl
  have hproj_root : (node_create_child_node s selfId task (n.depth + 1)).root_node_id =
      s.root_node_id := by
    unfold node_create_child_node
    dsimp only
    unfold AgentState.updNode AgentState.getNode
    dsimp only
    rw [hget1]
    rfl
  have hmemk : selfId ∈ (dictSet s.node_lookup s.next_id
      (mkNode s.next_id (some selfId) (some task) (n.depth + 1))).map Prod.fst :=
    List.mem_map.mpr ⟨(selfId, n), mem_of_dictGet_some hget1, rfl⟩
  have htbl2 : dictSet (dictSet s.node_lookup s.next_id
      (mkNode s.next_id (some selfId) (some task) (n.depth + 1))) selfId
      (n.add_child s.next_id) =
      (dictSet s.node_lookup s.next_id
        (mkNode s.next_id (some selfId) (some task) (n.depth + 1))).map
        (fun kv => if kv.1 = selfId then (kv.1, n.add_child s.next_id) else kv) :=
    dictSet_present_eq_map _ _ _ hnd1 hmemk
  have hentry : ∀ kv ∈ (node_create_child_node s selfId task (n.depth + 1)).node_lookup,
      (∃ kv0 ∈ s.node_lookup,
        kv = if kv0.1 = selfId then (kv0.1, n.add_child s.next_id) else kv0) ∨
      kv = (s.next_id, mkNode s.next_id (some selfId) (some task) (n.depth + 1)) := by
    intro kv hkv
    rw [hproj_tbl, htbl2] at hkv
    obtain ⟨kv0, hkv0, heq⟩ := List.mem_map.mp hkv
    rw [htbl1] at hkv0
    rcases List.mem_append.mp hkv0 with hold | hnew
    · exact Or.inl ⟨kv0, hold, heq.symm⟩
    · simp only [List.mem_singleton] at hnew
      subst hnew
      rw [if_neg (by dsimp only; omega)] at heq
      exact Or.inr heq.symm
  have hself_entry_val : ∀ kv0 ∈ s.node_lookup, kv0.1 = selfId → kv0.2 = n := by
    intro kv0 hkv0 hfst
    have := dictGet_eq_some_of_mem i1 (show (selfId, kv0.2) ∈ s.node_lookup from by
      rw [← hfst]
      exact hkv0)
    rw [hget] at this
    exact (Option.some.inj this).symm
  have hgetT2 : ∀ k, dictGet (node_create_child_node s selfId task (n.depth + 1)).node_lookup k =
      if k = selfId then some (n.add_child s.next_id)
      else if k = s.next_id then
        some (mkNode s.next_id (some selfId) (some task) (n.depth + 1))
      else dictGet s.node_lookup k := by
    intro k
    rw [hproj_tbl]
    by_cases h1 : k = selfId
    · subst h1
      rw [if_pos rfl]
      exact dictGet_dictSet_self _ _ _
    · rw [if_neg h1, dictGet_dictSet_ne _ _ _ _ h1]
      by_cases h2 : k = s.next_id
      · subst h2
        rw [if_pos rfl]
        exact dictGet_dictSet_self _ _ _
      · rw [if_neg h2, dictGet_dictSet_ne _ _ _ _ h2]
  refine ⟨?_, ?_, ?_, ?_, ?_⟩
  · rw [hproj_tbl, htbl2, map_fst_setVal, hkeys1]
    refine List.Nodup.append i1 (List.nodup_singleton _) ?_
    intro x hx hx2
    simp only [List.mem_singleton] at hx2
    subst hx2
    rw [show s.next_id ∈ List.map Prod.fst s.node_lookup
        ↔ ¬ dictGet s.node_lookup s.next_id = none from by
      rw [dictGet_none_iff]
      exact (not_not).symm] at hx
    exact hx hfresh
  · intro kv hkv
    rw [hproj_next]
    rcases hentry kv hkv with ⟨kv0, hkv0, heq⟩ | heq
    · have hlt := i2 kv0 hkv0
      by_cases h : kv0.1 = selfId
      · rw [if_pos h] at heq
        subst heq
        dsimp only
        omega
      · rw [if_neg h] at heq
        subst heq
        omega
    · subst heq
      dsimp only
      omega
  · intro kv hkv c hc
    rw [hproj_next]
    rcases hentry kv hkv with ⟨kv0, hkv0, heq⟩ | heq
    · by_cases h : kv0.1 = selfId
      · rw [if_pos h] at heq
        subst heq
        dsimp only at hc
        rw [hadd] at hc
        dsimp only at hc
        rcases List.mem_append.mp hc with hcold | hcnew
        · have := i3 kv0 hkv0 c (by rw [hself_entry_val kv0 hkv0 h]; exact hcold)
          omega
        · simp only [List.mem_singleton] at hcnew
          omega
      · rw [if_neg h] at heq
        rw [heq] at hc
        have := i3 kv0 hkv0 c hc
        omega
    · subst heq
      dsimp only at hc
      rw [mkNode_child_ids] at hc
      simp at hc
  · intro kv hkv c hc cn hcn
    simp only [Option.mem_toList, Option.mem_def] at hcn
    rw [hgetT2] at hcn
    rcases hentry kv hkv with ⟨kv0, hkv0, heq⟩ | heq
    · by_cases h : kv0.1 = selfId
      · -- the updated parent entry
        rw [if_pos h] at heq
        subst heq
        dsimp only at hc ⊢
        have hkv02 := hself_entry_val kv0 hkv0 h
        rw [hadd] at hc
        dsimp only at hc
        rw [add_child_depth]
        rcases List.mem_append.mp hc with hcold | hcnew
        · -- an old child of the parent
          by_cases hcs : c = selfId
          · -- old self-loop: impossible by the old invariant
            subst hcs
            have := i4 kv0 hkv0 c (by rw [hkv02]; exact hcold) n (by
              simp only [Option.mem_toList, Option.mem_def]
              exact hget)
            rw [if_pos rfl] at hcn
            have hcn2 : cn = n.add_child s.next_id := by
              simpa using hcn.symm
            rw [hcn2, add_child_depth]
            rw [hkv02] at this
            omega
          · rw [if_neg hcs] at hcn
            have hclt : c < s.next_id := i3 kv0 hkv0 c (by rw [hkv02]; exact hcold)
            rw [if_neg (by omega)] at hcn
            rw [← hkv02]
            exact i4 kv0 hkv0 c (by rw [hkv02]; exact hcold) cn (by
              simp only [Option.mem_toList, Option.mem_def]
              exact hcn)
        · -- the new child
          simp only [List.mem_singleton] at hcnew
          subst hcnew
          rw [if_neg (by omega), if_pos rfl] at hcn
          have hcn2 : cn = mkNode s.next_id (some selfId) (some task) (n.depth + 1) := by
            simpa using hcn.symm
          rw [hcn2, mkNode_depth]
      · -- an untouched entry
        rw [if_neg h] at heq
        rw [heq] at hc ⊢
        have hclt : c < s.next_id := i3 kv0 hkv0 c hc
        by_cases hcs : c = selfId
        · subst hcs
          rw [if_pos rfl] at hcn
          have hcn2 : cn = n.add_child s.next_id := by
            simpa using hcn.symm
          rw [hcn2, add_child_depth]
          have hdepth_sn : n.depth = kv0.2.depth + 1 :=
            i4 kv0 hkv0 _ hc n (by
              simp only [Option.mem_toList, Option.mem_def]
              exact hget)
          exact hdepth_sn
        · rw [if_neg hcs, if_neg (by omega)] at hcn
          exact i4 kv0 hkv0 c hc cn (by
            simp only [Option.mem_toList, Option.mem_def]
            exact hcn)
    · -- the fresh node has no children
      subst heq
      dsimp only at hc
      rw [mkNode_child_ids] at hc
      exact absurd hc (List.not_mem_nil _)
  · intro rid hrid
    rw [hproj_root] at hrid
    have hold := i5 rid hrid
    have hpres : ∃ rn, dictGet s.node_lookup rid = some rn ∧ rn.depth = 0 := by
      cases hg : dictGet s.node_lookup rid with
      | none =>
        rw [hg] at hold
        simp at hold
      | some rn =>
        rw [hg] at hold
        exact ⟨rn, rfl, by simpa using hold⟩
    obtain ⟨rn, hrn, hrd⟩ := hpres
    have hrlt : rid < s.next_id := i2 (rid, rn) (mem_of_dictGet_some hrn)
    rw [hgetT2]
    by_cases h1 : rid = selfId
    · subst h1
      rw [if_pos rfl]
      rw [hget] at hrn
      have hnr : n = rn := Option.some.inj hrn
      have hd0 : (n.add_child s.next_id).depth = 0 := by
        rw [add_child_depth, hnr, hrd]
      simp [hd0]
    · rw [if_neg h1, if_neg (by omega), hrn]
      simpa using hrd

/-- C1: Tree depth invariant — after any sequence of create-root /
create-child operations, every present child of a present parent has depth
equal to the parent's depth plus one, and the root node created by `run`
is present with depth 0 (together with the key bookkeeping that makes the
induction go through). -/
theorem c1_depth_invariant (s : AgentState) (h : Reach s) : depthInv s := by
  induction h with
  | run_root s0 task cons => exact depthInv_run s0 task cons
  | child_agent task hr hget ih => exact depthInv_create_child task ih hget
  | child_comp task hr hget ih => exact depthInv_create_child task ih hget

/-- A concrete two-step creation history: `run`, then one child. -/
def c1root : AgentState :=
  run { node_lookup := [], attention := { dependency_graph := [], constraints := [] },
        root_node_id := none, global_context := txt "", execution_count := 0,
        next_id := 0 }
    (txt "root task") []

def c1state : AgentState := node_create_child_node c1root 0 (JVal.str (txt "sub")) 1

theorem c1_depth_invariant_witness : Reach c1state ∧ depthInv c1state :=
  ⟨@Reach.child_agent c1root 0 (mkNode 0 none (some (JVal.str (txt "root task"))) 0)
      (JVal.str (txt "sub")) (Reach.run_root _ _ _) rfl,
   c1_depth_invariant c1state
     (@Reach.child_agent c1root 0 (mkNode 0 none (some (JVal.str (txt "root task"))) 0)
       (JVal.str (txt "sub")) (Reach.run_root _ _ _) rfl)⟩

end SmartAgent
